import Mathlib

/-!
# Ledger chaincodes: asset registry and supply-chain tracker

A shallow embedding of the two Go chaincodes of the repository

* `chaincode-Asset/chaincode/smartcontract.go` (namespace `AssetCC`),
* `chaincode-supplychain/chaincode/smartcontract.go` (namespace `SupplyChain`),

over a model of the Hyperledger Fabric chaincode stub they call and of the Go
library functions they use (namespace `Fabric`).

## Strings

A Go string is a sequence of bytes (`GoString`), valid UTF-8 or not; keys are
compared byte by byte.  String literals of the source are written `utf8 "..."`,
the UTF-8 bytes of the text.  The text of a JSON document is a Lean `String`, a
sequence of Unicode scalar values: `json.Marshal` decodes the bytes of a Go
string and replaces every byte that is not part of a valid encoding by U+FFFD
(`decodeLossy`), `json.Unmarshal` gives the UTF-8 bytes of the text back.

## The stub model

The stub is the external ledger accessor.  It is modelled as a reliable
in-memory store with Fabric's transaction discipline:

* `GetState` and the range scans read the committed world state; writes issued
  by the running transaction are buffered in a write set and are not visible to
  its own reads;
* the write set is applied to the world state only when the transaction
  function returns without error (`Fabric.commit`); a transaction that returns
  an error leaves the world state as it was;
* the store itself does not fail spuriously: `GetState`, `DelState` and
  `GetTxTimestamp` always answer, `PutState` rejects only the empty key,
  `SetEvent` rejects only the empty event name, and `CreateCompositeKey`
  rejects exactly the attributes that are not valid UTF-8 or contain U+0000 or
  U+10FFFF.
-/

namespace Fabric

/-- Error kinds of the taxonomy of the specification (section 7).  The Go code
returns plain `error` values built with `fmt.Errorf`; each error site of the
embedding carries the Go message together with the kind the taxonomy gives it. -/
inductive ErrKind
  | InvalidInput
  | AlreadyExists
  | NotFound
  | NoOp
  | InvalidTransition
  | MalformedKey
  | StoreError
  | SerializationError
  deriving DecidableEq, Repr

/-- A Go string: a sequence of bytes, not necessarily valid UTF-8. -/
abbrev GoString := List UInt8

/-- The UTF-8 encoding of one Unicode scalar value. -/
def encodeChar (c : Char) : GoString :=
  if c.toNat < 0x80 then [UInt8.ofNat c.toNat]
  else if c.toNat < 0x800 then
    [UInt8.ofNat (0xC0 + c.toNat / 0x40), UInt8.ofNat (0x80 + c.toNat % 0x40)]
  else if c.toNat < 0x10000 then
    [UInt8.ofNat (0xE0 + c.toNat / 0x1000), UInt8.ofNat (0x80 + c.toNat / 0x40 % 0x40),
     UInt8.ofNat (0x80 + c.toNat % 0x40)]
  else
    [UInt8.ofNat (0xF0 + c.toNat / 0x40000), UInt8.ofNat (0x80 + c.toNat / 0x1000 % 0x40),
     UInt8.ofNat (0x80 + c.toNat / 0x40 % 0x40), UInt8.ofNat (0x80 + c.toNat % 0x40)]

/-- The UTF-8 encoding of a sequence of Unicode scalar values. -/
def encodeChars : List Char → GoString
  | [] => []
  | c :: cs => encodeChar c ++ encodeChars cs

/-- The Go string of a text: its UTF-8 bytes.  String literals of the Go source
are written with it. -/
def utf8 (s : String) : GoString := encodeChars s.data

/-- Whether the value of a byte lies in `lo..hi`. -/
def between (lo hi : Nat) (b : UInt8) : Bool := decide (lo ≤ b.toNat) && decide (b.toNat ≤ hi)

/-- Go's `utf8.DecodeRuneInString` on the bytes `b0 :: rest`: the code point
encoded at the head and the number of bytes of its encoding; `none` when the
head does not start a valid encoding (Go then yields `RuneError` with width 1).
Overlong encodings, surrogates and values above U+10FFFF are not valid. -/
def decodeRune (b0 : UInt8) (rest : GoString) : Option (Nat × Nat) :=
  if b0.toNat < 0x80 then some (b0.toNat, 1)
  else if b0.toNat < 0xC2 then none
  else if b0.toNat < 0xE0 then
    match rest with
    | b1 :: _ =>
      if between 0x80 0xBF b1 then some ((b0.toNat - 0xC0) * 0x40 + (b1.toNat - 0x80), 2)
      else none
    | _ => none
  else if b0.toNat < 0xF0 then
    match rest with
    | b1 :: b2 :: _ =>
      if between (if b0.toNat = 0xE0 then 0xA0 else 0x80)
            (if b0.toNat = 0xED then 0x9F else 0xBF) b1
          && between 0x80 0xBF b2 then
        some ((b0.toNat - 0xE0) * 0x1000 + (b1.toNat - 0x80) * 0x40 + (b2.toNat - 0x80), 3)
      else none
    | _ => none
  else if b0.toNat < 0xF5 then
    match rest with
    | b1 :: b2 :: b3 :: _ =>
      if between (if b0.toNat = 0xF0 then 0x90 else 0x80)
            (if b0.toNat = 0xF4 then 0x8F else 0xBF) b1
          && between 0x80 0xBF b2 && between 0x80 0xBF b3 then
        some ((b0.toNat - 0xF0) * 0x40000 + (b1.toNat - 0x80) * 0x1000 +
          (b2.toNat - 0x80) * 0x40 + (b3.toNat - 0x80), 4)
      else none
    | _ => none
  else none

/-- The runes of a Go string as a `range` loop and `json.Marshal` see them: each
valid encoding gives its code point, each other byte gives U+FFFD.  `skip` counts
the bytes still ahead that belong to the rune decoded last. -/
def decodeFrom : Nat → GoString → List Char
  | _, [] => []
  | skip + 1, _ :: rest => decodeFrom skip rest
  | 0, b0 :: rest =>
    match decodeRune b0 rest with
    | none => Char.ofNat 0xFFFD :: decodeFrom 0 rest
    | some (r, size) => Char.ofNat r :: decodeFrom (size - 1) rest

/-- The text of a Go string, every byte outside a valid encoding replaced by
U+FFFD: what `json.Marshal` writes for the string. -/
def decodeLossy (s : GoString) : String := String.mk (decodeFrom 0 s)

/-- The loop of `utf8.ValidString`. -/
def validFrom : Nat → GoString → Bool
  | _, [] => true
  | skip + 1, _ :: rest => validFrom skip rest
  | 0, b0 :: rest =>
    match decodeRune b0 rest with
    | none => false
    | some (_, size) => validFrom (size - 1) rest

/-- Go's `utf8.ValidString`. -/
def utf8Valid (s : GoString) : Bool := validFrom 0 s

/-- An error value: its kind and the message `fmt.Errorf` builds. -/
structure Error where
  kind : ErrKind
  msg : GoString
  deriving DecidableEq, Repr

deriving instance DecidableEq for Except

/-- The wrapping `fmt.Errorf("<pre>%v", err)`: message prefixed, kind kept. -/
def Error.wrap (pre : GoString) (err : Error) : Error :=
  { kind := err.kind, msg := pre ++ err.msg }

/-- Byte-wise lexicographic comparison of two keys (strictly less). -/
def keyLt : GoString → GoString → Bool
  | [], [] => false
  | [], _ :: _ => true
  | _ :: _, [] => false
  | a :: as, b :: bs =>
    if a.toNat < b.toNat then true
    else if b.toNat < a.toNat then false
    else keyLt as bs

/-- The committed world state: key/value entries, kept in key order by `put`. -/
abbrev World (V : Type) := List (GoString × V)

/-- The value stored under a key, if any. -/
def World.get {V : Type} : World V → GoString → Option V
  | [], _ => none
  | (k, v) :: rest, key => if k = key then some v else World.get rest key

/-- Write a value under a key: replaces the entry of that key or inserts a new
entry at its place in key order. -/
def World.put {V : Type} : World V → GoString → V → World V
  | [], key, value => [(key, value)]
  | (k, v) :: rest, key, value =>
    if keyLt key k then (key, value) :: (k, v) :: rest
    else if k = key then (key, value) :: rest
    else (k, v) :: World.put rest key value

/-- Remove a key. -/
def World.del {V : Type} (w : World V) (key : GoString) : World V :=
  w.filter (fun kv => decide (kv.1 ≠ key))

/-- The entries with `startKey ≤ key < endKey`, in stored order; an empty
`endKey` leaves the range unbounded above. -/
def World.range {V : Type} (w : World V) (startKey endKey : GoString) : World V :=
  w.filter (fun kv =>
    !keyLt kv.1 startKey && (decide (endKey = []) || keyLt kv.1 endKey))

/-- One buffered write of a transaction. -/
inductive Write (V : Type)
  | put (key : GoString) (value : V)
  | del (key : GoString)

/-- Payload of a chaincode event: a stored value or the bytes of a string. -/
inductive EventPayload (V : Type)
  | value (bytes : V)
  | text (s : GoString)

/-- The transaction timestamp of the proposal header. -/
structure Timestamp where
  Seconds : Int
  Nanos : Int
  deriving DecidableEq, Repr

/-- The chaincode stub of one transaction: the committed world state it reads,
the writes and the event it has accumulated, the transaction timestamp, and the
text `time.Unix(sec, nanos).UTC().Format(time.RFC3339)` of the Go standard
library renders, left as a parameter of the environment. -/
structure Stub (V : Type) where
  world : World V
  writes : List (Write V)
  event : Option (GoString × EventPayload V)
  txTimestamp : Timestamp
  formatRFC3339 : Timestamp → String

/-- The stub a transaction starts with. -/
def Stub.new {V : Type} (w : World V) (ts : Timestamp) (fmt : Timestamp → String) : Stub V :=
  { world := w, writes := [], event := none, txTimestamp := ts, formatRFC3339 := fmt }

/-- The call `stub.GetState(key)`: the committed value, `none` for Go's nil. -/
def GetState {V : Type} (stub : Stub V) (key : GoString) : Except Error (Option V) :=
  Except.ok (stub.world.get key)

/-- The call `stub.PutState(key, value)`: buffers the write; the empty key is refused. -/
def PutState {V : Type} (stub : Stub V) (key : GoString) (value : V) : Except Error (Stub V) :=
  if key = [] then Except.error ⟨ErrKind.StoreError, utf8 "key must not be an empty string"⟩
  else Except.ok { stub with writes := stub.writes ++ [Write.put key value] }

/-- The call `stub.DelState(key)`: buffers the deletion. -/
def DelState {V : Type} (stub : Stub V) (key : GoString) : Except Error (Stub V) :=
  Except.ok { stub with writes := stub.writes ++ [Write.del key] }

/-- The call `stub.SetEvent(name, payload)`: records the event; the empty name is refused. -/
def SetEvent {V : Type} (stub : Stub V) (name : GoString) (payload : EventPayload V) :
    Except Error (Stub V) :=
  if name = [] then Except.error ⟨ErrKind.StoreError, utf8 "event name can not be empty string"⟩
  else Except.ok { stub with event := some (name, payload) }

/-- The call `stub.GetTxTimestamp()`. -/
def GetTxTimestamp {V : Type} (stub : Stub V) : Except Error Timestamp :=
  Except.ok stub.txTimestamp

/-- U+0000, the separator of composite keys. -/
def minUnicodeRuneValue : Char := Char.ofNat 0

/-- U+10FFFF, the upper sentinel of composite-key range scans. -/
def maxUnicodeRuneValue : Char := Char.ofNat 0x10FFFF

/-- The namespace prefix of every composite key, the one byte 0. -/
def compositeKeyNamespace : GoString := [0]

/-- The start key a range scan substitutes for the empty start key. -/
def emptyKeySubstitute : GoString := [1]

/-- The loop of the shim function validateCompositeKeyAttribute: the first rune
U+0000 or U+10FFFF of a string, with the byte offset at which it starts. -/
def forbiddenRuneFrom : Nat → Nat → GoString → Option (Nat × Nat)
  | _, _, [] => none
  | skip + 1, index, _ :: rest => forbiddenRuneFrom skip (index + 1) rest
  | 0, index, b0 :: rest =>
    match decodeRune b0 rest with
    | none => forbiddenRuneFrom 0 (index + 1) rest
    | some (runeValue, size) =>
      if runeValue = minUnicodeRuneValue.toNat ∨ runeValue = maxUnicodeRuneValue.toNat then
        some (index, runeValue)
      else forbiddenRuneFrom (size - 1) (index + 1) rest

/-- A hexadecimal digit, lower case. -/
def hexDigit (n : Nat) : UInt8 :=
  if n < 10 then UInt8.ofNat (48 + n) else UInt8.ofNat (87 + n)

/-- The rendering `%x` of a string: two hexadecimal digits per byte. -/
def hexString : GoString → GoString
  | [] => []
  | b :: rest => hexDigit (b.toNat / 16) :: hexDigit (b.toNat % 16) :: hexString rest

/-- The shim's `validateCompositeKeyAttribute`: an attribute of a composite key
must be valid UTF-8 and may contain neither U+0000 nor U+10FFFF.  Like every
error raised by an operation of the ledger accessor its error is a store-level
error (section 6 of the specification), which the contracts wrap and
propagate. -/
def validateCompositeKeyAttribute (str : GoString) : Except Error Unit :=
  if !utf8Valid str then
    Except.error
      ⟨ErrKind.StoreError, utf8 "not a valid utf8 string: [" ++ hexString str ++ utf8 "]"⟩
  else
    match forbiddenRuneFrom 0 0 str with
    | some (index, runeValue) =>
      Except.error ⟨ErrKind.StoreError,
        utf8 "input contains unicode " ++
          (if runeValue = minUnicodeRuneValue.toNat then utf8 "U+0000" else utf8 "U+10FFFF") ++
          utf8 " starting at position [" ++ utf8 (Nat.repr index) ++
          utf8 "]. U+0000 and U+10FFFF are not allowed in the input attribute of a composite key"⟩
    | none => Except.ok ()

/-- Whether `validateCompositeKeyAttribute` accepts the string. -/
def validAttribute (str : GoString) : Bool :=
  match validateCompositeKeyAttribute str with
  | Except.ok _ => true
  | Except.error _ => false

/-- The bytes of a string without the byte 0. -/
def nulFree (xs : GoString) : Prop := ∀ b ∈ xs, b ≠ 0

/-- The loop of `CreateCompositeKey`: validate and append each attribute followed
by the separator `string(minUnicodeRuneValue)`. -/
def appendAttributes (ck : GoString) : List GoString → Except Error GoString
  | [] => Except.ok ck
  | att :: rest =>
    match validateCompositeKeyAttribute att with
    | Except.error err => Except.error err
    | Except.ok _ => appendAttributes (ck ++ att ++ encodeChar minUnicodeRuneValue) rest

/-- The call `stub.CreateCompositeKey(objectType, attributes)`. -/
def CreateCompositeKey (objectType : GoString) (attributes : List GoString) :
    Except Error GoString :=
  match validateCompositeKeyAttribute objectType with
  | Except.error err => Except.error err
  | Except.ok _ =>
    appendAttributes (compositeKeyNamespace ++ objectType ++ encodeChar minUnicodeRuneValue)
      attributes

/-- The components of a composite key: the pieces terminated by the byte 0; what
follows the last separator is dropped. `cur` holds the current piece reversed. -/
def splitComponents (cur : GoString) : GoString → List GoString
  | [] => []
  | c :: cs =>
    if c = 0 then cur.reverse :: splitComponents [] cs
    else splitComponents (c :: cur) cs

/-- The call `stub.SplitCompositeKey(key)`: skips the first byte (the namespace
marker) and returns the object type and the attributes.  The Go code indexes
`components[0]` and panics on a key without components; that is an error here. -/
def SplitCompositeKey (compositeKey : GoString) : Except Error (GoString × List GoString) :=
  match splitComponents [] (compositeKey.drop 1) with
  | [] => Except.error ⟨ErrKind.MalformedKey, utf8 "index out of range"⟩
  | objectType :: attributes => Except.ok (objectType, attributes)

/-- The check of the shim on the bounds of a range scan: a bound may not start
with the byte of the composite-key namespace. -/
def validateSimpleKeys : List GoString → Except Error Unit
  | [] => Except.ok ()
  | key :: rest =>
    if key.head? = some 0 then
      Except.error ⟨ErrKind.StoreError,
        utf8 "first character of the key [" ++ key ++
          utf8 "] contains a null character which is not allowed"⟩
    else validateSimpleKeys rest

/-- The call `stub.GetStateByRange(startKey, endKey)`: an empty start key is replaced by
`emptyKeySubstitute`, keys of the composite namespace are refused as bounds. -/
def GetStateByRange {V : Type} (stub : Stub V) (startKey endKey : GoString) :
    Except Error (World V) :=
  let startKey := if startKey = [] then emptyKeySubstitute else startKey
  match validateSimpleKeys [startKey, endKey] with
  | Except.error err => Except.error err
  | Except.ok _ => Except.ok (stub.world.range startKey endKey)

/-- The call `stub.GetStateByPartialCompositeKey(objectType, attributes)`: the entries
from the partial composite key up to that key followed by U+10FFFF. -/
def GetStateByPartialCompositeKey {V : Type} (stub : Stub V) (objectType : GoString)
    (attributes : List GoString) : Except Error (World V) :=
  match CreateCompositeKey objectType attributes with
  | Except.error err => Except.error err
  | Except.ok partialCompositeKey =>
    Except.ok (stub.world.range partialCompositeKey
      (partialCompositeKey ++ encodeChar maxUnicodeRuneValue))

/-- Apply one buffered write. -/
def applyWrite {V : Type} (w : World V) : Write V → World V
  | Write.put key value => w.put key value
  | Write.del key => w.del key

/-- Apply a write set in the order the writes were issued. -/
def applyWrites {V : Type} (w : World V) (ws : List (Write V)) : World V :=
  ws.foldl applyWrite w

/-- The world state after a transaction: its write set is applied when the
transaction function returned without error, and dropped otherwise. -/
def commit {V : Type} (w : World V) : Except Error (Stub V) → World V
  | Except.ok stub => applyWrites w stub.writes
  | Except.error _ => w

/-- The kind of failure of a result, `none` on success. -/
def failureKind {α : Type} : Except Error α → Option ErrKind
  | Except.ok _ => none
  | Except.error err => some err.kind

end Fabric

namespace SupplyChain

open Fabric

/-- StatusEntry records each status change with timestamp. -/
structure StatusEntry where
  Status : GoString
  Timestamp : GoString
  deriving DecidableEq, Repr

/-- Product represents a tracked item in the supply chain. -/
structure Product where
  ProductID : GoString
  CurrentStatus : GoString
  StatusHistory : List StatusEntry
  deriving DecidableEq, Repr

/-- The JSON object of a status entry: the text of its members `status` and
`timestamp`. -/
structure StatusEntryJSON where
  status : String
  timestamp : String
  deriving DecidableEq, Repr

/-- The JSON object of a product: the text of its members `productID` and
`currentStatus`, and the array `statusHistory`. -/
structure ProductJSON where
  productID : String
  currentStatus : String
  statusHistory : List StatusEntryJSON
  deriving DecidableEq, Repr

/-- The byte payloads this chaincode stores: JSON documents of products. -/
inductive Bytes
  | json (doc : ProductJSON)
  deriving DecidableEq, Repr

/-- The JSON object `json.Marshal` writes for a status entry. -/
def StatusEntry.toJSON (entry : StatusEntry) : StatusEntryJSON :=
  { status := decodeLossy entry.Status, timestamp := decodeLossy entry.Timestamp }

/-- The status entry `json.Unmarshal` reads from its JSON object. -/
def StatusEntryJSON.toStruct (doc : StatusEntryJSON) : StatusEntry :=
  { Status := utf8 doc.status, Timestamp := utf8 doc.timestamp }

/-- The JSON object `json.Marshal` writes for a product: every string is
written as text, bytes outside a valid UTF-8 encoding replaced by U+FFFD. -/
def Product.toJSON (product : Product) : ProductJSON :=
  { productID := decodeLossy product.ProductID
    currentStatus := decodeLossy product.CurrentStatus
    statusHistory := product.StatusHistory.map StatusEntry.toJSON }

/-- The product `json.Unmarshal` reads from its JSON object: every string is the
UTF-8 bytes of its text. -/
def ProductJSON.toStruct (doc : ProductJSON) : Product :=
  { ProductID := utf8 doc.productID
    CurrentStatus := utf8 doc.currentStatus
    StatusHistory := doc.statusHistory.map StatusEntryJSON.toStruct }

/-- The call `json.Marshal(product)`; it cannot fail on this record type. -/
def jsonMarshal (product : Product) : Except Error Bytes :=
  Except.ok (Bytes.json product.toJSON)

/-- The call `json.Unmarshal(bytes, &product)`. -/
def jsonUnmarshal : Bytes → Except Error Product
  | Bytes.json doc => Except.ok doc.toStruct

/-- Membership in the map `validStatuses`. -/
def validStatuses (status : GoString) : Bool :=
  decide (status = utf8 "Manufactured") || decide (status = utf8 "Shipped") ||
  decide (status = utf8 "In-Transit") || decide (status = utf8 "Delivered")

/-- The map `validTransitions`: `none` for a key that is not in the map. -/
def validTransitions (status : GoString) : Option (List GoString) :=
  if status = utf8 "Manufactured" then some [utf8 "Shipped"]
  else if status = utf8 "Shipped" then some [utf8 "In-Transit"]
  else if status = utf8 "In-Transit" then some [utf8 "Delivered"]
  else if status = utf8 "Delivered" then some []
  else none

/-- The function isValidTransition checks if a status transition is valid
according to the business rules. -/
def isValidTransition (currentStatus newStatus : GoString) : Bool :=
  match validTransitions currentStatus with
  | none => false
  | some allowedNextStatuses => allowedNextStatuses.any (fun status => decide (status = newStatus))

/-- The helper productExists checks for product existence. -/
def productExists (stub : Stub Bytes) (productID : GoString) : Except Error Bool :=
  match GetState stub productID with
  | Except.error err => Except.error (err.wrap (utf8 "ledger read error: "))
  | Except.ok productBytes => Except.ok productBytes.isSome

/-- The helper getTxTimestamp converts the transaction timestamp to RFC3339. -/
def getTxTimestamp (stub : Stub Bytes) : Except Error GoString :=
  match GetTxTimestamp stub with
  | Except.error err => Except.error (err.wrap (utf8 "timestamp unavailable: "))
  | Except.ok txTime => Except.ok (utf8 (stub.formatRFC3339 txTime))

/-- GetProduct retrieves the complete product record. -/
def GetProduct (stub : Stub Bytes) (productID : GoString) : Except Error Product :=
  if productID = [] then
    Except.error ⟨ErrKind.InvalidInput, utf8 "product ID cannot be empty"⟩
  else
    match GetState stub productID with
    | Except.error err => Except.error (err.wrap (utf8 "ledger read error: "))
    | Except.ok none =>
      Except.error ⟨ErrKind.NotFound, utf8 "product " ++ productID ++ utf8 " not found"⟩
    | Except.ok (some productBytes) =>
      match jsonUnmarshal productBytes with
      | Except.error err => Except.error (err.wrap (utf8 "unmarshaling error: "))
      | Except.ok product => Except.ok product

/-- The internal helper getProduct. -/
def getProduct (stub : Stub Bytes) (productID : GoString) : Except Error Product :=
  match GetProduct stub productID with
  | Except.error err => Except.error (err.wrap (utf8 "product fetch failed: "))
  | Except.ok product => Except.ok product

/-- RegisterProduct initializes a new product with Manufactured status. -/
def RegisterProduct (stub : Stub Bytes) (productID : GoString) : Except Error (Stub Bytes) :=
  if productID = [] then
    Except.error ⟨ErrKind.InvalidInput, utf8 "product ID cannot be empty"⟩
  else
    match productExists stub productID with
    | Except.error err => Except.error (err.wrap (utf8 "existence check failed: "))
    | Except.ok true =>
      Except.error
        ⟨ErrKind.AlreadyExists, utf8 "product " ++ productID ++ utf8 " already exists"⟩
    | Except.ok false =>
      match getTxTimestamp stub with
      | Except.error err => Except.error (err.wrap (utf8 "timestamp error: "))
      | Except.ok timestamp =>
        let product : Product :=
          { ProductID := productID
            CurrentStatus := utf8 "Manufactured"
            StatusHistory := [{ Status := utf8 "Manufactured", Timestamp := timestamp }] }
        match jsonMarshal product with
        | Except.error err => Except.error (err.wrap (utf8 "marshaling error: "))
        | Except.ok productBytes => PutState stub productID productBytes

/-- UpdateStatus transitions a product to a new state with validation. -/
def UpdateStatus (stub : Stub Bytes) (productID newStatus : GoString) :
    Except Error (Stub Bytes) :=
  if productID = [] then
    Except.error ⟨ErrKind.InvalidInput, utf8 "product ID cannot be empty"⟩
  else if !validStatuses newStatus then
    Except.error ⟨ErrKind.InvalidInput, utf8 "invalid status: " ++ newStatus⟩
  else
    match getProduct stub productID with
    | Except.error err => Except.error err
    | Except.ok product =>
      if product.CurrentStatus = newStatus then
        Except.error ⟨ErrKind.NoOp, utf8 "product already in status: " ++ newStatus⟩
      else if !isValidTransition product.CurrentStatus newStatus then
        Except.error ⟨ErrKind.InvalidTransition,
          utf8 "invalid transition from " ++ product.CurrentStatus ++ utf8 " to " ++ newStatus⟩
      else
        match getTxTimestamp stub with
        | Except.error err => Except.error (err.wrap (utf8 "timestamp error: "))
        | Except.ok timestamp =>
          let product : Product :=
            { product with
              CurrentStatus := newStatus
              StatusHistory :=
                product.StatusHistory ++ [{ Status := newStatus, Timestamp := timestamp }] }
          match jsonMarshal product with
          | Except.error err => Except.error (err.wrap (utf8 "marshaling error: "))
          | Except.ok productBytes => PutState stub productID productBytes

/-- GetProductHistory retrieves only the status timeline of a product. -/
def GetProductHistory (stub : Stub Bytes) (productID : GoString) :
    Except Error (List StatusEntry) :=
  match GetProduct stub productID with
  | Except.error err => Except.error err
  | Except.ok product => Except.ok product.StatusHistory

/-- The iterator loop of GetAllProducts: decode every scanned value. -/
def decodeProducts : World Bytes → Except Error (List Product)
  | [] => Except.ok []
  | (_, value) :: rest =>
    match jsonUnmarshal value with
    | Except.error err => Except.error (err.wrap (utf8 "unmarshaling error: "))
    | Except.ok product =>
      match decodeProducts rest with
      | Except.error err => Except.error err
      | Except.ok products => Except.ok (product :: products)

/-- GetAllProducts returns all registered products with their statuses. -/
def GetAllProducts (stub : Stub Bytes) : Except Error (List Product) :=
  match GetStateByRange stub [] [] with
  | Except.error err => Except.error (err.wrap (utf8 "ledger scan failed: "))
  | Except.ok resultsIterator => decodeProducts resultsIterator

/-- GetProductsByStatus retrieves all products with a specific status. -/
def GetProductsByStatus (stub : Stub Bytes) (status : GoString) : Except Error (List Product) :=
  if !validStatuses status then
    Except.error ⟨ErrKind.InvalidInput, utf8 "invalid status: " ++ status⟩
  else
    match GetAllProducts stub with
    | Except.error err => Except.error err
    | Except.ok allProducts =>
      Except.ok (allProducts.filter (fun product => decide (product.CurrentStatus = status)))

/-- A state-changing call of the supply-chain contract. -/
inductive Call
  | RegisterProduct (productID : GoString)
  | UpdateStatus (productID newStatus : GoString)

/-- Run one call as a transaction body. -/
def invoke (stub : Stub Bytes) : Call → Except Error (Stub Bytes)
  | Call.RegisterProduct productID => RegisterProduct stub productID
  | Call.UpdateStatus productID newStatus => UpdateStatus stub productID newStatus

/-- The world state after submitting one call with its transaction timestamp. -/
def step (fmt : Timestamp → String) (w : World Bytes) (tx : Timestamp × Call) : World Bytes :=
  commit w (invoke (Stub.new w tx.1 fmt) tx.2)

/-- The world state after a sequence of calls. -/
def run (fmt : Timestamp → String) (w : World Bytes) (txs : List (Timestamp × Call)) :
    World Bytes :=
  txs.foldl (step fmt) w

end SupplyChain

namespace AssetCC

open Fabric

/-- Asset structure. -/
structure Asset where
  AssetID : GoString
  Name : GoString
  Owner : GoString
  Value : Int
  deriving DecidableEq, Repr

/-- The JSON object of an asset: the text of its members `assetID`, `name` and
`owner`, and the number `value`. -/
structure AssetJSON where
  assetID : String
  name : String
  owner : String
  value : Int
  deriving DecidableEq, Repr

/-- The byte payloads this chaincode stores: the JSON document of an asset, or
the one-byte marker `[]byte{0}` of an index entry. -/
inductive Bytes
  | json (doc : AssetJSON)
  | zero
  deriving DecidableEq, Repr

/-- The JSON object `json.Marshal` writes for an asset: every string is written
as text, bytes outside a valid UTF-8 encoding replaced by U+FFFD. -/
def Asset.toJSON (asset : Asset) : AssetJSON :=
  { assetID := decodeLossy asset.AssetID
    name := decodeLossy asset.Name
    owner := decodeLossy asset.Owner
    value := asset.Value }

/-- The asset `json.Unmarshal` reads from its JSON object: every string is the
UTF-8 bytes of its text. -/
def AssetJSON.toStruct (doc : AssetJSON) : Asset :=
  { AssetID := utf8 doc.assetID
    Name := utf8 doc.name
    Owner := utf8 doc.owner
    Value := doc.value }

/-- The call `json.Marshal(asset)`; it cannot fail on this record type. -/
def jsonMarshal (asset : Asset) : Except Error Bytes :=
  Except.ok (Bytes.json asset.toJSON)

/-- The call `json.Unmarshal(bytes, &asset)`; the marker byte is not a JSON
document. -/
def jsonUnmarshal : Bytes → Except Error Asset
  | Bytes.json doc => Except.ok doc.toStruct
  | Bytes.zero =>
    Except.error
      ⟨ErrKind.SerializationError, utf8 "invalid character looking for beginning of value"⟩

/-- The decimal value of a digit string, `none` when a byte is not a digit. -/
def parseDigits (acc : Nat) : GoString → Option Nat
  | [] => some acc
  | c :: cs =>
    if 48 ≤ c.toNat ∧ c.toNat ≤ 57 then parseDigits (acc * 10 + (c.toNat - 48)) cs
    else none

/-- The call `strconv.Atoi` for a 64-bit `int`: an optional sign, then at least one
decimal digit and nothing else; the value must fit in 64 bits. -/
def Atoi (s : GoString) : Except Error Int :=
  let signed : Bool × GoString :=
    match s with
    | [] => (false, [])
    | c :: cs =>
      if c.toNat = 45 then (true, cs)
      else if c.toNat = 43 then (false, cs)
      else (false, c :: cs)
  if signed.2 = [] then Except.error ⟨ErrKind.InvalidInput, utf8 "invalid syntax"⟩
  else
    match parseDigits 0 signed.2 with
    | none => Except.error ⟨ErrKind.InvalidInput, utf8 "invalid syntax"⟩
    | some n =>
      if signed.1 then
        if n ≤ 2 ^ 63 then Except.ok (-(n : Int))
        else Except.error ⟨ErrKind.InvalidInput, utf8 "value out of range"⟩
      else
        if n < 2 ^ 63 then Except.ok (n : Int)
        else Except.error ⟨ErrKind.InvalidInput, utf8 "value out of range"⟩

/-- AssetExists returns true when an asset with given ID exists. -/
def AssetExists (stub : Stub Bytes) (assetID : GoString) : Except Error Bool :=
  match GetState stub assetID with
  | Except.error err => Except.error (err.wrap (utf8 "failed to read from world state: "))
  | Except.ok assetBytes => Except.ok assetBytes.isSome

/-- ReadAsset retrieves an asset by ID. -/
def ReadAsset (stub : Stub Bytes) (assetID : GoString) : Except Error Asset :=
  match GetState stub assetID with
  | Except.error err =>
    Except.error (err.wrap (utf8 "failed to read asset " ++ assetID ++ utf8 ": "))
  | Except.ok none =>
    Except.error ⟨ErrKind.NotFound, utf8 "asset " ++ assetID ++ utf8 " does not exist"⟩
  | Except.ok (some assetBytes) =>
    match jsonUnmarshal assetBytes with
    | Except.error err => Except.error err
    | Except.ok asset => Except.ok asset

/-- CreateAsset. -/
def CreateAsset (stub : Stub Bytes) (assetID name owner value : GoString) :
    Except Error (Stub Bytes) :=
  if assetID = [] ∨ name = [] ∨ owner = [] ∨ value = [] then
    Except.error ⟨ErrKind.InvalidInput, utf8 "all fields must be non-empty"⟩
  else
    match Atoi value with
    | Except.error _ =>
      Except.error ⟨ErrKind.InvalidInput, utf8 "value must be a valid integer"⟩
    | Except.ok valueInt =>
      match AssetExists stub assetID with
      | Except.error err => Except.error err
      | Except.ok true =>
        Except.error
          ⟨ErrKind.AlreadyExists, utf8 "asset " ++ assetID ++ utf8 " already exists"⟩
      | Except.ok false =>
        let asset : Asset :=
          { AssetID := assetID, Name := name, Owner := owner, Value := valueInt }
        match jsonMarshal asset with
        | Except.error err => Except.error (err.wrap (utf8 "failed to marshal asset: "))
        | Except.ok assetBytes =>
          match PutState stub assetID assetBytes with
          | Except.error err =>
            Except.error (err.wrap (utf8 "failed to put asset in world state: "))
          | Except.ok stub =>
            -- Store composite key for querying by owner
            match CreateCompositeKey (utf8 "owner~assetID") [owner, assetID] with
            | Except.error err =>
              Except.error (err.wrap (utf8 "failed to create composite key: "))
            | Except.ok compositeKey =>
              match PutState stub compositeKey Bytes.zero with
              | Except.error err =>
                Except.error (err.wrap (utf8 "failed to store composite key: "))
              | Except.ok stub =>
                -- Emit event
                match SetEvent stub (utf8 "AssetCreated") (EventPayload.value assetBytes) with
                | Except.error err => Except.error (err.wrap (utf8 "failed to emit event: "))
                | Except.ok stub => Except.ok stub

/-- UpdateAsset. -/
def UpdateAsset (stub : Stub Bytes) (assetID name owner value : GoString) :
    Except Error (Stub Bytes) :=
  match AssetExists stub assetID with
  | Except.error err => Except.error err
  | Except.ok false =>
    Except.error ⟨ErrKind.NotFound, utf8 "the asset " ++ assetID ++ utf8 " does not exist"⟩
  | Except.ok true =>
    match Atoi value with
    | Except.error _ =>
      Except.error ⟨ErrKind.InvalidInput, utf8 "value must be a valid integer"⟩
    | Except.ok valueInt =>
      let asset : Asset :=
        { AssetID := assetID, Name := name, Owner := owner, Value := valueInt }
      match jsonMarshal asset with
      | Except.error err => Except.error err
      | Except.ok assetBytes =>
        match PutState stub assetID assetBytes with
        | Except.error err => Except.error (err.wrap (utf8 "failed to update asset: "))
        | Except.ok stub =>
          match SetEvent stub (utf8 "AssetUpdated") (EventPayload.value assetBytes) with
          | Except.error err => Except.error (err.wrap (utf8 "failed to emit event: "))
          | Except.ok stub => Except.ok stub

/-- DeleteAsset. -/
def DeleteAsset (stub : Stub Bytes) (assetID : GoString) : Except Error (Stub Bytes) :=
  match AssetExists stub assetID with
  | Except.error err => Except.error err
  | Except.ok false =>
    Except.error ⟨ErrKind.NotFound, utf8 "the asset " ++ assetID ++ utf8 " does not exist"⟩
  | Except.ok true =>
    -- read the asset to get the owner for composite key deletion
    match ReadAsset stub assetID with
    | Except.error err => Except.error err
    | Except.ok existingAsset =>
      match DelState stub assetID with
      | Except.error err => Except.error (err.wrap (utf8 "failed to delete asset: "))
      | Except.ok stub =>
        -- Remove composite key
        match CreateCompositeKey (utf8 "owner~assetID") [existingAsset.Owner, assetID] with
        | Except.error err =>
          Except.error (err.wrap (utf8 "failed to create composite key: "))
        | Except.ok compositeKey =>
          match DelState stub compositeKey with
          | Except.error err =>
            Except.error (err.wrap (utf8 "failed to delete composite key: "))
          | Except.ok stub =>
            match SetEvent stub (utf8 "AssetDeleted") (EventPayload.text assetID) with
            | Except.error err => Except.error (err.wrap (utf8 "failed to emit event: "))
            | Except.ok stub => Except.ok stub

/-- The iterator loop of QueryAssetsByOwner: split each scanned key, take the
second attribute as asset id and read that asset.  `keyParts[1]` panics in Go
when the key has fewer than two attributes; that is an error here. -/
def collectAssets (stub : Stub Bytes) : World Bytes → Except Error (List Asset)
  | [] => Except.ok []
  | (key, _) :: rest =>
    match SplitCompositeKey key with
    | Except.error err => Except.error (err.wrap (utf8 "failed to split composite key: "))
    | Except.ok (_, keyParts) =>
      match keyParts.get? 1 with
      | none => Except.error ⟨ErrKind.MalformedKey, utf8 "index out of range"⟩
      | some assetID =>
        match ReadAsset stub assetID with
        | Except.error err => Except.error err
        | Except.ok asset =>
          match collectAssets stub rest with
          | Except.error err => Except.error err
          | Except.ok assets => Except.ok (asset :: assets)

/-- QueryAssetsByOwner retrieves all assets owned by a specific owner. -/
def QueryAssetsByOwner (stub : Stub Bytes) (owner : GoString) : Except Error (List Asset) :=
  match GetStateByPartialCompositeKey stub (utf8 "owner~assetID") [owner] with
  | Except.error err => Except.error (err.wrap (utf8 "failed to get assets by owner: "))
  | Except.ok resultsIterator => collectAssets stub resultsIterator

/-- A state-changing call of the asset contract. -/
inductive Call
  | CreateAsset (assetID name owner value : GoString)
  | UpdateAsset (assetID name owner value : GoString)
  | DeleteAsset (assetID : GoString)

/-- Run one call as a transaction body. -/
def invoke (stub : Stub Bytes) : Call → Except Error (Stub Bytes)
  | Call.CreateAsset assetID name owner value => CreateAsset stub assetID name owner value
  | Call.UpdateAsset assetID name owner value => UpdateAsset stub assetID name owner value
  | Call.DeleteAsset assetID => DeleteAsset stub assetID

/-- The world state after submitting one call with its transaction timestamp. -/
def step (fmt : Timestamp → String) (w : World Bytes) (tx : Timestamp × Call) : World Bytes :=
  commit w (invoke (Stub.new w tx.1 fmt) tx.2)

/-- The world state after a sequence of calls. -/
def run (fmt : Timestamp → String) (w : World Bytes) (txs : List (Timestamp × Call)) :
    World Bytes :=
  txs.foldl (step fmt) w

end AssetCC

/-! ## Worked examples -/

namespace Fabric

/-- The Unix epoch, the transaction timestamp of the worked examples. -/
def epoch : Timestamp := { Seconds := 0, Nanos := 0 }

/-- The RFC3339 rendering used in the worked examples, whose transactions all
carry the epoch as timestamp. -/
def epochFormat : Timestamp → String := fun _ => "1970-01-01T00:00:00Z"

/-- The one-byte string `"\xff"`, which is not valid UTF-8. -/
def invalidByte : GoString := [0xFF]

/-- The string `"W\xffd"`, which is not valid UTF-8. -/
def invalidName : GoString := [0x57, 0xFF, 0x64]

/-- The string `"al\xff"`, which is not valid UTF-8 and contains neither U+0000
nor U+10FFFF. -/
def invalidOwner : GoString := [0x61, 0x6C, 0xFF]

end Fabric

namespace SupplyChain

open Fabric

/-- The stored record of `P1` after `Register("P1")` and
`Transition("P1","Shipped")`. -/
def shippedRecord : ProductJSON :=
  { productID := "P1"
    currentStatus := "Shipped"
    statusHistory :=
      [{ status := "Manufactured", timestamp := "1970-01-01T00:00:00Z" },
       { status := "Shipped", timestamp := "1970-01-01T00:00:00Z" }] }

/-- The record GetProduct returns for `P1` after `Register("P1")` and
`Transition("P1","Shipped")`. -/
def shippedProduct : Product :=
  { ProductID := utf8 "P1"
    CurrentStatus := utf8 "Shipped"
    StatusHistory :=
      [{ Status := utf8 "Manufactured", Timestamp := utf8 "1970-01-01T00:00:00Z" },
       { Status := utf8 "Shipped", Timestamp := utf8 "1970-01-01T00:00:00Z" }] }

/-- The ledger after `Register("P1")` and `Transition("P1","Shipped")`. -/
def shippedLedger : World Bytes :=
  run epochFormat []
    [(epoch, Call.RegisterProduct (utf8 "P1")),
     (epoch, Call.UpdateStatus (utf8 "P1") (utf8 "Shipped"))]

/-- The ledger after product `P1` went through the whole chain to Delivered. -/
def deliveredLedger : World Bytes :=
  run epochFormat []
    [(epoch, Call.RegisterProduct (utf8 "P1")),
     (epoch, Call.UpdateStatus (utf8 "P1") (utf8 "Shipped")),
     (epoch, Call.UpdateStatus (utf8 "P1") (utf8 "In-Transit")),
     (epoch, Call.UpdateStatus (utf8 "P1") (utf8 "Delivered"))]

end SupplyChain

/-! ## Properties of the specification, stated over the embeddings -/

namespace SupplyChain

open Fabric

/-- The fixed transition graph of the specification: its three edges. -/
def transitionEdges : List (String × String) :=
  [("Manufactured", "Shipped"), ("Shipped", "In-Transit"), ("In-Transit", "Delivered")]

/-- The pair of statuses is an edge of the map `validTransitions` of the code:
the first status is a key of the map and the second is in its list. -/
def tableEdge (a b : String) : Prop :=
  ∃ allowed : List GoString, validTransitions (utf8 a) = some allowed ∧ utf8 b ∈ allowed

/-- The record invariant of the data model: the history is non-empty, the status
of its last entry is the current status, and every two consecutive entries are
joined by an edge of `validTransitions`, one of the three edges of the
transition graph. -/
def HistoryInvariant (doc : ProductJSON) : Prop :=
  doc.statusHistory ≠ [] ∧
  doc.statusHistory.getLast?.map (fun entry => entry.status) = some doc.currentStatus ∧
  ∀ (i : Nat) (a b : StatusEntryJSON),
    doc.statusHistory[i]? = some a → doc.statusHistory[i + 1]? = some b →
    tableEdge a.status b.status ∧ (a.status, b.status) ∈ transitionEdges

/-- Every stored product satisfies the record invariant. -/
def WorldInvariant (w : World Bytes) : Prop :=
  ∀ (key : GoString) (doc : ProductJSON), (key, Bytes.json doc) ∈ w → HistoryInvariant doc

/-- The outcome the specification prescribes for `Transition(id, newStatus)`,
in the order it lists the failures; `none` stands for success. -/
def specTransitionOutcome (w : World Bytes) (id newStatus : GoString) : Option ErrKind :=
  if id = [] ∨ validStatuses newStatus = false then some ErrKind.InvalidInput
  else
    match w.get id with
    | none => some ErrKind.NotFound
    | some (Bytes.json doc) =>
      if newStatus = utf8 doc.currentStatus then some ErrKind.NoOp
      else if isValidTransition (utf8 doc.currentStatus) newStatus = false then
        some ErrKind.InvalidTransition
      else none

end SupplyChain

namespace AssetCC

open Fabric

/-- The index key `CreateCompositeKey("owner~assetID", [owner, assetID])` builds
when both attributes are accepted. -/
def ownerKey (owner assetID : GoString) : GoString :=
  compositeKeyNamespace ++ utf8 "owner~assetID" ++ encodeChar minUnicodeRuneValue ++
    owner ++ encodeChar minUnicodeRuneValue ++ assetID ++ encodeChar minUnicodeRuneValue

/-- The start key of the index scan of one owner: the partial composite key
`CreateCompositeKey("owner~assetID", [owner])`. -/
def ownerPrefix (owner : GoString) : GoString :=
  compositeKeyNamespace ++ utf8 "owner~assetID" ++ encodeChar minUnicodeRuneValue ++
    owner ++ encodeChar minUnicodeRuneValue

/-- A call keeps the stored owner: an UpdateAsset call either fails or is applied
to a readable asset whose stored owner is the owner it is given. -/
def keepsOwner (stub : Stub Bytes) : Call → Bool
  | Call.UpdateAsset assetID name owner value =>
    match UpdateAsset stub assetID name owner value with
    | Except.error _ => true
    | Except.ok _ =>
      match ReadAsset stub assetID with
      | Except.error _ => false
      | Except.ok existingAsset => decide (existingAsset.Owner = owner)
  | _ => true

/-- Every call of the sequence, run from `w`, keeps the stored owner. -/
def ownerPreserving (fmt : Timestamp → String) :
    World Bytes → List (Timestamp × Call) → Bool
  | _, [] => true
  | w, tx :: rest =>
    keepsOwner (Stub.new w tx.1 fmt) tx.2 && ownerPreserving fmt (step fmt w tx) rest

/-- The bookkeeping of the specification next to the ledger: the `(owner, id)`
pairs that were created and not deleted since.  A successful CreateAsset adds
its pair, a successful DeleteAsset removes the pairs of its id. -/
def track (fmt : Timestamp → String) (st : World Bytes × List (GoString × GoString))
    (tx : Timestamp × Call) : World Bytes × List (GoString × GoString) :=
  (step fmt st.1 tx,
    match invoke (Stub.new st.1 tx.1 fmt) tx.2, tx.2 with
    | Except.ok _, Call.CreateAsset assetID _ owner _ => (owner, assetID) :: st.2
    | Except.ok _, Call.DeleteAsset assetID => st.2.filter (fun p => decide (p.2 ≠ assetID))
    | _, _ => st.2)

/-- The `(owner, id)` pairs created and not deleted by a sequence of calls on the
empty ledger. -/
def createdNotDeleted (fmt : Timestamp → String) (txs : List (Timestamp × Call)) :
    List (GoString × GoString) :=
  (txs.foldl (track fmt) ([], [])).2

/-- Index consistency of a world state relative to the bookkeeping `g` of created
and not deleted `(owner, id)` pairs: every stored asset sits under its own id
and is booked under its stored owner, every index marker is the key of a booked
pair, and every booked pair has its asset and its index entry. -/
structure Consistent (w : World Bytes) (g : List (GoString × GoString)) : Prop where
  assets : ∀ (key : GoString) (doc : AssetJSON), (key, Bytes.json doc) ∈ w →
    utf8 doc.assetID = key ∧ (utf8 doc.owner, key) ∈ g
  markers : ∀ key : GoString, (key, Bytes.zero) ∈ w →
    ∃ owner assetID : GoString, (owner, assetID) ∈ g ∧ key = ownerKey owner assetID
  pairs : ∀ owner assetID : GoString, (owner, assetID) ∈ g →
    validAttribute owner = true ∧ validAttribute assetID = true ∧ assetID ≠ [] ∧
    (∃ doc : AssetJSON, w.get assetID = some (Bytes.json doc) ∧ utf8 doc.owner = owner) ∧
    w.get (ownerKey owner assetID) = some Bytes.zero

/-- An owner name consisting of the single character U+0000. -/
def nulOwner : GoString := encodeChar minUnicodeRuneValue

/-- The ledger after `Create("A1","Widget","alice","100")` and an update of `A1`
that hands it to owner `bob`. -/
def reownedLedger : World Bytes :=
  run epochFormat []
    [(epoch, Call.CreateAsset (utf8 "A1") (utf8 "Widget") (utf8 "alice") (utf8 "100")),
     (epoch, Call.UpdateAsset (utf8 "A1") (utf8 "Widget") (utf8 "bob") (utf8 "100"))]

/-- The ledger after `A1` was created for `alice`, handed to `bob` by an update,
and deleted. -/
def reownedDeletedLedger : World Bytes :=
  run epochFormat []
    [(epoch, Call.CreateAsset (utf8 "A1") (utf8 "Widget") (utf8 "alice") (utf8 "100")),
     (epoch, Call.UpdateAsset (utf8 "A1") (utf8 "Widget") (utf8 "bob") (utf8 "100")),
     (epoch, Call.DeleteAsset (utf8 "A1"))]

/-- A sequence of calls in which no update changes an owner. -/
def sampleCalls : List (Timestamp × Call) :=
  [(epoch, Call.CreateAsset (utf8 "A1") (utf8 "Widget") (utf8 "alice") (utf8 "100")),
   (epoch, Call.CreateAsset (utf8 "A2") (utf8 "Gadget") (utf8 "bob") (utf8 "7")),
   (epoch, Call.UpdateAsset (utf8 "A1") (utf8 "Widget2") (utf8 "alice") (utf8 "150")),
   (epoch, Call.CreateAsset (utf8 "A3") (utf8 "Gizmo") (utf8 "alice") (utf8 "1")),
   (epoch, Call.DeleteAsset (utf8 "A3"))]

/-- The ledger after `Create("A1","Widget","alice","100")` on the empty ledger. -/
def createdLedger : World Bytes :=
  run epochFormat []
    [(epoch, Call.CreateAsset (utf8 "A1") (utf8 "Widget") (utf8 "alice") (utf8 "100"))]

end AssetCC

namespace Fabric

/-- Whether the bytes `s` occur as a contiguous block in a string. -/
def isInfixOf (s : GoString) : GoString → Bool
  | [] => s.isEmpty
  | c :: cs => s.isPrefixOf (c :: cs) || isInfixOf s cs

/-- A simple key: a key that does not start with the byte 0, the first byte of
every composite key. -/
def simpleKey (key : GoString) : Bool :=
  decide (key.head? ≠ some 0)

end Fabric

namespace SupplyChain

open Fabric

/-- An operation of the state-machine store with its arguments. -/
inductive Operation
  | RegisterProduct (productID : GoString)
  | UpdateStatus (productID newStatus : GoString)
  | GetProduct (productID : GoString)
  | GetProductHistory (productID : GoString)
  | GetAllProducts
  | GetProductsByStatus (status : GoString)

/-- The stub an operation leaves behind when run as a transaction body.  The four
read operations call neither PutState nor DelState: they leave the stub they
were given. -/
def transact (stub : Stub Bytes) : Operation → Except Error (Stub Bytes)
  | Operation.RegisterProduct productID => RegisterProduct stub productID
  | Operation.UpdateStatus productID newStatus => UpdateStatus stub productID newStatus
  | Operation.GetProduct productID =>
    match GetProduct stub productID with
    | Except.error err => Except.error err
    | Except.ok _ => Except.ok stub
  | Operation.GetProductHistory productID =>
    match GetProductHistory stub productID with
    | Except.error err => Except.error err
    | Except.ok _ => Except.ok stub
  | Operation.GetAllProducts =>
    match GetAllProducts stub with
    | Except.error err => Except.error err
    | Except.ok _ => Except.ok stub
  | Operation.GetProductsByStatus status =>
    match GetProductsByStatus stub status with
    | Except.error err => Except.error err
    | Except.ok _ => Except.ok stub

/-- The read operations of the state-machine store. -/
def Operation.isRead : Operation → Bool
  | Operation.RegisterProduct _ => false
  | Operation.UpdateStatus _ _ => false
  | _ => true

/-- The one path of the transition graph, from the initial to the terminal
status. -/
def statusChain : List String := ["Manufactured", "Shipped", "In-Transit", "Delivered"]

/-- The statuses of the history of a stored product, in order. -/
def ProductJSON.statuses (doc : ProductJSON) : List String :=
  doc.statusHistory.map (fun entry => entry.status)

/-- The statuses of the history are one of the four non-empty prefixes of
`statusChain`, and the current status is the last of them. -/
def ChainInvariant (doc : ProductJSON) : Prop :=
  (doc.statuses = ["Manufactured"] ∨
   doc.statuses = ["Manufactured", "Shipped"] ∨
   doc.statuses = ["Manufactured", "Shipped", "In-Transit"] ∨
   doc.statuses = ["Manufactured", "Shipped", "In-Transit", "Delivered"]) ∧
  doc.statuses.getLast? = some doc.currentStatus

/-- Every stored product satisfies the chain invariant. -/
def WorldChainInvariant (w : World Bytes) : Prop :=
  ∀ (key : GoString) (doc : ProductJSON), (key, Bytes.json doc) ∈ w → ChainInvariant doc

/-- Whether a call is a successful UpdateStatus of product `productID`. -/
def isTransitionOf (stub : Stub Bytes) (productID : GoString) : Call → Bool
  | Call.UpdateStatus id newStatus =>
    decide (id = productID) && (failureKind (UpdateStatus stub id newStatus)).isNone
  | _ => false

/-- The calls that register `P1` and take it through the whole chain. -/
def deliveredCalls : List (Timestamp × Call) :=
  [(epoch, Call.RegisterProduct (utf8 "P1")),
   (epoch, Call.UpdateStatus (utf8 "P1") (utf8 "Shipped")),
   (epoch, Call.UpdateStatus (utf8 "P1") (utf8 "In-Transit")),
   (epoch, Call.UpdateStatus (utf8 "P1") (utf8 "Delivered")),
   (epoch, Call.UpdateStatus (utf8 "P1") (utf8 "Delivered")),
   (epoch, Call.UpdateStatus (utf8 "P1") (utf8 "Manufactured"))]

/-- The number of transitions of product `productID` that succeed in a sequence
of calls run from `w`. -/
def transitionsOf (fmt : Timestamp → String) (productID : GoString) :
    World Bytes → List (Timestamp × Call) → Nat
  | _, [] => 0
  | w, tx :: rest =>
    (if isTransitionOf (Stub.new w tx.1 fmt) productID tx.2 then 1 else 0) +
      transitionsOf fmt productID (step fmt w tx) rest

/-- The length of the history a product has in `w`; a product that is not yet
registered counts with the one entry its registration will give it. -/
def historyLength (w : World Bytes) (productID : GoString) : Nat :=
  match w.get productID with
  | some (Bytes.json doc) => doc.statusHistory.length
  | none => 1

end SupplyChain

namespace AssetCC

open Fabric

/-- An operation of the entity store with its arguments. -/
inductive Operation
  | CreateAsset (assetID name owner value : GoString)
  | ReadAsset (assetID : GoString)
  | UpdateAsset (assetID name owner value : GoString)
  | DeleteAsset (assetID : GoString)
  | AssetExists (assetID : GoString)
  | QueryAssetsByOwner (owner : GoString)

/-- The stub an operation leaves behind when run as a transaction body.  The
three read operations call neither PutState nor DelState: they leave the stub
they were given. -/
def transact (stub : Stub Bytes) : Operation → Except Error (Stub Bytes)
  | Operation.CreateAsset assetID name owner value => CreateAsset stub assetID name owner value
  | Operation.UpdateAsset assetID name owner value => UpdateAsset stub assetID name owner value
  | Operation.DeleteAsset assetID => DeleteAsset stub assetID
  | Operation.ReadAsset assetID =>
    match ReadAsset stub assetID with
    | Except.error err => Except.error err
    | Except.ok _ => Except.ok stub
  | Operation.AssetExists assetID =>
    match AssetExists stub assetID with
    | Except.error err => Except.error err
    | Except.ok _ => Except.ok stub
  | Operation.QueryAssetsByOwner owner =>
    match QueryAssetsByOwner stub owner with
    | Except.error err => Except.error err
    | Except.ok _ => Except.ok stub

/-- The read operations of the entity store. -/
def Operation.isRead : Operation → Bool
  | Operation.ReadAsset _ => true
  | Operation.AssetExists _ => true
  | Operation.QueryAssetsByOwner _ => true
  | _ => false

/-- Index consistency of a world state.  Every stored asset sits under its own
id, a non-empty id that like its owner is accepted as attribute of a composite
key, and has the index entry of its `(Owner, AssetID)`; every index marker is the
entry of a stored asset and of its owner. -/
structure IndexConsistent (w : World Bytes) : Prop where
  assets : ∀ (key : GoString) (doc : AssetJSON), w.get key = some (Bytes.json doc) →
    utf8 doc.assetID = key ∧ key ≠ [] ∧ validAttribute key = true ∧
    validAttribute (utf8 doc.owner) = true ∧
    w.get (ownerKey (utf8 doc.owner) key) = some Bytes.zero
  markers : ∀ key : GoString, w.get key = some Bytes.zero →
    ∃ (owner assetID : GoString) (doc : AssetJSON),
      key = ownerKey owner assetID ∧ w.get assetID = some (Bytes.json doc) ∧
      utf8 doc.owner = owner

end AssetCC

/-! ## UTF-8 -/

namespace Fabric

theorem byte_toNat_lt (b : UInt8) : b.toNat < 256 := UInt8.toNat_lt_size b

theorem toNat_ofNat_byte (n : Nat) (h : n < 256) : (UInt8.ofNat n).toNat = n := by
  show (BitVec.ofNat 8 n).toNat = n
  rw [BitVec.toNat_ofNat]
  exact Nat.mod_eq_of_lt h

theorem ofNat_toNat_byte (b : UInt8) (n : Nat) (h : n = b.toNat) : UInt8.ofNat n = b := by
  apply UInt8.ext
  rw [h, toNat_ofNat_byte _ (byte_toNat_lt b)]

theorem toNat_ofNat_rune (n : Nat) (h : n < 0xD800 ∨ (0xDFFF < n ∧ n < 0x110000)) :
    (Char.ofNat n).toNat = n := by
  have hv : n.isValidChar := h
  unfold Char.ofNat
  rw [dif_pos hv]
  rfl

theorem rune_toNat_valid (c : Char) :
    c.toNat < 0xD800 ∨ (0xDFFF < c.toNat ∧ c.toNat < 0x110000) := c.valid

theorem decodeFrom_skip (k : Nat) (s : GoString) : decodeFrom k s = decodeFrom 0 (s.drop k) := by
  induction s generalizing k with
  | nil => cases k <;> rfl
  | cons b rest ih =>
    cases k with
    | zero => rfl
    | succ k =>
      simp only [decodeFrom, List.drop_succ_cons]
      exact ih k

theorem validFrom_skip (k : Nat) (s : GoString) : validFrom k s = validFrom 0 (s.drop k) := by
  induction s generalizing k with
  | nil => cases k <;> rfl
  | cons b rest ih =>
    cases k with
    | zero => rfl
    | succ k =>
      simp only [validFrom, List.drop_succ_cons]
      exact ih k

set_option maxRecDepth 8192 in
/-- Decoding the encoding of a character gives the character back. -/
theorem decodeRune_encodeChar (c : Char) (rest : GoString) :
    ∃ (b0 : UInt8) (tail : GoString), encodeChar c = b0 :: tail ∧
      decodeRune b0 (tail ++ rest) = some (c.toNat, tail.length + 1) := by
  have hv := rune_toNat_valid c
  by_cases h1 : c.toNat < 0x80
  · refine ⟨UInt8.ofNat c.toNat, [], by simp [encodeChar, h1], ?_⟩
    have e0 : (UInt8.ofNat c.toNat).toNat = c.toNat := toNat_ofNat_byte _ (by omega)
    simp [decodeRune, e0, h1]
  · by_cases h2 : c.toNat < 0x800
    · refine ⟨UInt8.ofNat (0xC0 + c.toNat / 0x40), [UInt8.ofNat (0x80 + c.toNat % 0x40)],
        by simp [encodeChar, h1, h2], ?_⟩
      have e0 : (UInt8.ofNat (0xC0 + c.toNat / 0x40)).toNat = 0xC0 + c.toNat / 0x40 :=
        toNat_ofNat_byte _ (by omega)
      have e1 : (UInt8.ofNat (0x80 + c.toNat % 0x40)).toNat = 0x80 + c.toNat % 0x40 :=
        toNat_ofNat_byte _ (by omega)
      simp only [decodeRune, e0, e1, between, List.cons_append, List.nil_append,
        List.length_singleton]
      rw [if_neg (by omega), if_neg (by omega), if_pos (by omega)]
      have hb : (decide (0x80 ≤ 0x80 + c.toNat % 0x40) &&
          decide (0x80 + c.toNat % 0x40 ≤ 0xBF)) = true := by
        simp only [Bool.and_eq_true, decide_eq_true_eq]
        omega
      rw [if_pos hb]
      congr 2
      omega
    · by_cases h3 : c.toNat < 0x10000
      · refine ⟨UInt8.ofNat (0xE0 + c.toNat / 0x1000),
          [UInt8.ofNat (0x80 + c.toNat / 0x40 % 0x40), UInt8.ofNat (0x80 + c.toNat % 0x40)],
          by simp [encodeChar, h1, h2, h3], ?_⟩
        have e0 : (UInt8.ofNat (0xE0 + c.toNat / 0x1000)).toNat = 0xE0 + c.toNat / 0x1000 :=
          toNat_ofNat_byte _ (by omega)
        have e1 : (UInt8.ofNat (0x80 + c.toNat / 0x40 % 0x40)).toNat =
            0x80 + c.toNat / 0x40 % 0x40 := toNat_ofNat_byte _ (by omega)
        have e2 : (UInt8.ofNat (0x80 + c.toNat % 0x40)).toNat = 0x80 + c.toNat % 0x40 :=
          toNat_ofNat_byte _ (by omega)
        simp only [decodeRune, e0, e1, e2, between, List.cons_append, List.nil_append,
          List.length_cons, List.length_nil]
        rw [if_neg (by omega), if_neg (by omega), if_neg (by omega), if_pos (by omega)]
        have hb : ((decide ((if 0xE0 + c.toNat / 0x1000 = 0xE0 then 0xA0 else 0x80) ≤
              0x80 + c.toNat / 0x40 % 0x40) &&
            decide (0x80 + c.toNat / 0x40 % 0x40 ≤
              (if 0xE0 + c.toNat / 0x1000 = 0xED then 0x9F else 0xBF))) &&
            (decide (0x80 ≤ 0x80 + c.toNat % 0x40) &&
              decide (0x80 + c.toNat % 0x40 ≤ 0xBF))) = true := by
          simp only [Bool.and_eq_true, decide_eq_true_eq]
          refine ⟨⟨?_, ?_⟩, ?_, ?_⟩
          · split <;> omega
          · split <;> omega
          · omega
          · omega
        rw [if_pos hb]
        congr 2
        omega
      · refine ⟨UInt8.ofNat (0xF0 + c.toNat / 0x40000),
          [UInt8.ofNat (0x80 + c.toNat / 0x1000 % 0x40),
           UInt8.ofNat (0x80 + c.toNat / 0x40 % 0x40), UInt8.ofNat (0x80 + c.toNat % 0x40)],
          by simp [encodeChar, h1, h2, h3], ?_⟩
        have e0 : (UInt8.ofNat (0xF0 + c.toNat / 0x40000)).toNat = 0xF0 + c.toNat / 0x40000 :=
          toNat_ofNat_byte _ (by omega)
        have e1 : (UInt8.ofNat (0x80 + c.toNat / 0x1000 % 0x40)).toNat =
            0x80 + c.toNat / 0x1000 % 0x40 := toNat_ofNat_byte _ (by omega)
        have e2 : (UInt8.ofNat (0x80 + c.toNat / 0x40 % 0x40)).toNat =
            0x80 + c.toNat / 0x40 % 0x40 := toNat_ofNat_byte _ (by omega)
        have e3 : (UInt8.ofNat (0x80 + c.toNat % 0x40)).toNat = 0x80 + c.toNat % 0x40 :=
          toNat_ofNat_byte _ (by omega)
        simp only [decodeRune, e0, e1, e2, e3, between, List.cons_append, List.nil_append,
          List.length_cons, List.length_nil]
        rw [if_neg (by omega), if_neg (by omega), if_neg (by omega), if_neg (by omega),
          if_pos (by omega)]
        have hb : (((decide ((if 0xF0 + c.toNat / 0x40000 = 0xF0 then 0x90 else 0x80) ≤
              0x80 + c.toNat / 0x1000 % 0x40) &&
            decide (0x80 + c.toNat / 0x1000 % 0x40 ≤
              (if 0xF0 + c.toNat / 0x40000 = 0xF4 then 0x8F else 0xBF))) &&
            (decide (0x80 ≤ 0x80 + c.toNat / 0x40 % 0x40) &&
              decide (0x80 + c.toNat / 0x40 % 0x40 ≤ 0xBF))) &&
            (decide (0x80 ≤ 0x80 + c.toNat % 0x40) &&
              decide (0x80 + c.toNat % 0x40 ≤ 0xBF))) = true := by
          simp only [Bool.and_eq_true, decide_eq_true_eq]
          refine ⟨⟨⟨?_, ?_⟩, ?_, ?_⟩, ?_, ?_⟩
          · split <;> omega
          · split <;> omega
          · omega
          · omega
          · omega
          · omega
        rw [if_pos hb]
        congr 2
        omega

theorem decodeFrom_encodeChar (c : Char) (rest : GoString) :
    decodeFrom 0 (encodeChar c ++ rest) = c :: decodeFrom 0 rest := by
  obtain ⟨b0, tail, henc, hdec⟩ := decodeRune_encodeChar c rest
  rw [henc, List.cons_append]
  simp only [decodeFrom, hdec, Nat.add_sub_cancel, Char.ofNat_toNat]
  rw [decodeFrom_skip, List.drop_left]

theorem decodeFrom_encodeChars (cs : List Char) : decodeFrom 0 (encodeChars cs) = cs := by
  induction cs with
  | nil => rfl
  | cons c cs ih => rw [encodeChars, decodeFrom_encodeChar, ih]

/-- Decoding the UTF-8 bytes of a text gives the text back. -/
theorem decodeLossy_utf8 (t : String) : decodeLossy (utf8 t) = t := by
  unfold decodeLossy utf8
  rw [decodeFrom_encodeChars]

theorem utf8_inj (a b : String) (h : utf8 a = utf8 b) : a = b := by
  rw [← decodeLossy_utf8 a, ← decodeLossy_utf8 b, h]

theorem ite_some_none_eq {α : Type} (c : Bool) (x y : α)
    (h : (if c = true then some x else none) = some y) : c = true ∧ x = y := by
  cases c with
  | false => exact Option.noConfusion h
  | true => exact ⟨rfl, Option.some.inj h⟩

theorem encodeChar_ofNat (r : Nat) (h : r < 0xD800 ∨ (0xDFFF < r ∧ r < 0x110000)) :
    encodeChar (Char.ofNat r) =
      if r < 0x80 then [UInt8.ofNat r]
      else if r < 0x800 then [UInt8.ofNat (0xC0 + r / 0x40), UInt8.ofNat (0x80 + r % 0x40)]
      else if r < 0x10000 then
        [UInt8.ofNat (0xE0 + r / 0x1000), UInt8.ofNat (0x80 + r / 0x40 % 0x40),
         UInt8.ofNat (0x80 + r % 0x40)]
      else
        [UInt8.ofNat (0xF0 + r / 0x40000), UInt8.ofNat (0x80 + r / 0x1000 % 0x40),
         UInt8.ofNat (0x80 + r / 0x40 % 0x40), UInt8.ofNat (0x80 + r % 0x40)] := by
  unfold encodeChar
  rw [toNat_ofNat_rune r h]

set_option maxRecDepth 8192 in
/-- What a successful decoding step says about the bytes it consumed. -/
theorem decodeRune_some (b0 : UInt8) (rest : GoString) (r size : Nat)
    (h : decodeRune b0 rest = some (r, size)) :
    (r < 0xD800 ∨ (0xDFFF < r ∧ r < 0x110000)) ∧
    encodeChar (Char.ofNat r) = b0 :: rest.take (size - 1) := by
  have hb0 := byte_toNat_lt b0
  unfold decodeRune at h
  by_cases h1 : b0.toNat < 0x80
  · rw [if_pos h1] at h
    simp only [Option.some.injEq, Prod.mk.injEq] at h
    obtain ⟨hr, hs⟩ := h
    subst hr hs
    have hv : b0.toNat < 0xD800 ∨ (0xDFFF < b0.toNat ∧ b0.toNat < 0x110000) := by omega
    refine ⟨hv, ?_⟩
    rw [encodeChar_ofNat _ hv, if_pos h1]
    simp [ofNat_toNat_byte b0 _ rfl]
  · rw [if_neg h1] at h
    by_cases h2 : b0.toNat < 0xC2
    · rw [if_pos h2] at h
      exact Option.noConfusion h
    · rw [if_neg h2] at h
      by_cases h3 : b0.toNat < 0xE0
      · rw [if_pos h3] at h
        cases rest with
        | nil => exact Option.noConfusion h
        | cons b1 rest1 =>
          have hb1 := byte_toNat_lt b1
          obtain ⟨hc, h⟩ := ite_some_none_eq _ _ _ h
          simp only [between, Bool.and_eq_true, decide_eq_true_eq] at hc
          simp only [Prod.mk.injEq] at h
          obtain ⟨hr, hs⟩ := h
          subst hr hs
          have hv : (b0.toNat - 0xC0) * 0x40 + (b1.toNat - 0x80) < 0xD800 ∨
              (0xDFFF < (b0.toNat - 0xC0) * 0x40 + (b1.toNat - 0x80) ∧
                (b0.toNat - 0xC0) * 0x40 + (b1.toNat - 0x80) < 0x110000) := by omega
          refine ⟨hv, ?_⟩
          rw [encodeChar_ofNat _ hv, if_neg (by omega), if_pos (by omega)]
          rw [ofNat_toNat_byte b0 _ (by omega), ofNat_toNat_byte b1 _ (by omega)]
          rfl
      · rw [if_neg h3] at h
        by_cases h4 : b0.toNat < 0xF0
        · rw [if_pos h4] at h
          match rest, h with
          | [], h => exact Option.noConfusion h
          | [_], h => exact Option.noConfusion h
          | b1 :: b2 :: rest2, h =>
            have hb1 := byte_toNat_lt b1
            have hb2 := byte_toNat_lt b2
            obtain ⟨hc, h⟩ := ite_some_none_eq _ _ _ h
            simp only [between, Bool.and_eq_true, decide_eq_true_eq] at hc
            obtain ⟨⟨hc1, hc2⟩, hc3, hc4⟩ := hc
            simp only [Prod.mk.injEq] at h
            obtain ⟨hr, hs⟩ := h
            subst hr hs
            have hlo : 0x80 ≤ b1.toNat := by
              split at hc1 <;> omega
            have hhi : b1.toNat ≤ 0xBF := by
              split at hc2 <;> omega
            have hE0 : b0.toNat = 0xE0 → 0xA0 ≤ b1.toNat := by
              intro he
              rw [if_pos he] at hc1
              exact hc1
            have hED : b0.toNat = 0xED → b1.toNat ≤ 0x9F := by
              intro he
              rw [if_pos he] at hc2
              exact hc2
            have hv : (b0.toNat - 0xE0) * 0x1000 + (b1.toNat - 0x80) * 0x40 +
                  (b2.toNat - 0x80) < 0xD800 ∨
                (0xDFFF < (b0.toNat - 0xE0) * 0x1000 + (b1.toNat - 0x80) * 0x40 +
                  (b2.toNat - 0x80) ∧
                  (b0.toNat - 0xE0) * 0x1000 + (b1.toNat - 0x80) * 0x40 +
                  (b2.toNat - 0x80) < 0x110000) := by
              by_cases he : b0.toNat = 0xED
              · have := hED he
                omega
              · omega
            refine ⟨hv, ?_⟩
            have hge : ¬ (b0.toNat - 0xE0) * 0x1000 + (b1.toNat - 0x80) * 0x40 +
                  (b2.toNat - 0x80) < 0x800 := by
              by_cases he : b0.toNat = 0xE0
              · have := hE0 he
                omega
              · omega
            rw [encodeChar_ofNat _ hv, if_neg (by omega), if_neg hge, if_pos (by omega)]
            rw [ofNat_toNat_byte b0 _ (by omega), ofNat_toNat_byte b1 _ (by omega),
              ofNat_toNat_byte b2 _ (by omega)]
            rfl
        · rw [if_neg h4] at h
          by_cases h5 : b0.toNat < 0xF5
          · rw [if_pos h5] at h
            match rest, h with
            | [], h => exact Option.noConfusion h
            | [_], h => exact Option.noConfusion h
            | [_, _], h => exact Option.noConfusion h
            | b1 :: b2 :: b3 :: rest3, h =>
              have hb1 := byte_toNat_lt b1
              have hb2 := byte_toNat_lt b2
              have hb3 := byte_toNat_lt b3
              obtain ⟨hc, h⟩ := ite_some_none_eq _ _ _ h
              simp only [between, Bool.and_eq_true, decide_eq_true_eq] at hc
              obtain ⟨⟨⟨hc1, hc2⟩, hc3, hc4⟩, hc5, hc6⟩ := hc
              simp only [Prod.mk.injEq] at h
              obtain ⟨hr, hs⟩ := h
              subst hr hs
              have hlo : 0x80 ≤ b1.toNat := by
                split at hc1 <;> omega
              have hhi : b1.toNat ≤ 0xBF := by
                split at hc2 <;> omega
              have hF0 : b0.toNat = 0xF0 → 0x90 ≤ b1.toNat := by
                intro he
                rw [if_pos he] at hc1
                exact hc1
              have hF4 : b0.toNat = 0xF4 → b1.toNat ≤ 0x8F := by
                intro he
                rw [if_pos he] at hc2
                exact hc2
              have hlt : (b0.toNat - 0xF0) * 0x40000 + (b1.toNat - 0x80) * 0x1000 +
                  (b2.toNat - 0x80) * 0x40 + (b3.toNat - 0x80) < 0x110000 := by
                by_cases he : b0.toNat = 0xF4
                · have := hF4 he
                  omega
                · omega
              have hge : 0x10000 ≤ (b0.toNat - 0xF0) * 0x40000 + (b1.toNat - 0x80) * 0x1000 +
                  (b2.toNat - 0x80) * 0x40 + (b3.toNat - 0x80) := by
                by_cases he : b0.toNat = 0xF0
                · have := hF0 he
                  omega
                · omega
              have hv : (b0.toNat - 0xF0) * 0x40000 + (b1.toNat - 0x80) * 0x1000 +
                    (b2.toNat - 0x80) * 0x40 + (b3.toNat - 0x80) < 0xD800 ∨
                  (0xDFFF < (b0.toNat - 0xF0) * 0x40000 + (b1.toNat - 0x80) * 0x1000 +
                    (b2.toNat - 0x80) * 0x40 + (b3.toNat - 0x80) ∧
                    (b0.toNat - 0xF0) * 0x40000 + (b1.toNat - 0x80) * 0x1000 +
                    (b2.toNat - 0x80) * 0x40 + (b3.toNat - 0x80) < 0x110000) := by omega
              refine ⟨hv, ?_⟩
              rw [encodeChar_ofNat _ hv, if_neg (by omega), if_neg (by omega),
                if_neg (by omega)]
              rw [ofNat_toNat_byte b0 _ (by omega), ofNat_toNat_byte b1 _ (by omega),
                ofNat_toNat_byte b2 _ (by omega), ofNat_toNat_byte b3 _ (by omega)]
              rfl
          · rw [if_neg h5] at h
            exact Option.noConfusion h

/-- A valid UTF-8 string is the encoding of the text it decodes to. -/
theorem encodeChars_decodeFrom (n : Nat) (s : GoString) (hn : s.length ≤ n)
    (h : validFrom 0 s = true) : encodeChars (decodeFrom 0 s) = s := by
  induction n generalizing s with
  | zero =>
    have : s = [] := List.length_eq_zero.1 (Nat.le_zero.1 hn)
    rw [this]
    rfl
  | succ n ih =>
    cases s with
    | nil => rfl
    | cons b0 rest =>
      simp only [validFrom] at h
      cases hd : decodeRune b0 rest with
      | none => simp [hd] at h
      | some p =>
        obtain ⟨r, size⟩ := p
        simp only [hd] at h
        rw [validFrom_skip] at h
        obtain ⟨hv, henc⟩ := decodeRune_some b0 rest r size hd
        have hlen : (rest.drop (size - 1)).length ≤ n := by
          simp only [List.length_drop, List.length_cons] at hn ⊢
          omega
        simp only [decodeFrom, hd]
        rw [decodeFrom_skip, encodeChars, ih _ hlen h, henc, List.cons_append,
          List.take_append_drop]

theorem utf8_decodeLossy (s : GoString) (h : utf8Valid s = true) : utf8 (decodeLossy s) = s :=
  encodeChars_decodeFrom s.length s (Nat.le_refl _) h

theorem utf8_decodeLossy_utf8 (t : String) : utf8 (decodeLossy (utf8 t)) = utf8 t := by
  rw [decodeLossy_utf8]

theorem zero_toNat : (0 : UInt8).toNat = 0 := rfl

theorem byte_pos_of_ne_zero (b : UInt8) (h : b ≠ 0) : 0 < b.toNat := by
  rcases Nat.eq_zero_or_pos b.toNat with h0 | h0
  · exact absurd (UInt8.ext (by rw [h0, zero_toNat])) h
  · exact h0

theorem minUnicodeRuneValue_toNat : minUnicodeRuneValue.toNat = 0 := by decide

theorem maxUnicodeRuneValue_toNat : maxUnicodeRuneValue.toNat = 1114111 := by decide

theorem encodeChar_min : encodeChar minUnicodeRuneValue = [0] := by decide

theorem encodeChar_max :
    encodeChar maxUnicodeRuneValue =
      [UInt8.ofNat 0xF4, UInt8.ofNat 0x8F, UInt8.ofNat 0xBF, UInt8.ofNat 0xBF] := by decide

theorem rune_eq_of_toNat_eq (a b : Char) (h : a.toNat = b.toNat) : a = b := by
  rw [← Char.ofNat_toNat a, ← Char.ofNat_toNat b, h]

/-- The runes a string decodes to are neither U+0000 nor U+10FFFF exactly when
the loop of validateCompositeKeyAttribute finds no such rune. -/
theorem forbiddenRuneFrom_eq_none_iff (s : GoString) (skip index : Nat) :
    forbiddenRuneFrom skip index s = none ↔
      ∀ c ∈ decodeFrom skip s, c ≠ minUnicodeRuneValue ∧ c ≠ maxUnicodeRuneValue := by
  induction s generalizing skip index with
  | nil => cases skip <;> simp [forbiddenRuneFrom, decodeFrom]
  | cons b0 rest ih =>
    cases skip with
    | succ k =>
      simp only [forbiddenRuneFrom, decodeFrom]
      exact ih k (index + 1)
    | zero =>
      simp only [forbiddenRuneFrom, decodeFrom]
      cases hd : decodeRune b0 rest with
      | none =>
        simp only [List.mem_cons, forall_eq_or_imp]
        rw [ih 0 (index + 1)]
        have h1 : Char.ofNat 0xFFFD ≠ minUnicodeRuneValue := by decide
        have h2 : Char.ofNat 0xFFFD ≠ maxUnicodeRuneValue := by decide
        simp [h1, h2]
      | some p =>
        obtain ⟨r, size⟩ := p
        obtain ⟨hv, _⟩ := decodeRune_some b0 rest r size hd
        have hr := toNat_ofNat_rune r hv
        simp only [List.mem_cons, forall_eq_or_imp]
        by_cases hf : r = minUnicodeRuneValue.toNat ∨ r = maxUnicodeRuneValue.toNat
        · rw [if_pos hf]
          constructor
          · intro h
            exact Option.noConfusion h
          · rintro ⟨⟨h1, h2⟩, _⟩
            rcases hf with hf | hf
            · exact absurd (rune_eq_of_toNat_eq _ _ (by rw [hr, hf])) h1
            · exact absurd (rune_eq_of_toNat_eq _ _ (by rw [hr, hf])) h2
        · rw [if_neg hf, ih (size - 1) (index + 1)]
          simp only [not_or] at hf
          have h1 : Char.ofNat r ≠ minUnicodeRuneValue := by
            intro he
            exact hf.1 (by rw [← hr, he])
          have h2 : Char.ofNat r ≠ maxUnicodeRuneValue := by
            intro he
            exact hf.2 (by rw [← hr, he])
          simp [h1, h2]

/-- The attributes validateCompositeKeyAttribute accepts: the valid UTF-8 strings
whose runes are neither U+0000 nor U+10FFFF. -/
theorem validAttribute_iff (s : GoString) :
    validAttribute s = true ↔
      utf8Valid s = true ∧
      ∀ c ∈ (decodeLossy s).data, c ≠ minUnicodeRuneValue ∧ c ≠ maxUnicodeRuneValue := by
  unfold validAttribute validateCompositeKeyAttribute decodeLossy
  rw [← forbiddenRuneFrom_eq_none_iff s 0 0]
  cases hv : utf8Valid s with
  | false => simp
  | true =>
    cases hf : forbiddenRuneFrom 0 0 s with
    | none => simp
    | some p => simp

theorem utf8Valid_of_validAttribute (s : GoString) (h : validAttribute s = true) :
    utf8Valid s = true := ((validAttribute_iff s).1 h).1

/-- An accepted attribute is the encoding of a text without U+0000 and
U+10FFFF. -/
theorem validAttribute_encodeChars (s : GoString) (h : validAttribute s = true) :
    ∃ cs : List Char, s = encodeChars cs ∧
      ∀ c ∈ cs, c ≠ minUnicodeRuneValue ∧ c ≠ maxUnicodeRuneValue := by
  obtain ⟨hv, hc⟩ := (validAttribute_iff s).1 h
  exact ⟨decodeFrom 0 s, (encodeChars_decodeFrom s.length s (Nat.le_refl _) hv).symm, hc⟩

/-- What validateCompositeKeyAttribute returns. -/
theorem validateCompositeKeyAttribute_eq (s : GoString) :
    (validAttribute s = true ∧ validateCompositeKeyAttribute s = Except.ok ()) ∨
    (validAttribute s = false ∧ ∃ err : Error,
      validateCompositeKeyAttribute s = Except.error err ∧ err.kind = ErrKind.StoreError) := by
  unfold validAttribute validateCompositeKeyAttribute
  cases hv : utf8Valid s with
  | false => exact Or.inr ⟨by simp, _, rfl, rfl⟩
  | true =>
    cases hf : forbiddenRuneFrom 0 0 s with
    | none => exact Or.inl ⟨by simp, by simp⟩
    | some p => exact Or.inr ⟨by simp, _, rfl, rfl⟩

theorem encodeChar_ne_zero (c : Char) (hc : c ≠ minUnicodeRuneValue) :
    ∀ b ∈ encodeChar c, b ≠ 0 := by
  have hv := rune_toNat_valid c
  have hpos : 0 < c.toNat := by
    rcases Nat.eq_zero_or_pos c.toNat with h0 | h0
    · exact absurd (rune_eq_of_toNat_eq c minUnicodeRuneValue
        (by rw [h0, minUnicodeRuneValue_toNat])) hc
    · exact h0
  have key : ∀ n : Nat, 0 < n → n < 256 → UInt8.ofNat n ≠ 0 := by
    intro n h0 h1 he
    have := congrArg UInt8.toNat he
    rw [toNat_ofNat_byte n h1, zero_toNat] at this
    omega
  intro b hb
  unfold encodeChar at hb
  split at hb
  · simp only [List.mem_singleton] at hb
    rw [hb]
    exact key _ hpos (by omega)
  · split at hb
    · simp only [List.mem_cons, List.mem_singleton, List.not_mem_nil, or_false] at hb
      rcases hb with hb | hb <;> rw [hb] <;> exact key _ (by omega) (by omega)
    · split at hb
      · simp only [List.mem_cons, List.mem_singleton, List.not_mem_nil, or_false] at hb
        rcases hb with hb | hb | hb <;> rw [hb] <;> exact key _ (by omega) (by omega)
      · simp only [List.mem_cons, List.mem_singleton, List.not_mem_nil, or_false] at hb
        rcases hb with hb | hb | hb | hb <;> rw [hb] <;> exact key _ (by omega) (by omega)

theorem nulFree_encodeChars (cs : List Char) (h : ∀ c ∈ cs, c ≠ minUnicodeRuneValue) :
    nulFree (encodeChars cs) := by
  induction cs with
  | nil => intro b hb; exact absurd hb (List.not_mem_nil _)
  | cons c cs ih =>
    intro b hb
    simp only [encodeChars, List.mem_append] at hb
    rcases hb with hb | hb
    · exact encodeChar_ne_zero c (h c (List.mem_cons_self _ _)) b hb
    · exact ih (fun d hd => h d (List.mem_cons_of_mem _ hd)) b hb

theorem nulFree_of_validAttribute (s : GoString) (h : validAttribute s = true) : nulFree s := by
  obtain ⟨cs, hs, hc⟩ := validAttribute_encodeChars s h
  rw [hs]
  exact nulFree_encodeChars cs (fun c hm => (hc c hm).1)

end Fabric

/-! ## World-state lemmas -/

namespace Fabric

theorem World.get_put_self {V : Type} (w : World V) (key : GoString) (value : V) :
    (w.put key value).get key = some value := by
  induction w with
  | nil => simp [World.put, World.get]
  | cons e rest ih =>
    obtain ⟨k, v⟩ := e
    unfold World.put
    split
    · simp [World.get]
    · split
      · simp [World.get]
      · rename_i _ hne
        simp [World.get, hne, ih]

theorem World.get_put_of_ne {V : Type} (w : World V) (key key' : GoString) (value : V)
    (h : key' ≠ key) : (w.put key value).get key' = w.get key' := by
  induction w with
  | nil => simp [World.put, World.get, Ne.symm h]
  | cons e rest ih =>
    obtain ⟨k, v⟩ := e
    unfold World.put
    split
    · simp [World.get, Ne.symm h]
    · split
      · rename_i _ heq
        subst heq
        simp [World.get, Ne.symm h]
      · simp [World.get, ih]

theorem World.mem_put {V : Type} (w : World V) (key : GoString) (value : V) (e : GoString × V)
    (h : e ∈ w.put key value) : e = (key, value) ∨ e ∈ w := by
  induction w with
  | nil => simpa [World.put] using h
  | cons e0 rest ih =>
    obtain ⟨k, v⟩ := e0
    unfold World.put at h
    split at h
    · rcases List.mem_cons.1 h with h | h
      · exact Or.inl h
      · exact Or.inr h
    · split at h
      · rcases List.mem_cons.1 h with h | h
        · exact Or.inl h
        · exact Or.inr (List.mem_cons_of_mem _ h)
      · rcases List.mem_cons.1 h with h | h
        · exact Or.inr (h ▸ List.mem_cons_self _ _)
        · rcases ih h with h | h
          · exact Or.inl h
          · exact Or.inr (List.mem_cons_of_mem _ h)

theorem World.mem_of_get {V : Type} (w : World V) (key : GoString) (value : V)
    (h : w.get key = some value) : (key, value) ∈ w := by
  induction w with
  | nil => simp [World.get] at h
  | cons e rest ih =>
    obtain ⟨k, v⟩ := e
    unfold World.get at h
    split at h
    · rename_i heq
      simp only [Option.some.injEq] at h
      subst heq h
      exact List.mem_cons_self _ _
    · exact List.mem_cons_of_mem _ (ih h)

theorem World.get_del_self {V : Type} (w : World V) (key : GoString) :
    (w.del key).get key = none := by
  induction w with
  | nil => simp [World.del, World.get]
  | cons e rest ih =>
    obtain ⟨k, v⟩ := e
    by_cases hk : k = key
    · simpa [World.del, hk] using ih
    · simpa [World.del, hk, World.get] using ih

theorem World.get_del_of_ne {V : Type} (w : World V) (key key' : GoString) (h : key' ≠ key) :
    (w.del key).get key' = w.get key' := by
  induction w with
  | nil => simp [World.del, World.get]
  | cons e rest ih =>
    obtain ⟨k, v⟩ := e
    by_cases hk : k = key
    · subst hk
      simpa [World.del, World.get, Ne.symm h] using ih
    · by_cases hk' : k = key'
      · subst hk'
        simp [World.del, World.get, List.filter, hk]
      · simpa [World.del, World.get, hk, hk'] using ih

theorem World.mem_del {V : Type} (w : World V) (key : GoString) (e : GoString × V) :
    e ∈ w.del key ↔ e ∈ w ∧ e.1 ≠ key := by
  simp [World.del, List.mem_filter]

theorem World.get_isSome_of_mem {V : Type} (w : World V) (key : GoString) (value : V)
    (h : (key, value) ∈ w) : ∃ v : V, w.get key = some v := by
  induction w with
  | nil => exact absurd h (List.not_mem_nil _)
  | cons e rest ih =>
    obtain ⟨k, v⟩ := e
    by_cases hk : k = key
    · exact ⟨v, by simp [World.get, hk]⟩
    · rcases List.mem_cons.1 h with h1 | h1
      · simp only [Prod.mk.injEq] at h1
        exact absurd h1.1.symm hk
      · obtain ⟨v', hv'⟩ := ih h1
        exact ⟨v', by simp [World.get, hk, hv']⟩

end Fabric

/-! ## Keys, ranges and composite keys -/

namespace Fabric

theorem keyLt_nil_right (a : GoString) : keyLt a [] = false := by
  cases a <;> rfl

theorem keyLt_append_left (p a b : GoString) : keyLt (p ++ a) (p ++ b) = keyLt a b := by
  induction p with
  | nil => rfl
  | cons c rest ih => simp [keyLt, ih]

/-- The encoding of a rune other than U+10FFFF, whatever follows it, sorts
before the encoding of U+10FFFF. -/
theorem keyLt_encodeChar_max (c : Char) (hc : c ≠ maxUnicodeRuneValue) (rest : GoString) :
    keyLt (encodeChar c ++ rest) (encodeChar maxUnicodeRuneValue) = true := by
  have hv := rune_toNat_valid c
  have hne : c.toNat ≠ 1114111 := by
    intro heq
    exact hc (rune_eq_of_toNat_eq c maxUnicodeRuneValue (by rw [heq, maxUnicodeRuneValue_toNat]))
  have m0 : (UInt8.ofNat 0xF4).toNat = 0xF4 := rfl
  have m1 : (UInt8.ofNat 0x8F).toNat = 0x8F := rfl
  have m2 : (UInt8.ofNat 0xBF).toNat = 0xBF := rfl
  rw [encodeChar_max]
  unfold encodeChar
  by_cases h1 : c.toNat < 0x80
  · have e0 : (UInt8.ofNat c.toNat).toNat = c.toNat := toNat_ofNat_byte _ (by omega)
    simp only [h1, if_true, List.cons_append, List.nil_append, keyLt, e0, m0]
    rw [if_pos (by omega)]
  · by_cases h2 : c.toNat < 0x800
    · have e0 : (UInt8.ofNat (0xC0 + c.toNat / 0x40)).toNat = 0xC0 + c.toNat / 0x40 :=
        toNat_ofNat_byte _ (by omega)
      simp only [h1, h2, if_true, if_false, List.cons_append, List.nil_append, keyLt, e0, m0]
      rw [if_pos (by omega)]
    · by_cases h3 : c.toNat < 0x10000
      · have e0 : (UInt8.ofNat (0xE0 + c.toNat / 0x1000)).toNat = 0xE0 + c.toNat / 0x1000 :=
          toNat_ofNat_byte _ (by omega)
        simp only [h1, h2, h3, if_true, if_false, List.cons_append, List.nil_append, keyLt, e0,
          m0]
        rw [if_pos (by omega)]
      · have e0 : (UInt8.ofNat (0xF0 + c.toNat / 0x40000)).toNat = 0xF0 + c.toNat / 0x40000 :=
          toNat_ofNat_byte _ (by omega)
        have e1 : (UInt8.ofNat (0x80 + c.toNat / 0x1000 % 0x40)).toNat =
            0x80 + c.toNat / 0x1000 % 0x40 := toNat_ofNat_byte _ (by omega)
        have e2 : (UInt8.ofNat (0x80 + c.toNat / 0x40 % 0x40)).toNat =
            0x80 + c.toNat / 0x40 % 0x40 := toNat_ofNat_byte _ (by omega)
        have e3 : (UInt8.ofNat (0x80 + c.toNat % 0x40)).toNat = 0x80 + c.toNat % 0x40 :=
          toNat_ofNat_byte _ (by omega)
        simp only [h1, h2, h3, if_false, List.cons_append, List.nil_append, keyLt, e0, e1, e2,
          e3, m0, m1, m2]
        split_ifs <;> first | rfl | (exfalso; omega)

/-- A key in the scan range of owner `ys` whose owner segment is `xs` has
`xs = ys`. -/
theorem owner_eq_of_inRange (xs ys rest top : GoString) (hx : nulFree xs) (hy : nulFree ys)
    (hlo : keyLt (xs ++ 0 :: rest) (ys ++ [0]) = false)
    (hhi : keyLt (xs ++ 0 :: rest) (ys ++ [0] ++ top) = true) : xs = ys := by
  induction xs generalizing ys with
  | nil =>
    cases ys with
    | nil => rfl
    | cons d ys =>
      have hd := byte_pos_of_ne_zero d (hy d (List.mem_cons_self _ _))
      simp [keyLt, zero_toNat, hd] at hlo
  | cons c xs ih =>
    have hc := byte_pos_of_ne_zero c (hx c (List.mem_cons_self _ _))
    cases ys with
    | nil =>
      simp [keyLt, zero_toNat, hc] at hhi
    | cons d ys =>
      simp only [List.cons_append, keyLt] at hlo hhi
      by_cases h1 : c.toNat < d.toNat
      · simp [h1] at hlo
      · by_cases h2 : d.toNat < c.toNat
        · simp [h1, h2] at hhi
        · simp only [h1, h2, if_false] at hlo hhi
          have hcd : c = d := UInt8.ext (by omega)
          rw [hcd, ih ys (fun e he => hx e (List.mem_cons_of_mem _ he))
            (fun e he => hy e (List.mem_cons_of_mem _ he)) hlo hhi]

/-- A key with owner segment `ys` followed by an accepted id lies in the scan
range of owner `ys`. -/
theorem inRange_of_owner (ys zs : GoString) (hz : validAttribute zs = true) :
    keyLt (ys ++ 0 :: (zs ++ [0])) (ys ++ [0]) = false ∧
    keyLt (ys ++ 0 :: (zs ++ [0])) (ys ++ [0] ++ encodeChar maxUnicodeRuneValue) = true := by
  constructor
  · rw [keyLt_append_left]
    simp [keyLt, keyLt_nil_right]
  · rw [List.append_assoc, keyLt_append_left]
    obtain ⟨cs, hs, hc⟩ := validAttribute_encodeChars zs hz
    rw [hs]
    have hstep : keyLt (0 :: (encodeChars cs ++ [0])) ([0] ++ encodeChar maxUnicodeRuneValue) =
        keyLt (encodeChars cs ++ [0]) (encodeChar maxUnicodeRuneValue) := by
      simp [keyLt]
    rw [hstep]
    cases cs with
    | nil =>
      rw [encodeChar_max]
      rfl
    | cons c cs =>
      rw [encodeChars, List.append_assoc]
      exact keyLt_encodeChar_max c (hc c (List.mem_cons_self _ _)).2 _

theorem append_sep_inj (xs ys r r' : GoString) (hx : nulFree xs) (hy : nulFree ys)
    (h : xs ++ 0 :: r = ys ++ 0 :: r') : xs = ys ∧ r = r' := by
  induction xs generalizing ys with
  | nil =>
    cases ys with
    | nil => simpa using h
    | cons d ys =>
      simp only [List.nil_append, List.cons_append, List.cons.injEq] at h
      exact absurd h.1.symm (hy d (List.mem_cons_self _ _))
  | cons c xs ih =>
    cases ys with
    | nil =>
      simp only [List.nil_append, List.cons_append, List.cons.injEq] at h
      exact absurd h.1 (hx c (List.mem_cons_self _ _))
    | cons d ys =>
      simp only [List.cons_append, List.cons.injEq] at h
      obtain ⟨h1, h2⟩ := ih ys (fun e he => hx e (List.mem_cons_of_mem _ he))
        (fun e he => hy e (List.mem_cons_of_mem _ he)) h.2
      exact ⟨by rw [h.1, h1], h2⟩

theorem splitComponents_append (xs cur rest : GoString) (hx : nulFree xs) :
    splitComponents cur (xs ++ 0 :: rest) =
      (cur.reverse ++ xs) :: splitComponents [] rest := by
  induction xs generalizing cur with
  | nil => simp [splitComponents]
  | cons c xs ih =>
    have hc : c ≠ 0 := hx c (List.mem_cons_self _ _)
    have hstep : splitComponents cur (c :: xs ++ 0 :: rest) =
        splitComponents (c :: cur) (xs ++ 0 :: rest) := by
      rw [List.cons_append]
      conv => lhs; unfold splitComponents
      simp only [hc, if_false]
    rw [hstep, ih (c :: cur) (fun e he => hx e (List.mem_cons_of_mem _ he))]
    simp

theorem sep_last_unique (xs ys zs : GoString) (hx : nulFree xs)
    (h : xs ++ [0] = ys ++ 0 :: zs) : zs = [] ∧ ys = xs := by
  induction xs generalizing ys with
  | nil =>
    cases ys with
    | nil => simpa using h.symm
    | cons d ys => simp at h
  | cons c xs ih =>
    cases ys with
    | nil =>
      simp only [List.cons_append, List.nil_append, List.cons.injEq] at h
      exact absurd h.1 (hx c (List.mem_cons_self _ _))
    | cons d ys =>
      simp only [List.cons_append, List.cons.injEq] at h
      obtain ⟨h1, h2⟩ := ih ys (fun e he => hx e (List.mem_cons_of_mem _ he)) h.2
      exact ⟨h1, by rw [h.1, h2]⟩

/-- Two encoded pairs are equal only if the pairs are, as soon as one of them
has attributes without the byte 0. -/
theorem append_sep_inj_right (xs is ys js : GoString) (hx : nulFree xs) (hi : nulFree is)
    (h : ys ++ 0 :: (js ++ [0]) = xs ++ 0 :: (is ++ [0])) : ys = xs ∧ js = is := by
  induction xs generalizing ys with
  | nil =>
    cases ys with
    | nil =>
      simp only [List.nil_append, List.cons.injEq, true_and] at h
      exact ⟨rfl, List.append_cancel_right h⟩
    | cons d ys =>
      simp only [List.nil_append, List.cons_append, List.cons.injEq] at h
      obtain ⟨h1, _⟩ := sep_last_unique is ys (js ++ [0]) hi h.2.symm
      simp at h1
  | cons c xs ih =>
    cases ys with
    | nil =>
      simp only [List.nil_append, List.cons_append, List.cons.injEq] at h
      exact absurd h.1.symm (hx c (List.mem_cons_self _ _))
    | cons d ys =>
      simp only [List.cons_append, List.cons.injEq] at h
      obtain ⟨h1, h2⟩ := ih ys (fun e he => hx e (List.mem_cons_of_mem _ he)) h.2
      exact ⟨by rw [h.1, h1], h2⟩

theorem isInfixOf_nil (t : GoString) : isInfixOf [] t = true := by
  cases t <;> rfl

end Fabric

/-! ## The supply-chain contract -/

namespace SupplyChain

open Fabric

theorem StatusEntryJSON_roundtrip (doc : StatusEntryJSON) : doc.toStruct.toJSON = doc := by
  cases doc
  simp [StatusEntryJSON.toStruct, StatusEntry.toJSON, decodeLossy_utf8]

theorem map_toJSON_toStruct (l : List StatusEntryJSON) :
    (l.map StatusEntryJSON.toStruct).map StatusEntry.toJSON = l := by
  induction l with
  | nil => rfl
  | cons e rest ih => simp [StatusEntryJSON_roundtrip, ih]

theorem map_toJSON_comp (l : List StatusEntryJSON) :
    l.map (StatusEntry.toJSON ∘ StatusEntryJSON.toStruct) = l := by
  rw [← List.map_map, map_toJSON_toStruct]

/-- Marshalling the record that was unmarshalled from a document gives the
document back. -/
theorem ProductJSON_roundtrip (doc : ProductJSON) : doc.toStruct.toJSON = doc := by
  cases doc
  simp [ProductJSON.toStruct, Product.toJSON, decodeLossy_utf8, map_toJSON_comp]

theorem validStatuses_cases (status : GoString) (h : validStatuses status = true) :
    status = utf8 "Manufactured" ∨ status = utf8 "Shipped" ∨ status = utf8 "In-Transit" ∨
      status = utf8 "Delivered" := by
  simpa [validStatuses, or_assoc] using h

/-- A valid status is the UTF-8 text of its JSON form. -/
theorem utf8_decodeLossy_status (status : GoString) (h : validStatuses status = true) :
    utf8 (decodeLossy status) = status := by
  rcases validStatuses_cases status h with h | h | h | h <;> rw [h, decodeLossy_utf8]

theorem isValidTransition_cases (a b : GoString) (h : isValidTransition a b = true) :
    (a = utf8 "Manufactured" ∧ b = utf8 "Shipped") ∨
    (a = utf8 "Shipped" ∧ b = utf8 "In-Transit") ∨
    (a = utf8 "In-Transit" ∧ b = utf8 "Delivered") := by
  unfold isValidTransition validTransitions at h
  split_ifs at h with h1 h2 h3 h4 <;> simp at h
  · exact Or.inl ⟨h1, h.symm⟩
  · exact Or.inr (Or.inl ⟨h2, h.symm⟩)
  · exact Or.inr (Or.inr ⟨h3, h.symm⟩)

theorem isValidTransition_valid (a b : GoString) (h : isValidTransition a b = true) :
    validStatuses b = true ∧ a ≠ b := by
  rcases isValidTransition_cases a b h with ⟨h1, h2⟩ | ⟨h1, h2⟩ | ⟨h1, h2⟩ <;>
    rw [h1, h2] <;> decide

/-- A transition the code accepts from a stored status is an edge of the map
`validTransitions` and one of the three edges of the transition graph. -/
theorem edge_of_isValidTransition (a : String) (b : GoString)
    (h : isValidTransition (utf8 a) b = true) :
    tableEdge a (decodeLossy b) ∧ (a, decodeLossy b) ∈ transitionEdges := by
  rcases isValidTransition_cases _ _ h with ⟨h1, h2⟩ | ⟨h1, h2⟩ | ⟨h1, h2⟩
  · rw [utf8_inj _ _ h1, h2, decodeLossy_utf8]
    exact ⟨⟨[utf8 "Shipped"], by decide, List.mem_singleton.2 rfl⟩, by decide⟩
  · rw [utf8_inj _ _ h1, h2, decodeLossy_utf8]
    exact ⟨⟨[utf8 "In-Transit"], by decide, List.mem_singleton.2 rfl⟩, by decide⟩
  · rw [utf8_inj _ _ h1, h2, decodeLossy_utf8]
    exact ⟨⟨[utf8 "Delivered"], by decide, List.mem_singleton.2 rfl⟩, by decide⟩

/-- UpdateStatus, flattened: the checks in the order the code makes them. -/
theorem UpdateStatus_eq (stub : Stub Bytes) (productID newStatus : GoString) :
    UpdateStatus stub productID newStatus =
      if productID = [] then
        Except.error ⟨ErrKind.InvalidInput, utf8 "product ID cannot be empty"⟩
      else if validStatuses newStatus = false then
        Except.error ⟨ErrKind.InvalidInput, utf8 "invalid status: " ++ newStatus⟩
      else
        match stub.world.get productID with
        | none =>
          Except.error ⟨ErrKind.NotFound,
            utf8 "product fetch failed: " ++ (utf8 "product " ++ productID ++ utf8 " not found")⟩
        | some (Bytes.json doc) =>
          if utf8 doc.currentStatus = newStatus then
            Except.error ⟨ErrKind.NoOp, utf8 "product already in status: " ++ newStatus⟩
          else if isValidTransition (utf8 doc.currentStatus) newStatus = false then
            Except.error ⟨ErrKind.InvalidTransition,
              utf8 "invalid transition from " ++ utf8 doc.currentStatus ++ utf8 " to " ++
                newStatus⟩
          else
            Except.ok { stub with
              writes := stub.writes ++ [Write.put productID (Bytes.json
                { doc with
                  currentStatus := decodeLossy newStatus
                  statusHistory := doc.statusHistory ++
                    [{ status := decodeLossy newStatus,
                       timestamp := stub.formatRFC3339 stub.txTimestamp }] })] } := by
  unfold UpdateStatus
  by_cases h1 : productID = []
  · simp [h1]
  · by_cases h2 : validStatuses newStatus = false
    · simp [h1, h2]
    · simp only [h1, h2, if_false, Bool.not_eq_true, Bool.not_eq_true']
      simp only [Bool.not_eq_false] at h2
      simp only [h2, Bool.not_true, Bool.false_eq_true, if_false, getProduct, GetProduct, h1,
        GetState]
      cases hg : stub.world.get productID with
      | none => simp [Error.wrap]
      | some bytes =>
        cases bytes with
        | json doc =>
          simp only [jsonUnmarshal]
          have hcur : doc.toStruct.CurrentStatus = utf8 doc.currentStatus := rfl
          rw [hcur]
          by_cases h3 : utf8 doc.currentStatus = newStatus
          · simp [h3]
          · by_cases h4 : isValidTransition (utf8 doc.currentStatus) newStatus = false
            · simp [h3, h4]
            · simp only [Bool.not_eq_false] at h4
              simp [h3, h4, getTxTimestamp, GetTxTimestamp, jsonMarshal, PutState, h1,
                Product.toJSON, ProductJSON.toStruct, StatusEntry.toJSON, decodeLossy_utf8,
                map_toJSON_comp]

/-- RegisterProduct, flattened. -/
theorem RegisterProduct_eq (stub : Stub Bytes) (productID : GoString) :
    RegisterProduct stub productID =
      if productID = [] then
        Except.error ⟨ErrKind.InvalidInput, utf8 "product ID cannot be empty"⟩
      else
        match stub.world.get productID with
        | some _ =>
          Except.error
            ⟨ErrKind.AlreadyExists, utf8 "product " ++ productID ++ utf8 " already exists"⟩
        | none =>
          Except.ok { stub with
            writes := stub.writes ++ [Write.put productID (Bytes.json
              { productID := decodeLossy productID
                currentStatus := "Manufactured"
                statusHistory :=
                  [{ status := "Manufactured",
                     timestamp := stub.formatRFC3339 stub.txTimestamp }] })] } := by
  unfold RegisterProduct
  by_cases h1 : productID = []
  · simp [h1]
  · simp only [h1, if_false, productExists, GetState]
    cases hg : stub.world.get productID with
    | none =>
      simp [getTxTimestamp, GetTxTimestamp, jsonMarshal, PutState, h1, Product.toJSON,
        StatusEntry.toJSON, decodeLossy_utf8]
    | some bytes => simp

/-- GetProduct, flattened. -/
theorem GetProduct_eq_ok_iff (stub : Stub Bytes) (productID : GoString) (product : Product) :
    GetProduct stub productID = Except.ok product ↔
      productID ≠ [] ∧ ∃ doc : ProductJSON,
        stub.world.get productID = some (Bytes.json doc) ∧ doc.toStruct = product := by
  unfold GetProduct
  by_cases h1 : productID = []
  · simp [h1]
  · simp only [h1, if_false, GetState]
    cases hg : stub.world.get productID with
    | none => simp
    | some bytes =>
      cases bytes with
      | json p => simp [jsonUnmarshal, h1]

theorem HistoryInvariant_register (productID timestamp : String) :
    HistoryInvariant
      { productID := productID
        currentStatus := "Manufactured"
        statusHistory := [{ status := "Manufactured", timestamp := timestamp }] } := by
  refine ⟨by simp, by simp, ?_⟩
  intro i a b ha hb
  simp at hb

theorem HistoryInvariant_append (doc : ProductJSON) (newStatus : GoString) (timestamp : String)
    (hinv : HistoryInvariant doc)
    (hedge : isValidTransition (utf8 doc.currentStatus) newStatus = true) :
    HistoryInvariant
      { doc with
        currentStatus := decodeLossy newStatus
        statusHistory :=
          doc.statusHistory ++ [{ status := decodeLossy newStatus, timestamp := timestamp }] } := by
  obtain ⟨hne, hlast, hchain⟩ := hinv
  refine ⟨by simp, by simp, ?_⟩
  intro i a b ha hb
  simp only at ha hb
  have hlen : i + 1 < (doc.statusHistory ++
      [({ status := decodeLossy newStatus, timestamp := timestamp } : StatusEntryJSON)]).length := by
    by_contra hcon
    rw [List.getElem?_eq_none (Nat.le_of_not_lt hcon)] at hb
    exact Option.noConfusion hb
  simp only [List.length_append, List.length_singleton] at hlen
  have hi : i < doc.statusHistory.length := by omega
  rw [List.getElem?_append_left hi] at ha
  by_cases hi1 : i + 1 < doc.statusHistory.length
  · rw [List.getElem?_append_left hi1] at hb
    exact hchain i a b ha hb
  · have hieq : i + 1 = doc.statusHistory.length := by omega
    rw [List.getElem?_append_right (Nat.le_of_eq hieq.symm)] at hb
    have hb' : b = { status := decodeLossy newStatus, timestamp := timestamp } := by
      simpa [hieq] using hb.symm
    have hidx : doc.statusHistory.length - 1 = i := by omega
    rw [List.getLast?_eq_getElem?, hidx, ha] at hlast
    simp only [Option.map_some', Option.some.injEq] at hlast
    rw [hb', hlast]
    exact edge_of_isValidTransition _ _ hedge

theorem WorldInvariant_step (fmt : Timestamp → String) (w : World Bytes)
    (tx : Timestamp × Call) (hw : WorldInvariant w) : WorldInvariant (step fmt w tx) := by
  obtain ⟨ts, call⟩ := tx
  cases call with
  | RegisterProduct productID =>
    simp only [step, invoke, RegisterProduct_eq, Stub.new]
    by_cases h1 : productID = []
    · simpa [h1, commit] using hw
    · cases hg : w.get productID with
      | some bytes => simpa [h1, hg, commit] using hw
      | none =>
        simp only [h1, hg, if_false, commit, applyWrites, List.nil_append, List.foldl_cons,
          List.foldl_nil, applyWrite]
        intro key doc hmem
        rcases World.mem_put _ _ _ _ hmem with h | h
        · simp only [Prod.mk.injEq, Bytes.json.injEq] at h
          rw [h.2]
          exact HistoryInvariant_register _ _
        · exact hw key doc h
  | UpdateStatus productID newStatus =>
    simp only [step, invoke, UpdateStatus_eq, Stub.new]
    by_cases h1 : productID = []
    · simpa [h1, commit] using hw
    · by_cases h2 : validStatuses newStatus = false
      · simpa [h1, h2, commit] using hw
      · cases hg : w.get productID with
        | none => simpa [h1, h2, hg, commit] using hw
        | some bytes =>
          cases bytes with
          | json p =>
            by_cases h3 : utf8 p.currentStatus = newStatus
            · simpa [h1, h2, hg, h3, commit] using hw
            · by_cases h4 : isValidTransition (utf8 p.currentStatus) newStatus = false
              · simpa [h1, h2, hg, h3, h4, commit] using hw
              · simp only [h1, h2, hg, h3, h4, if_false, commit, applyWrites, List.nil_append,
                  List.foldl_cons, List.foldl_nil, applyWrite]
                intro key doc hmem
                rcases World.mem_put _ _ _ _ hmem with h | h
                · simp only [Prod.mk.injEq, Bytes.json.injEq] at h
                  rw [h.2]
                  exact HistoryInvariant_append p newStatus _
                    (hw productID p (World.mem_of_get _ _ _ hg)) (by simpa using h4)
                · exact hw key doc h

theorem WorldInvariant_run (fmt : Timestamp → String) (txs : List (Timestamp × Call))
    (w : World Bytes) (hw : WorldInvariant w) : WorldInvariant (run fmt w txs) := by
  induction txs generalizing w with
  | nil => simpa [run] using hw
  | cons tx rest ih =>
    simp only [run, List.foldl_cons]
    exact ih _ (WorldInvariant_step fmt w tx hw)

/-- C1: in every ledger state reached from the empty ledger by RegisterProduct
and UpdateStatus calls, successful or failing, every stored product has a
non-empty history whose last status is the current status, and every two
consecutive statuses of the history are an edge of the map `validTransitions`
(the first is a key of the map, the second is in its list), that is one of the
edges Manufactured to Shipped, Shipped to In-Transit, In-Transit to
Delivered. -/
theorem reachable_history_invariant (fmt : Timestamp → String)
    (txs : List (Timestamp × Call)) (key : GoString) (doc : ProductJSON)
    (hstored : (key, Bytes.json doc) ∈ run fmt [] txs) :
    doc.statusHistory ≠ [] ∧
    doc.statusHistory.getLast?.map (fun entry => entry.status) = some doc.currentStatus ∧
    ∀ (i : Nat) (a b : StatusEntryJSON),
      doc.statusHistory[i]? = some a → doc.statusHistory[i + 1]? = some b →
      (∃ allowed : List GoString,
        validTransitions (utf8 a.status) = some allowed ∧ utf8 b.status ∈ allowed) ∧
      ((a.status = "Manufactured" ∧ b.status = "Shipped") ∨
       (a.status = "Shipped" ∧ b.status = "In-Transit") ∨
       (a.status = "In-Transit" ∧ b.status = "Delivered")) := by
  obtain ⟨h1, h2, h3⟩ :=
    WorldInvariant_run fmt txs [] (fun _ _ h => absurd h (List.not_mem_nil _)) key doc hstored
  refine ⟨h1, h2, ?_⟩
  intro i a b ha hb
  obtain ⟨ht, he⟩ := h3 i a b ha hb
  refine ⟨ht, ?_⟩
  simpa [transitionEdges] using he

/-- Witness of C1 on the ledger after `Register("P1")`, `Transition("P1","Shipped")`:
the stored record has the history Manufactured, Shipped, whose one pair is an
edge of the map. -/
theorem reachable_history_invariant_witness :
    ((utf8 "P1", Bytes.json shippedRecord) ∈
      run epochFormat []
        [(epoch, Call.RegisterProduct (utf8 "P1")),
         (epoch, Call.UpdateStatus (utf8 "P1") (utf8 "Shipped"))]) ∧
    shippedRecord.statusHistory.map (fun entry => entry.status) = ["Manufactured", "Shipped"] ∧
    (shippedRecord.statusHistory ≠ [] ∧
     shippedRecord.statusHistory.getLast?.map (fun entry => entry.status) =
       some shippedRecord.currentStatus ∧
     ∀ (i : Nat) (a b : StatusEntryJSON),
       shippedRecord.statusHistory[i]? = some a →
       shippedRecord.statusHistory[i + 1]? = some b →
       (∃ allowed : List GoString,
         validTransitions (utf8 a.status) = some allowed ∧ utf8 b.status ∈ allowed) ∧
       ((a.status = "Manufactured" ∧ b.status = "Shipped") ∨
        (a.status = "Shipped" ∧ b.status = "In-Transit") ∨
        (a.status = "In-Transit" ∧ b.status = "Delivered"))) :=
  ⟨by decide, by decide,
   reachable_history_invariant epochFormat
     [(epoch, Call.RegisterProduct (utf8 "P1")),
      (epoch, Call.UpdateStatus (utf8 "P1") (utf8 "Shipped"))] (utf8 "P1")
     shippedRecord (by decide)⟩

end SupplyChain

namespace SupplyChain

open Fabric

/-- C2: when product `productID` exists and `(CurrentStatus, newStatus)` is an
edge of the transition graph, UpdateStatus succeeds and the record stored
afterwards has `CurrentStatus = newStatus` and the previous history with exactly
one entry `{newStatus, transaction timestamp}` appended. -/
theorem UpdateStatus_edge_appends (w : World Bytes) (ts : Timestamp)
    (fmt : Timestamp → String) (productID newStatus : GoString) (product : Product)
    (hexists : GetProduct (Stub.new w ts fmt) productID = Except.ok product)
    (hedge : isValidTransition product.CurrentStatus newStatus = true) :
    failureKind (UpdateStatus (Stub.new w ts fmt) productID newStatus) = none ∧
    getTxTimestamp (Stub.new w ts fmt) = Except.ok (utf8 (fmt ts)) ∧
    ∃ stored : Product,
      (∀ (ts' : Timestamp) (fmt' : Timestamp → String),
        GetProduct
          (Stub.new (commit w (UpdateStatus (Stub.new w ts fmt) productID newStatus)) ts' fmt')
          productID = Except.ok stored) ∧
      stored.ProductID = product.ProductID ∧
      stored.CurrentStatus = newStatus ∧
      stored.StatusHistory =
        product.StatusHistory ++ [{ Status := newStatus, Timestamp := utf8 (fmt ts) }] ∧
      stored.StatusHistory.length = product.StatusHistory.length + 1 ∧
      (∀ i : Nat, i < product.StatusHistory.length →
        stored.StatusHistory[i]? = product.StatusHistory[i]?) ∧
      stored.StatusHistory.getLast?.map (fun entry => entry.Status) =
        some stored.CurrentStatus := by
  obtain ⟨h1, doc, hg, hdoc⟩ := (GetProduct_eq_ok_iff _ _ _).1 hexists
  subst hdoc
  have hedge' : isValidTransition (utf8 doc.currentStatus) newStatus = true := hedge
  obtain ⟨hvalid, hne⟩ := isValidTransition_valid _ _ hedge'
  have hnew := utf8_decodeLossy_status newStatus hvalid
  simp only [Stub.new] at hg
  have hrun : UpdateStatus (Stub.new w ts fmt) productID newStatus =
      Except.ok { Stub.new w ts fmt with
        writes := [Write.put productID (Bytes.json
          { doc with
            currentStatus := decodeLossy newStatus
            statusHistory := doc.statusHistory ++
              [{ status := decodeLossy newStatus, timestamp := fmt ts }] })] } := by
    rw [UpdateStatus_eq]
    simp [Stub.new, h1, hvalid, hg, hne, hedge']
  refine ⟨by rw [hrun]; rfl, rfl,
    { doc.toStruct with
      CurrentStatus := newStatus
      StatusHistory :=
        doc.toStruct.StatusHistory ++ [{ Status := newStatus, Timestamp := utf8 (fmt ts) }] },
    ?_, rfl, rfl, rfl, by simp, ?_, by simp⟩
  · intro ts' fmt'
    rw [hrun, GetProduct_eq_ok_iff]
    refine ⟨h1,
      { doc with
        currentStatus := decodeLossy newStatus
        statusHistory := doc.statusHistory ++
          [{ status := decodeLossy newStatus, timestamp := fmt ts }] }, ?_, ?_⟩
    · simp only [commit, applyWrites, List.foldl_cons, List.foldl_nil, applyWrite, Stub.new]
      exact World.get_put_self _ _ _
    · simp [ProductJSON.toStruct, StatusEntryJSON.toStruct, hnew]
  · intro i hi
    exact List.getElem?_append_left hi

/-- Witness of C2: `Transition("P1","In-Transit")` on the shipped ledger succeeds
and stores the history of three entries. -/
theorem UpdateStatus_edge_appends_witness :
    GetProduct (Stub.new shippedLedger epoch epochFormat) (utf8 "P1") =
      Except.ok shippedProduct ∧
    isValidTransition shippedProduct.CurrentStatus (utf8 "In-Transit") = true ∧
    failureKind
      (UpdateStatus (Stub.new shippedLedger epoch epochFormat) (utf8 "P1") (utf8 "In-Transit")) =
      none ∧
    GetProduct
        (Stub.new
          (commit shippedLedger
            (UpdateStatus (Stub.new shippedLedger epoch epochFormat) (utf8 "P1")
              (utf8 "In-Transit")))
          epoch epochFormat) (utf8 "P1") = Except.ok
      { ProductID := utf8 "P1"
        CurrentStatus := utf8 "In-Transit"
        StatusHistory :=
          [{ Status := utf8 "Manufactured", Timestamp := utf8 "1970-01-01T00:00:00Z" },
           { Status := utf8 "Shipped", Timestamp := utf8 "1970-01-01T00:00:00Z" },
           { Status := utf8 "In-Transit", Timestamp := utf8 "1970-01-01T00:00:00Z" }] } := by
  have h := UpdateStatus_edge_appends shippedLedger epoch epochFormat (utf8 "P1")
    (utf8 "In-Transit") shippedProduct (by decide) (by decide)
  obtain ⟨hok, _, stored, hget, hid, hcur, hhist, _⟩ := h
  refine ⟨by decide, by decide, hok, ?_⟩
  rw [hget epoch epochFormat]
  cases stored with
  | mk pid cur hist =>
    simp only at hid hcur hhist
    rw [hid, hcur, hhist]
    rfl

/-- C3: when product `productID` exists and `newStatus` is a valid status other
than the current one that is not a successor of the current status, UpdateStatus
fails with InvalidTransition and the whole ledger, the record and its history
included, is left unchanged. -/
theorem UpdateStatus_non_edge_rejected (w : World Bytes) (ts : Timestamp)
    (fmt : Timestamp → String) (productID newStatus : GoString) (product : Product)
    (hexists : GetProduct (Stub.new w ts fmt) productID = Except.ok product)
    (hvalid : validStatuses newStatus = true)
    (hne : newStatus ≠ product.CurrentStatus)
    (hnoedge : isValidTransition product.CurrentStatus newStatus = false) :
    failureKind (UpdateStatus (Stub.new w ts fmt) productID newStatus) =
      some ErrKind.InvalidTransition ∧
    commit w (UpdateStatus (Stub.new w ts fmt) productID newStatus) = w := by
  obtain ⟨h1, doc, hg, hdoc⟩ := (GetProduct_eq_ok_iff _ _ _).1 hexists
  subst hdoc
  have hne' : ¬ utf8 doc.currentStatus = newStatus := fun h => hne h.symm
  have hnoedge' : isValidTransition (utf8 doc.currentStatus) newStatus = false := hnoedge
  simp only [Stub.new] at hg
  rw [UpdateStatus_eq]
  simp [Stub.new, h1, hvalid, hg, hne', hnoedge', failureKind, commit]

/-- Witness of C3: after `Register("P1")` and `Transition("P1","Shipped")`,
`Transition("P1","Delivered")` fails with InvalidTransition. -/
theorem UpdateStatus_non_edge_rejected_witness :
    GetProduct (Stub.new shippedLedger epoch epochFormat) (utf8 "P1") =
      Except.ok shippedProduct ∧
    (failureKind
        (UpdateStatus (Stub.new shippedLedger epoch epochFormat) (utf8 "P1")
          (utf8 "Delivered")) =
      some ErrKind.InvalidTransition ∧
     commit shippedLedger
       (UpdateStatus (Stub.new shippedLedger epoch epochFormat) (utf8 "P1")
         (utf8 "Delivered")) =
       shippedLedger) :=
  ⟨by decide,
   UpdateStatus_non_edge_rejected shippedLedger epoch epochFormat (utf8 "P1") (utf8 "Delivered")
      shippedProduct (by decide) (by decide) (by decide) (by decide)⟩

/-- C4: when product `productID` exists with current status `c`, one of the four
statuses of the data model, `UpdateStatus(productID, c)` fails with NoOp, not
with InvalidTransition, and leaves the whole ledger unchanged. -/
theorem UpdateStatus_same_status_noop (w : World Bytes) (ts : Timestamp)
    (fmt : Timestamp → String) (productID : GoString) (product : Product)
    (hexists : GetProduct (Stub.new w ts fmt) productID = Except.ok product)
    (hstatus : validStatuses product.CurrentStatus = true) :
    failureKind (UpdateStatus (Stub.new w ts fmt) productID product.CurrentStatus) =
      some ErrKind.NoOp ∧
    commit w (UpdateStatus (Stub.new w ts fmt) productID product.CurrentStatus) = w := by
  obtain ⟨h1, doc, hg, hdoc⟩ := (GetProduct_eq_ok_iff _ _ _).1 hexists
  subst hdoc
  have hcur : doc.toStruct.CurrentStatus = utf8 doc.currentStatus := rfl
  rw [hcur] at hstatus ⊢
  simp only [Stub.new] at hg
  rw [UpdateStatus_eq]
  simp [Stub.new, h1, hstatus, hg, failureKind, commit]

/-- Witness of C4 on the terminal status: `Transition("P1","Delivered")` on a
delivered product. -/
theorem UpdateStatus_same_status_noop_witness :
    GetProduct (Stub.new deliveredLedger epoch epochFormat) (utf8 "P1") = Except.ok
      { ProductID := utf8 "P1"
        CurrentStatus := utf8 "Delivered"
        StatusHistory :=
          [{ Status := utf8 "Manufactured", Timestamp := utf8 "1970-01-01T00:00:00Z" },
           { Status := utf8 "Shipped", Timestamp := utf8 "1970-01-01T00:00:00Z" },
           { Status := utf8 "In-Transit", Timestamp := utf8 "1970-01-01T00:00:00Z" },
           { Status := utf8 "Delivered", Timestamp := utf8 "1970-01-01T00:00:00Z" }] } ∧
    (failureKind
        (UpdateStatus (Stub.new deliveredLedger epoch epochFormat) (utf8 "P1")
          (utf8 "Delivered")) =
      some ErrKind.NoOp ∧
     commit deliveredLedger
       (UpdateStatus (Stub.new deliveredLedger epoch epochFormat) (utf8 "P1")
         (utf8 "Delivered")) =
       deliveredLedger) :=
  ⟨by decide,
   UpdateStatus_same_status_noop deliveredLedger epoch epochFormat (utf8 "P1")
      { ProductID := utf8 "P1"
        CurrentStatus := utf8 "Delivered"
        StatusHistory :=
          [{ Status := utf8 "Manufactured", Timestamp := utf8 "1970-01-01T00:00:00Z" },
           { Status := utf8 "Shipped", Timestamp := utf8 "1970-01-01T00:00:00Z" },
           { Status := utf8 "In-Transit", Timestamp := utf8 "1970-01-01T00:00:00Z" },
           { Status := utf8 "Delivered", Timestamp := utf8 "1970-01-01T00:00:00Z" }] }
      (by decide) (by decide)⟩

/-- C5: UpdateStatus returns the one outcome the specification prescribes,
decided in the order InvalidInput, NotFound, NoOp, InvalidTransition, success;
it succeeds exactly when the id is non-empty, the record exists and
`(CurrentStatus, newStatus)` is an edge; and two ledgers whose records of the
product agree on `CurrentStatus` give the same outcome, whatever their
histories. -/
theorem UpdateStatus_outcome (w : World Bytes) (ts : Timestamp) (fmt : Timestamp → String)
    (productID newStatus : GoString) :
    failureKind (UpdateStatus (Stub.new w ts fmt) productID newStatus) =
      specTransitionOutcome w productID newStatus ∧
    (failureKind (UpdateStatus (Stub.new w ts fmt) productID newStatus) = none ↔
      productID ≠ [] ∧ ∃ doc : ProductJSON,
        w.get productID = some (Bytes.json doc) ∧
        isValidTransition (utf8 doc.currentStatus) newStatus = true) ∧
    (∀ (w' : World Bytes) (ts' : Timestamp) (fmt' : Timestamp → String)
        (doc doc' : ProductJSON),
      w.get productID = some (Bytes.json doc) →
      w'.get productID = some (Bytes.json doc') →
      doc.currentStatus = doc'.currentStatus →
      failureKind (UpdateStatus (Stub.new w' ts' fmt') productID newStatus) =
        failureKind (UpdateStatus (Stub.new w ts fmt) productID newStatus)) := by
  have key : ∀ (w : World Bytes) (ts : Timestamp) (fmt : Timestamp → String),
      failureKind (UpdateStatus (Stub.new w ts fmt) productID newStatus) =
        specTransitionOutcome w productID newStatus := by
    intro w ts fmt
    rw [UpdateStatus_eq]
    unfold specTransitionOutcome
    by_cases h1 : productID = []
    · simp [h1, failureKind]
    · by_cases h2 : validStatuses newStatus = false
      · simp [h1, h2, failureKind]
      · cases hg : w.get productID with
        | none => simp [h1, h2, hg, Stub.new, failureKind]
        | some bytes =>
          cases bytes with
          | json p =>
            by_cases h3 : utf8 p.currentStatus = newStatus
            · simp [h1, h2, hg, h3, Stub.new, failureKind]
            · have h3' : ¬ newStatus = utf8 p.currentStatus := fun h => h3 h.symm
              by_cases h4 : isValidTransition (utf8 p.currentStatus) newStatus = false
              · simp [h1, h2, hg, h3, h3', h4, Stub.new, failureKind]
              · simp [h1, h2, hg, h3, h3', h4, Stub.new, failureKind]
  refine ⟨key w ts fmt, ?_, ?_⟩
  · rw [key]
    unfold specTransitionOutcome
    constructor
    · intro h
      by_cases h1 : productID = []
      · simp [h1] at h
      · by_cases h2 : validStatuses newStatus = false
        · simp [h2] at h
        · cases hg : w.get productID with
          | none => simp [h1, h2, hg] at h
          | some bytes =>
            cases bytes with
            | json p =>
              by_cases h4 : isValidTransition (utf8 p.currentStatus) newStatus = false
              · by_cases h3 : newStatus = utf8 p.currentStatus
                · rw [h3] at h2
                  simp [h1, h2, hg, h3] at h
                · simp [h1, h2, hg, h3, h4] at h
              · exact ⟨h1, p, rfl, by simpa using h4⟩
    · rintro ⟨h1, p, hg, hedge⟩
      obtain ⟨hvalid, hne⟩ := isValidTransition_valid _ _ hedge
      simp [h1, hvalid, hg, Ne.symm hne, hedge]
  · intro w' ts' fmt' p p' hg hg' hcur
    rw [key, key]
    unfold specTransitionOutcome
    simp [hg, hg', hcur]

/-- Worked instance of C5: on the shipped ledger the five outcomes, in order. -/
theorem UpdateStatus_outcome_witness :
    failureKind
      (UpdateStatus (Stub.new shippedLedger epoch epochFormat) [] (utf8 "Delivered")) =
      some ErrKind.InvalidInput ∧
    failureKind
      (UpdateStatus (Stub.new shippedLedger epoch epochFormat) (utf8 "P1") (utf8 "Lost")) =
      some ErrKind.InvalidInput ∧
    failureKind
      (UpdateStatus (Stub.new shippedLedger epoch epochFormat) (utf8 "P2") (utf8 "Shipped")) =
      some ErrKind.NotFound ∧
    failureKind
      (UpdateStatus (Stub.new shippedLedger epoch epochFormat) (utf8 "P1") (utf8 "Shipped")) =
      some ErrKind.NoOp ∧
    failureKind
      (UpdateStatus (Stub.new shippedLedger epoch epochFormat) (utf8 "P1")
        (utf8 "Manufactured")) =
      some ErrKind.InvalidTransition ∧
    failureKind
      (UpdateStatus (Stub.new shippedLedger epoch epochFormat) (utf8 "P1")
        (utf8 "In-Transit")) =
      none := by
  refine ⟨?_, ?_, ?_, ?_, ?_, ?_⟩ <;>
    rw [(UpdateStatus_outcome shippedLedger epoch epochFormat _ _).1] <;> decide

/-- C6 as stated fails: for the one-byte id `"\xff"`, which is not valid UTF-8,
RegisterProduct succeeds on the empty ledger, and GetProduct of that id then
returns a record whose ProductID is the three bytes of U+FFFD, not the id. -/
theorem RegisterProduct_coerces_invalid_id :
    invalidByte ≠ [] ∧ utf8Valid invalidByte = false ∧
    failureKind (RegisterProduct (Stub.new [] epoch epochFormat) invalidByte) = none ∧
    GetProduct
        (Stub.new (commit [] (RegisterProduct (Stub.new [] epoch epochFormat) invalidByte))
          epoch epochFormat) invalidByte = Except.ok
      { ProductID := [0xEF, 0xBF, 0xBD]
        CurrentStatus := utf8 "Manufactured"
        StatusHistory :=
          [{ Status := utf8 "Manufactured", Timestamp := utf8 "1970-01-01T00:00:00Z" }] } ∧
    ([0xEF, 0xBF, 0xBD] : GoString) ≠ invalidByte := by
  decide

/-- C6, amended: RegisterProduct fails with InvalidInput on the empty id and with
AlreadyExists on an id that is present, leaving the ledger unchanged in both
cases; otherwise it succeeds and GetProduct then returns the record with
`CurrentStatus = "Manufactured"`, the one-entry history
`{"Manufactured", transaction timestamp}` and as ProductID the id as
`json.Marshal` stores it, every byte outside a valid UTF-8 encoding replaced by
U+FFFD: for an id that is valid UTF-8, `ProductID = id`. -/
theorem RegisterProduct_contract (w : World Bytes) (ts : Timestamp)
    (fmt : Timestamp → String) (productID : GoString) :
    (productID = [] →
      failureKind (RegisterProduct (Stub.new w ts fmt) productID) =
        some ErrKind.InvalidInput ∧
      commit w (RegisterProduct (Stub.new w ts fmt) productID) = w) ∧
    (productID ≠ [] → w.get productID ≠ none →
      failureKind (RegisterProduct (Stub.new w ts fmt) productID) =
        some ErrKind.AlreadyExists ∧
      commit w (RegisterProduct (Stub.new w ts fmt) productID) = w) ∧
    (productID ≠ [] → w.get productID = none →
      failureKind (RegisterProduct (Stub.new w ts fmt) productID) = none ∧
      getTxTimestamp (Stub.new w ts fmt) = Except.ok (utf8 (fmt ts)) ∧
      (∀ (ts' : Timestamp) (fmt' : Timestamp → String),
        GetProduct (Stub.new (commit w (RegisterProduct (Stub.new w ts fmt) productID)) ts' fmt')
          productID = Except.ok
            { ProductID := utf8 (decodeLossy productID)
              CurrentStatus := utf8 "Manufactured"
              StatusHistory :=
                [{ Status := utf8 "Manufactured", Timestamp := utf8 (fmt ts) }] }) ∧
      (utf8Valid productID = true →
        ∀ (ts' : Timestamp) (fmt' : Timestamp → String),
          GetProduct
            (Stub.new (commit w (RegisterProduct (Stub.new w ts fmt) productID)) ts' fmt')
            productID = Except.ok
              { ProductID := productID
                CurrentStatus := utf8 "Manufactured"
                StatusHistory :=
                  [{ Status := utf8 "Manufactured", Timestamp := utf8 (fmt ts) }] })) := by
  refine ⟨?_, ?_, ?_⟩
  · intro h1
    rw [RegisterProduct_eq]
    simp [h1, failureKind, commit]
  · intro h1 hg
    rw [RegisterProduct_eq]
    cases hg' : w.get productID with
    | none => exact absurd hg' hg
    | some bytes => simp [h1, hg', Stub.new, failureKind, commit]
  · intro h1 hg
    have hget : ∀ (ts' : Timestamp) (fmt' : Timestamp → String),
        GetProduct (Stub.new (commit w (RegisterProduct (Stub.new w ts fmt) productID)) ts' fmt')
          productID = Except.ok
            { ProductID := utf8 (decodeLossy productID)
              CurrentStatus := utf8 "Manufactured"
              StatusHistory :=
                [{ Status := utf8 "Manufactured", Timestamp := utf8 (fmt ts) }] } := by
      intro ts' fmt'
      rw [RegisterProduct_eq, GetProduct_eq_ok_iff]
      simp only [h1, hg, Stub.new, if_false]
      refine ⟨h1,
        { productID := decodeLossy productID
          currentStatus := "Manufactured"
          statusHistory := [{ status := "Manufactured", timestamp := fmt ts }] }, ?_, rfl⟩
      simp only [commit, applyWrites, List.nil_append, List.foldl_cons, List.foldl_nil,
        applyWrite]
      exact World.get_put_self _ _ _
    refine ⟨?_, rfl, hget, ?_⟩
    · rw [RegisterProduct_eq]
      simp only [h1, hg, Stub.new, if_false, failureKind]
    · intro hvalid ts' fmt'
      rw [hget ts' fmt', utf8_decodeLossy productID hvalid]

/-- Worked instance of C6: `Register("P1")` on the empty ledger, then `Get("P1")`;
registering it again fails and changes nothing. -/
theorem RegisterProduct_contract_witness :
    utf8Valid (utf8 "P1") = true ∧
    GetProduct
        (Stub.new (commit [] (RegisterProduct (Stub.new [] epoch epochFormat) (utf8 "P1")))
          epoch epochFormat) (utf8 "P1") = Except.ok
      { ProductID := utf8 "P1"
        CurrentStatus := utf8 "Manufactured"
        StatusHistory :=
          [{ Status := utf8 "Manufactured", Timestamp := utf8 "1970-01-01T00:00:00Z" }] } ∧
    (failureKind (RegisterProduct (Stub.new shippedLedger epoch epochFormat) (utf8 "P1")) =
        some ErrKind.AlreadyExists ∧
      commit shippedLedger
        (RegisterProduct (Stub.new shippedLedger epoch epochFormat) (utf8 "P1")) =
        shippedLedger) :=
  ⟨by decide,
   ((RegisterProduct_contract [] epoch epochFormat (utf8 "P1")).2.2 (by decide)
      (by decide)).2.2.2 (by decide) epoch epochFormat,
   (RegisterProduct_contract shippedLedger epoch epochFormat (utf8 "P1")).2.1 (by decide)
      (by decide)⟩

end SupplyChain

/-! ## The asset contract -/

namespace AssetCC

open Fabric

theorem ownerKey_eq (owner assetID : GoString) :
    ownerKey owner assetID =
      0 :: (utf8 "owner~assetID" ++ 0 :: (owner ++ 0 :: (assetID ++ [0]))) := by
  simp [ownerKey, compositeKeyNamespace, encodeChar_min]

theorem ownerPrefix_eq (owner : GoString) :
    ownerPrefix owner = (0 :: (utf8 "owner~assetID" ++ [0])) ++ (owner ++ [0]) := by
  simp [ownerPrefix, compositeKeyNamespace, encodeChar_min]

theorem ownerKey_split (owner assetID : GoString) :
    ownerKey owner assetID =
      (0 :: (utf8 "owner~assetID" ++ [0])) ++ (owner ++ 0 :: (assetID ++ [0])) := by
  simp [ownerKey_eq]

theorem ownerKey_ne_empty (owner assetID : GoString) : ownerKey owner assetID ≠ [] := by
  rw [ownerKey_eq]
  exact List.cons_ne_nil _ _

/-- An accepted attribute is not an index key: index keys start with the byte 0. -/
theorem ne_ownerKey_of_validAttribute (key owner assetID : GoString)
    (h : validAttribute key = true) : key ≠ ownerKey owner assetID := by
  intro heq
  have hn := nulFree_of_validAttribute key h
  rw [heq, ownerKey_eq] at hn
  exact hn 0 (List.mem_cons_self _ _) rfl

theorem ownerKey_inj (owner owner' assetID assetID' : GoString)
    (ho : validAttribute owner = true) (ho' : validAttribute owner' = true)
    (h : ownerKey owner assetID = ownerKey owner' assetID') :
    owner = owner' ∧ assetID = assetID' := by
  rw [ownerKey_eq, ownerKey_eq] at h
  simp only [List.cons.injEq, true_and, List.append_cancel_left_eq] at h
  obtain ⟨h1, h2⟩ := append_sep_inj _ _ _ _ (nulFree_of_validAttribute _ ho)
    (nulFree_of_validAttribute _ ho') h
  exact ⟨h1, List.append_cancel_right h2⟩

theorem ownerKey_inj_right (owner owner' assetID assetID' : GoString)
    (ho : validAttribute owner' = true) (hi : validAttribute assetID' = true)
    (h : ownerKey owner assetID = ownerKey owner' assetID') :
    owner = owner' ∧ assetID = assetID' := by
  rw [ownerKey_eq, ownerKey_eq] at h
  simp only [List.cons.injEq, true_and, List.append_cancel_left_eq] at h
  exact append_sep_inj_right _ _ _ _ (nulFree_of_validAttribute _ ho)
    (nulFree_of_validAttribute _ hi) h

theorem validate_of_validAttribute (s : GoString) (h : validAttribute s = true) :
    validateCompositeKeyAttribute s = Except.ok () := by
  rcases validateCompositeKeyAttribute_eq s with ⟨_, h2⟩ | ⟨h1, _⟩
  · exact h2
  · rw [h] at h1
    exact Bool.noConfusion h1

theorem validate_error (s : GoString) (err : Error)
    (h : validateCompositeKeyAttribute s = Except.error err) :
    validAttribute s = false ∧ err.kind = ErrKind.StoreError := by
  rcases validateCompositeKeyAttribute_eq s with ⟨_, h2⟩ | ⟨h1, e, h2, h3⟩
  · rw [h] at h2
    exact Except.noConfusion h2
  · rw [h] at h2
    simp only [Except.error.injEq] at h2
    rw [h2]
    exact ⟨h1, h3⟩

theorem validAttribute_of_ok (s : GoString) (u : Unit)
    (h : validateCompositeKeyAttribute s = Except.ok u) : validAttribute s = true := by
  unfold validAttribute
  rw [h]

theorem CreateCompositeKey_owner (owner assetID : GoString) :
    CreateCompositeKey (utf8 "owner~assetID") [owner, assetID] =
      match validateCompositeKeyAttribute owner with
      | Except.error err => Except.error err
      | Except.ok _ =>
        match validateCompositeKeyAttribute assetID with
        | Except.error err => Except.error err
        | Except.ok _ => Except.ok (ownerKey owner assetID) := by
  have hot : validateCompositeKeyAttribute (utf8 "owner~assetID") = Except.ok () := by decide
  simp only [CreateCompositeKey, hot, appendAttributes]
  cases validateCompositeKeyAttribute owner with
  | error e => rfl
  | ok u =>
    cases validateCompositeKeyAttribute assetID with
    | error e => rfl
    | ok u' => simp [ownerKey]

/-- The start key of the scan of one owner. -/
theorem CreateCompositeKey_ownerPrefix (owner : GoString) :
    CreateCompositeKey (utf8 "owner~assetID") [owner] =
      match validateCompositeKeyAttribute owner with
      | Except.error err => Except.error err
      | Except.ok _ => Except.ok (ownerPrefix owner) := by
  have hot : validateCompositeKeyAttribute (utf8 "owner~assetID") = Except.ok () := by decide
  simp only [CreateCompositeKey, hot, appendAttributes]
  cases validateCompositeKeyAttribute owner with
  | error e => rfl
  | ok u => simp [ownerPrefix]

theorem CreateCompositeKey_owner_valid (owner assetID : GoString)
    (ho : validAttribute owner = true) (hi : validAttribute assetID = true) :
    CreateCompositeKey (utf8 "owner~assetID") [owner, assetID] =
      Except.ok (ownerKey owner assetID) := by
  rw [CreateCompositeKey_owner, validate_of_validAttribute _ ho, validate_of_validAttribute _ hi]

/-- The error of building the index key of a pair that is refused. -/
theorem CreateCompositeKey_owner_error (owner assetID : GoString) (err : Error)
    (h : CreateCompositeKey (utf8 "owner~assetID") [owner, assetID] = Except.error err) :
    err.kind = ErrKind.StoreError ∧
    (validAttribute owner = false ∨ validAttribute assetID = false) := by
  rw [CreateCompositeKey_owner] at h
  cases ho : validateCompositeKeyAttribute owner with
  | error e =>
    simp only [ho, Except.error.injEq] at h
    obtain ⟨h1, h2⟩ := validate_error _ _ ho
    rw [← h]
    exact ⟨h2, Or.inl h1⟩
  | ok u =>
    cases hi : validateCompositeKeyAttribute assetID with
    | error e =>
      simp only [ho, hi, Except.error.injEq] at h
      obtain ⟨h1, h2⟩ := validate_error _ _ hi
      rw [← h]
      exact ⟨h2, Or.inr h1⟩
    | ok u' => simp [ho, hi] at h

theorem CreateCompositeKey_owner_ok (owner assetID key : GoString)
    (h : CreateCompositeKey (utf8 "owner~assetID") [owner, assetID] = Except.ok key) :
    validAttribute owner = true ∧ validAttribute assetID = true ∧ key = ownerKey owner assetID := by
  rw [CreateCompositeKey_owner] at h
  cases ho : validateCompositeKeyAttribute owner with
  | error e => simp [ho] at h
  | ok u =>
    cases hi : validateCompositeKeyAttribute assetID with
    | error e => simp [ho, hi] at h
    | ok u' =>
      simp only [ho, hi, Except.ok.injEq] at h
      exact ⟨validAttribute_of_ok _ _ ho, validAttribute_of_ok _ _ hi, h.symm⟩

theorem SplitCompositeKey_ownerKey (owner assetID : GoString)
    (ho : validAttribute owner = true) (hi : validAttribute assetID = true) :
    SplitCompositeKey (ownerKey owner assetID) =
      Except.ok (utf8 "owner~assetID", [owner, assetID]) := by
  have hot : nulFree (utf8 "owner~assetID") :=
    nulFree_of_validAttribute (utf8 "owner~assetID") (by decide)
  unfold SplitCompositeKey
  rw [ownerKey_eq]
  simp only [List.drop_succ_cons, List.drop_zero]
  rw [splitComponents_append _ _ _ hot,
    splitComponents_append _ _ _ (nulFree_of_validAttribute _ ho)]
  have hlast : assetID ++ [0] = assetID ++ 0 :: [] := rfl
  rw [hlast, splitComponents_append _ _ _ (nulFree_of_validAttribute _ hi)]
  simp [splitComponents]

theorem Atoi_empty : Atoi [] = Except.error ⟨ErrKind.InvalidInput, utf8 "invalid syntax"⟩ := by
  decide

theorem AssetExists_eq (stub : Stub Bytes) (assetID : GoString) :
    AssetExists stub assetID = Except.ok (stub.world.get assetID).isSome := rfl

theorem ReadAsset_eq_ok_iff (stub : Stub Bytes) (assetID : GoString) (asset : Asset) :
    ReadAsset stub assetID = Except.ok asset ↔
      ∃ doc : AssetJSON, stub.world.get assetID = some (Bytes.json doc) ∧
        doc.toStruct = asset := by
  unfold ReadAsset
  simp only [GetState]
  cases hg : stub.world.get assetID with
  | none => simp
  | some bytes =>
    cases bytes with
    | json a => simp [jsonUnmarshal]
    | zero => simp [jsonUnmarshal]

/-- Reading a stored asset returns the record of its document. -/
theorem ReadAsset_of_get (stub : Stub Bytes) (assetID : GoString) (doc : AssetJSON)
    (h : stub.world.get assetID = some (Bytes.json doc)) :
    ReadAsset stub assetID = Except.ok doc.toStruct :=
  (ReadAsset_eq_ok_iff _ _ _).2 ⟨doc, h, rfl⟩

/-- CreateAsset, flattened. -/
theorem CreateAsset_eq (stub : Stub Bytes) (assetID name owner value : GoString) :
    CreateAsset stub assetID name owner value =
      if assetID = [] ∨ name = [] ∨ owner = [] ∨ value = [] then
        Except.error ⟨ErrKind.InvalidInput, utf8 "all fields must be non-empty"⟩
      else
        match Atoi value with
        | Except.error _ =>
          Except.error ⟨ErrKind.InvalidInput, utf8 "value must be a valid integer"⟩
        | Except.ok valueInt =>
          match stub.world.get assetID with
          | some _ =>
            Except.error
              ⟨ErrKind.AlreadyExists, utf8 "asset " ++ assetID ++ utf8 " already exists"⟩
          | none =>
            match CreateCompositeKey (utf8 "owner~assetID") [owner, assetID] with
            | Except.error err =>
              Except.error (err.wrap (utf8 "failed to create composite key: "))
            | Except.ok compositeKey =>
              Except.ok { stub with
                writes := stub.writes ++
                  [Write.put assetID (Bytes.json
                    { assetID := decodeLossy assetID, name := decodeLossy name,
                      owner := decodeLossy owner, value := valueInt }),
                   Write.put compositeKey Bytes.zero]
                event := some (utf8 "AssetCreated", EventPayload.value (Bytes.json
                    { assetID := decodeLossy assetID, name := decodeLossy name,
                      owner := decodeLossy owner, value := valueInt })) } := by
  unfold CreateAsset
  by_cases h1 : assetID = [] ∨ name = [] ∨ owner = [] ∨ value = []
  · simp only [h1, if_true]
  · simp only [h1, if_false]
    have hid : assetID ≠ [] := fun h => h1 (Or.inl h)
    cases hv : Atoi value with
    | error e => rfl
    | ok valueInt =>
      simp only [AssetExists_eq]
      cases hg : stub.world.get assetID with
      | some bytes => rfl
      | none =>
        simp only [Option.isSome_none, jsonMarshal, PutState, hid, if_false, Asset.toJSON]
        cases hk : CreateCompositeKey (utf8 "owner~assetID") [owner, assetID] with
        | error e => rfl
        | ok key =>
          obtain ⟨_, _, hkey⟩ := CreateCompositeKey_owner_ok _ _ _ hk
          have hne : key ≠ [] := by
            rw [hkey]
            exact ownerKey_ne_empty _ _
          have hev : utf8 "AssetCreated" ≠ [] := by decide
          simp [hne, SetEvent, hev]

/-- UpdateAsset, flattened. -/
theorem UpdateAsset_eq (stub : Stub Bytes) (assetID name owner value : GoString) :
    UpdateAsset stub assetID name owner value =
      match stub.world.get assetID with
      | none =>
        Except.error
          ⟨ErrKind.NotFound, utf8 "the asset " ++ assetID ++ utf8 " does not exist"⟩
      | some _ =>
        match Atoi value with
        | Except.error _ =>
          Except.error ⟨ErrKind.InvalidInput, utf8 "value must be a valid integer"⟩
        | Except.ok valueInt =>
          if assetID = [] then
            Except.error (Error.wrap (utf8 "failed to update asset: ")
              ⟨ErrKind.StoreError, utf8 "key must not be an empty string"⟩)
          else
            Except.ok { stub with
              writes := stub.writes ++
                [Write.put assetID (Bytes.json
                  { assetID := decodeLossy assetID, name := decodeLossy name,
                    owner := decodeLossy owner, value := valueInt })]
              event := some (utf8 "AssetUpdated", EventPayload.value (Bytes.json
                  { assetID := decodeLossy assetID, name := decodeLossy name,
                    owner := decodeLossy owner, value := valueInt })) } := by
  unfold UpdateAsset
  simp only [AssetExists_eq]
  cases hg : stub.world.get assetID with
  | none => rfl
  | some bytes =>
    simp only [Option.isSome_some]
    cases hv : Atoi value with
    | error e => rfl
    | ok valueInt =>
      have hev : utf8 "AssetUpdated" ≠ [] := by decide
      by_cases hid : assetID = []
      · simp [hid, jsonMarshal, PutState]
      · simp [hid, jsonMarshal, PutState, SetEvent, hev, Asset.toJSON]

/-- DeleteAsset, flattened. -/
theorem DeleteAsset_eq (stub : Stub Bytes) (assetID : GoString) :
    DeleteAsset stub assetID =
      match stub.world.get assetID with
      | none =>
        Except.error
          ⟨ErrKind.NotFound, utf8 "the asset " ++ assetID ++ utf8 " does not exist"⟩
      | some Bytes.zero =>
        Except.error
          ⟨ErrKind.SerializationError, utf8 "invalid character looking for beginning of value"⟩
      | some (Bytes.json existingAsset) =>
        match CreateCompositeKey (utf8 "owner~assetID") [utf8 existingAsset.owner, assetID] with
        | Except.error err =>
          Except.error (err.wrap (utf8 "failed to create composite key: "))
        | Except.ok compositeKey =>
          Except.ok { stub with
            writes := stub.writes ++ [Write.del assetID, Write.del compositeKey]
            event := some (utf8 "AssetDeleted", EventPayload.text assetID) } := by
  unfold DeleteAsset
  simp only [AssetExists_eq, ReadAsset, GetState]
  cases hg : stub.world.get assetID with
  | none => rfl
  | some bytes =>
    cases bytes with
    | zero => rfl
    | json a =>
      simp only [Option.isSome_some, jsonUnmarshal, DelState, AssetJSON.toStruct]
      cases hk : CreateCompositeKey (utf8 "owner~assetID") [utf8 a.owner, assetID] with
      | error e => rfl
      | ok key =>
        have hev : utf8 "AssetDeleted" ≠ [] := by decide
        simp [SetEvent, hev]

theorem CreateAsset_ok (stub stub' : Stub Bytes) (assetID name owner value : GoString)
    (h : CreateAsset stub assetID name owner value = Except.ok stub') :
    ∃ valueInt : Int,
      assetID ≠ [] ∧ name ≠ [] ∧ owner ≠ [] ∧ Atoi value = Except.ok valueInt ∧
      stub.world.get assetID = none ∧
      validAttribute owner = true ∧ validAttribute assetID = true ∧
      stub'.writes = stub.writes ++
        [Write.put assetID (Bytes.json
          { assetID := decodeLossy assetID, name := decodeLossy name,
            owner := decodeLossy owner, value := valueInt }),
         Write.put (ownerKey owner assetID) Bytes.zero] := by
  rw [CreateAsset_eq] at h
  by_cases h1 : assetID = [] ∨ name = [] ∨ owner = [] ∨ value = []
  · simp [h1] at h
  · simp only [h1, if_false] at h
    cases hv : Atoi value with
    | error e => simp [hv] at h
    | ok valueInt =>
      cases hg : stub.world.get assetID with
      | some bytes => simp [hv, hg] at h
      | none =>
        cases hk : CreateCompositeKey (utf8 "owner~assetID") [owner, assetID] with
        | error e => simp [hv, hg, hk] at h
        | ok key =>
          obtain ⟨ho, hi, hkey⟩ := CreateCompositeKey_owner_ok _ _ _ hk
          simp only [hv, hg, hk, Except.ok.injEq] at h
          simp only [not_or] at h1
          exact ⟨valueInt, h1.1, h1.2.1, h1.2.2.1, rfl, rfl, ho, hi, by rw [← h, hkey]⟩

theorem UpdateAsset_ok (stub stub' : Stub Bytes) (assetID name owner value : GoString)
    (h : UpdateAsset stub assetID name owner value = Except.ok stub') :
    ∃ valueInt : Int,
      assetID ≠ [] ∧ Atoi value = Except.ok valueInt ∧ stub.world.get assetID ≠ none ∧
      stub'.writes = stub.writes ++
        [Write.put assetID (Bytes.json
          { assetID := decodeLossy assetID, name := decodeLossy name,
            owner := decodeLossy owner, value := valueInt })] := by
  rw [UpdateAsset_eq] at h
  cases hg : stub.world.get assetID with
  | none => simp [hg] at h
  | some bytes =>
    cases hv : Atoi value with
    | error e => simp [hg, hv] at h
    | ok valueInt =>
      by_cases hid : assetID = []
      · subst hid
        simp [hg, hv] at h
      · simp only [hg, hv, hid, if_false, Except.ok.injEq] at h
        exact ⟨valueInt, hid, rfl, by simp, by rw [← h]⟩

theorem DeleteAsset_ok (stub stub' : Stub Bytes) (assetID : GoString)
    (h : DeleteAsset stub assetID = Except.ok stub') :
    ∃ existingAsset : AssetJSON,
      stub.world.get assetID = some (Bytes.json existingAsset) ∧
      validAttribute (utf8 existingAsset.owner) = true ∧ validAttribute assetID = true ∧
      stub'.writes = stub.writes ++
        [Write.del assetID, Write.del (ownerKey (utf8 existingAsset.owner) assetID)] := by
  rw [DeleteAsset_eq] at h
  cases hg : stub.world.get assetID with
  | none => simp [hg] at h
  | some bytes =>
    cases bytes with
    | zero => simp [hg] at h
    | json a =>
      cases hk : CreateCompositeKey (utf8 "owner~assetID") [utf8 a.owner, assetID] with
      | error e => simp [hg, hk] at h
      | ok key =>
        obtain ⟨ho, hi, hkey⟩ := CreateCompositeKey_owner_ok _ _ _ hk
        simp only [hg, hk, Except.ok.injEq] at h
        exact ⟨a, rfl, ho, hi, by rw [← h, hkey]⟩

end AssetCC

namespace AssetCC

open Fabric

theorem Consistent_create (w : World Bytes) (g : List (GoString × GoString))
    (key owner : GoString) (doc : AssetJSON) (h : Consistent w g)
    (hkey : utf8 doc.assetID = key) (hown : utf8 doc.owner = owner)
    (habsent : w.get key = none)
    (ho : validAttribute owner = true) (hi : validAttribute key = true) (hne : key ≠ []) :
    Consistent ((w.put key (Bytes.json doc)).put (ownerKey owner key) Bytes.zero)
      ((owner, key) :: g) := by
  have hidck : key ≠ ownerKey owner key := ne_ownerKey_of_validAttribute _ _ _ hi
  refine ⟨?_, ?_, ?_⟩
  · intro k a hmem
    rcases World.mem_put _ _ _ _ hmem with h1 | h1
    · simp at h1
    · rcases World.mem_put _ _ _ _ h1 with h2 | h2
      · simp only [Prod.mk.injEq, Bytes.json.injEq] at h2
        rw [h2.1, h2.2, hkey, hown]
        exact ⟨rfl, List.mem_cons_self _ _⟩
      · obtain ⟨ha, hg⟩ := h.assets k a h2
        exact ⟨ha, List.mem_cons_of_mem _ hg⟩
  · intro k hmem
    rcases World.mem_put _ _ _ _ hmem with h1 | h1
    · simp only [Prod.mk.injEq, and_true] at h1
      exact ⟨owner, key, List.mem_cons_self _ _, h1⟩
    · rcases World.mem_put _ _ _ _ h1 with h2 | h2
      · simp at h2
      · obtain ⟨o, i, hg, hk⟩ := h.markers k h2
        exact ⟨o, i, List.mem_cons_of_mem _ hg, hk⟩
  · intro o i hmem
    rcases List.mem_cons.1 hmem with h1 | h1
    · simp only [Prod.mk.injEq] at h1
      rw [h1.1, h1.2]
      refine ⟨ho, hi, hne, ⟨doc, ?_, hown⟩, World.get_put_self _ _ _⟩
      rw [World.get_put_of_ne _ _ _ _ hidck]
      exact World.get_put_self _ _ _
    · obtain ⟨hvo, hvi, hine, ⟨a, hga, hao⟩, hgm⟩ := h.pairs o i h1
      have hi_id : i ≠ key := by
        intro heq
        rw [heq, habsent] at hga
        exact Option.noConfusion hga
      refine ⟨hvo, hvi, hine, ⟨a, ?_, hao⟩, ?_⟩
      · rw [World.get_put_of_ne _ _ _ _ (ne_ownerKey_of_validAttribute _ _ _ hvi),
          World.get_put_of_ne _ _ _ _ hi_id]
        exact hga
      · by_cases hck : ownerKey o i = ownerKey owner key
        · rw [hck]
          exact World.get_put_self _ _ _
        · rw [World.get_put_of_ne _ _ _ _ hck,
            World.get_put_of_ne _ _ _ _ (Ne.symm (ne_ownerKey_of_validAttribute _ _ _ hi))]
          exact hgm

theorem Consistent_update (w : World Bytes) (g : List (GoString × GoString))
    (key : GoString) (stored doc : AssetJSON) (h : Consistent w g)
    (hget : w.get key = some (Bytes.json stored))
    (hkey : utf8 doc.assetID = key) (howner : doc.owner = stored.owner) :
    Consistent (w.put key (Bytes.json doc)) g := by
  refine ⟨?_, ?_, ?_⟩
  · intro k a hmem
    rcases World.mem_put _ _ _ _ hmem with h1 | h1
    · simp only [Prod.mk.injEq, Bytes.json.injEq] at h1
      rw [h1.1, h1.2, howner]
      exact ⟨hkey, (h.assets _ _ (World.mem_of_get _ _ _ hget)).2⟩
    · exact h.assets k a h1
  · intro k hmem
    rcases World.mem_put _ _ _ _ hmem with h1 | h1
    · simp at h1
    · exact h.markers k h1
  · intro o i hmem
    obtain ⟨hvo, hvi, hine, ⟨a, hga, hao⟩, hgm⟩ := h.pairs o i hmem
    refine ⟨hvo, hvi, hine, ?_, ?_⟩
    · by_cases hi_id : i = key
      · refine ⟨doc, ?_, ?_⟩
        · rw [hi_id]
          exact World.get_put_self _ _ _
        · rw [hi_id, hget] at hga
          simp only [Option.some.injEq, Bytes.json.injEq] at hga
          rw [howner, hga, hao]
      · exact ⟨a, by rw [World.get_put_of_ne _ _ _ _ hi_id]; exact hga, hao⟩
    · have hck : ownerKey o i ≠ key := by
        intro heq
        rw [heq, hget] at hgm
        simp at hgm
      rw [World.get_put_of_ne _ _ _ _ hck]
      exact hgm

theorem Consistent_delete (w : World Bytes) (g : List (GoString × GoString))
    (stored : AssetJSON) (assetID : GoString) (h : Consistent w g)
    (hget : w.get assetID = some (Bytes.json stored)) :
    Consistent ((w.del assetID).del (ownerKey (utf8 stored.owner) assetID))
      (g.filter (fun p => decide (p.2 ≠ assetID))) := by
  have hstored := h.assets _ _ (World.mem_of_get _ _ _ hget)
  obtain ⟨hso, hsi, _, _, _⟩ := h.pairs _ _ hstored.2
  refine ⟨?_, ?_, ?_⟩
  · intro key a hmem
    obtain ⟨hmem1, _⟩ := (World.mem_del _ _ _).1 hmem
    obtain ⟨hmem2, hk⟩ := (World.mem_del _ _ _).1 hmem1
    obtain ⟨ha, hg⟩ := h.assets key a hmem2
    refine ⟨ha, ?_⟩
    simp only [List.mem_filter, decide_eq_true_eq]
    exact ⟨hg, hk⟩
  · intro key hmem
    obtain ⟨hmem1, hkck⟩ := (World.mem_del _ _ _).1 hmem
    obtain ⟨hmem2, _⟩ := (World.mem_del _ _ _).1 hmem1
    obtain ⟨o, i, hg, hk⟩ := h.markers key hmem2
    refine ⟨o, i, ?_, hk⟩
    simp only [List.mem_filter, decide_eq_true_eq]
    refine ⟨hg, ?_⟩
    intro hi
    obtain ⟨_, _, _, ⟨a, hga, hao⟩, _⟩ := h.pairs o i hg
    rw [hi, hget] at hga
    simp only [Option.some.injEq, Bytes.json.injEq] at hga
    apply hkck
    simp only [hk, hi, ← hao, hga]
  · intro o i hmem
    simp only [List.mem_filter, decide_eq_true_eq] at hmem
    obtain ⟨hg, hi_id⟩ := hmem
    obtain ⟨hvo, hvi, hine, ⟨a, hga, hao⟩, hgm⟩ := h.pairs o i hg
    refine ⟨hvo, hvi, hine, ⟨a, ?_, hao⟩, ?_⟩
    · rw [World.get_del_of_ne _ _ _ (ne_ownerKey_of_validAttribute _ _ _ hvi),
        World.get_del_of_ne _ _ _ hi_id]
      exact hga
    · have hck : ownerKey o i ≠ ownerKey (utf8 stored.owner) assetID :=
        fun heq => hi_id (ownerKey_inj _ _ _ _ hvo hso heq).2
      rw [World.get_del_of_ne _ _ _ hck,
        World.get_del_of_ne _ _ _ (Ne.symm (ne_ownerKey_of_validAttribute _ _ _ hsi))]
      exact hgm

theorem Consistent_track (fmt : Timestamp → String) (w : World Bytes)
    (g : List (GoString × GoString)) (tx : Timestamp × Call) (h : Consistent w g)
    (hkeep : keepsOwner (Stub.new w tx.1 fmt) tx.2 = true) :
    Consistent (track fmt (w, g) tx).1 (track fmt (w, g) tx).2 := by
  obtain ⟨ts, call⟩ := tx
  cases call with
  | CreateAsset assetID name owner value =>
    simp only [track, step, invoke]
    cases hr : CreateAsset (Stub.new w ts fmt) assetID name owner value with
    | error e => simpa [commit] using h
    | ok stub' =>
      obtain ⟨v, hid, _, _, _, hg, ho, hi, hw⟩ := CreateAsset_ok _ _ _ _ _ _ hr
      simp only [commit, hw, Stub.new, applyWrites, List.nil_append, List.foldl_cons,
        List.foldl_nil, applyWrite]
      exact Consistent_create w g assetID owner _ h
        (utf8_decodeLossy _ (utf8Valid_of_validAttribute _ hi))
        (utf8_decodeLossy _ (utf8Valid_of_validAttribute _ ho)) hg ho hi hid
  | UpdateAsset assetID name owner value =>
    simp only [track, step, invoke]
    cases hr : UpdateAsset (Stub.new w ts fmt) assetID name owner value with
    | error e => simpa [commit] using h
    | ok stub' =>
      obtain ⟨v, hid, _, _, hw⟩ := UpdateAsset_ok _ _ _ _ _ _ hr
      simp only [keepsOwner, hr] at hkeep
      cases hread : ReadAsset (Stub.new w ts fmt) assetID with
      | error e => simp [hread] at hkeep
      | ok existingAsset =>
        simp only [hread, decide_eq_true_eq] at hkeep
        obtain ⟨stored, hget, hst⟩ := (ReadAsset_eq_ok_iff _ _ _).1 hread
        simp only [Stub.new] at hget
        have hown : utf8 stored.owner = owner := by
          rw [← hkeep, ← hst]
          rfl
        have hkey : utf8 stored.assetID = assetID :=
          (h.assets _ _ (World.mem_of_get _ _ _ hget)).1
        simp only [commit, hw, Stub.new, applyWrites, List.nil_append, List.foldl_cons,
          List.foldl_nil, applyWrite]
        refine Consistent_update w g assetID stored _ h hget ?_ ?_
        · show utf8 (decodeLossy assetID) = assetID
          rw [← hkey, decodeLossy_utf8]
        · show decodeLossy owner = stored.owner
          rw [← hown, decodeLossy_utf8]
  | DeleteAsset assetID =>
    simp only [track, step, invoke]
    cases hr : DeleteAsset (Stub.new w ts fmt) assetID with
    | error e => simpa [commit] using h
    | ok stub' =>
      obtain ⟨a, hget, _, _, hw⟩ := DeleteAsset_ok _ _ _ hr
      simp only [commit, hw, Stub.new, applyWrites, List.nil_append, List.foldl_cons,
        List.foldl_nil, applyWrite]
      exact Consistent_delete w g a assetID h hget

theorem Consistent_foldl (fmt : Timestamp → String) (txs : List (Timestamp × Call))
    (w : World Bytes) (g : List (GoString × GoString)) (h : Consistent w g)
    (hkeep : ownerPreserving fmt w txs = true) :
    Consistent (txs.foldl (track fmt) (w, g)).1 (txs.foldl (track fmt) (w, g)).2 ∧
    (txs.foldl (track fmt) (w, g)).1 = run fmt w txs := by
  induction txs generalizing w g with
  | nil => exact ⟨h, rfl⟩
  | cons tx rest ih =>
    simp only [ownerPreserving, Bool.and_eq_true] at hkeep
    have hstep := Consistent_track fmt w g tx h hkeep.1
    have hfst : (track fmt (w, g) tx).1 = step fmt w tx := rfl
    simp only [List.foldl_cons, run]
    have := ih (track fmt (w, g) tx).1 (track fmt (w, g) tx).2 hstep (by rw [hfst]; exact hkeep.2)
    rw [hfst] at this
    exact this

theorem Consistent_empty : Consistent ([] : World Bytes) [] :=
  ⟨fun _ _ h => absurd h (List.not_mem_nil _), fun _ h => absurd h (List.not_mem_nil _),
   fun _ _ h => absurd h (List.not_mem_nil _)⟩

/-- The predicate of the index scan of `owner`, on one key. -/
theorem inScan_iff (key owner : GoString) :
    (!keyLt key (ownerPrefix owner) &&
      (decide (ownerPrefix owner ++ encodeChar maxUnicodeRuneValue = []) ||
        keyLt key (ownerPrefix owner ++ encodeChar maxUnicodeRuneValue))) = true ↔
    keyLt key (ownerPrefix owner) = false ∧
    keyLt key (ownerPrefix owner ++ encodeChar maxUnicodeRuneValue) = true := by
  have hne : ownerPrefix owner ++ encodeChar maxUnicodeRuneValue ≠ [] := by
    rw [ownerPrefix_eq]
    simp
  simp [hne]

theorem scan_owner_eq (owner owner' assetID : GoString)
    (ho : validAttribute owner = true) (ho' : validAttribute owner' = true)
    (hlo : keyLt (ownerKey owner' assetID) (ownerPrefix owner) = false)
    (hhi : keyLt (ownerKey owner' assetID)
      (ownerPrefix owner ++ encodeChar maxUnicodeRuneValue) = true) : owner' = owner := by
  rw [ownerKey_split, ownerPrefix_eq] at hlo hhi
  rw [keyLt_append_left] at hlo
  rw [List.append_assoc, keyLt_append_left] at hhi
  exact owner_eq_of_inRange _ _ _ _ (nulFree_of_validAttribute _ ho')
    (nulFree_of_validAttribute _ ho) hlo hhi

theorem scan_contains (owner assetID : GoString) (hi : validAttribute assetID = true) :
    keyLt (ownerKey owner assetID) (ownerPrefix owner) = false ∧
    keyLt (ownerKey owner assetID)
      (ownerPrefix owner ++ encodeChar maxUnicodeRuneValue) = true := by
  rw [ownerKey_split, ownerPrefix_eq]
  refine ⟨?_, ?_⟩
  · rw [keyLt_append_left]
    exact (inRange_of_owner _ _ hi).1
  · rw [List.append_assoc, keyLt_append_left]
    exact (inRange_of_owner _ _ hi).2

theorem scan_excludes_ids (key owner : GoString) (hk : validAttribute key = true) :
    ¬ (keyLt key (ownerPrefix owner) = false ∧
      keyLt key (ownerPrefix owner ++ encodeChar maxUnicodeRuneValue) = true) := by
  rintro ⟨hlo, hhi⟩
  rw [ownerPrefix_eq] at hlo hhi
  cases hd : key with
  | nil => simp [hd, keyLt] at hlo
  | cons c cs =>
    have hc : 0 < c.toNat := byte_pos_of_ne_zero c
      (nulFree_of_validAttribute key hk c (by rw [hd]; exact List.mem_cons_self _ _))
    simp [hd, keyLt, zero_toNat, hc] at hhi

theorem collectAssets_of_index_keys (stub : Stub Bytes) (owner : GoString)
    (ho : validAttribute owner = true) (l : World Bytes)
    (hl : ∀ (key : GoString) (bytes : Bytes), (key, bytes) ∈ l →
      ∃ (assetID : GoString) (doc : AssetJSON),
        key = ownerKey owner assetID ∧ validAttribute assetID = true ∧
        stub.world.get assetID = some (Bytes.json doc) ∧ utf8 doc.assetID = assetID) :
    ∃ assets : List Asset,
      collectAssets stub l = Except.ok assets ∧
      ∀ x : GoString, x ∈ assets.map (fun a => a.AssetID) ↔
        ∃ bytes : Bytes, (ownerKey owner x, bytes) ∈ l := by
  induction l with
  | nil => exact ⟨[], rfl, by simp⟩
  | cons e rest ih =>
    obtain ⟨key, bytes⟩ := e
    obtain ⟨assetID, doc, hkey, hvi, hget, hid⟩ := hl key bytes (List.mem_cons_self _ _)
    obtain ⟨assets, hrest, hiff⟩ :=
      ih (fun k b hm => hl k b (List.mem_cons_of_mem _ hm))
    refine ⟨doc.toStruct :: assets, ?_, ?_⟩
    · simp only [collectAssets, hkey, SplitCompositeKey_ownerKey owner assetID ho hvi,
        List.get?, ReadAsset_of_get stub assetID doc hget, hrest]
    · intro x
      have hdoc : doc.toStruct.AssetID = assetID := hid
      simp only [List.map_cons, List.mem_cons, hiff x, Prod.mk.injEq, hdoc]
      constructor
      · rintro (h | ⟨b, hb⟩)
        · exact ⟨bytes, Or.inl ⟨by rw [hkey, h], rfl⟩⟩
        · exact ⟨b, Or.inr hb⟩
      · rintro ⟨b, h | hb⟩
        · left
          rw [hkey] at h
          exact (ownerKey_inj _ _ _ _ ho ho h.1).2
        · exact Or.inr ⟨b, hb⟩

theorem QueryAssetsByOwner_valid (stub : Stub Bytes) (owner : GoString)
    (ho : validAttribute owner = true) :
    QueryAssetsByOwner stub owner =
      collectAssets stub
        (stub.world.range (ownerPrefix owner)
          (ownerPrefix owner ++ encodeChar maxUnicodeRuneValue)) := by
  simp only [QueryAssetsByOwner, GetStateByPartialCompositeKey, CreateCompositeKey_ownerPrefix,
    validate_of_validAttribute _ ho]

theorem QueryAssetsByOwner_of_Consistent (w : World Bytes) (g : List (GoString × GoString))
    (ts : Timestamp) (fmt : Timestamp → String) (owner : GoString) (h : Consistent w g)
    (ho : validAttribute owner = true) :
    ∃ assets : List Asset,
      QueryAssetsByOwner (Stub.new w ts fmt) owner = Except.ok assets ∧
      ∀ x : GoString, x ∈ assets.map (fun a => a.AssetID) ↔ (owner, x) ∈ g := by
  have hscan : ∀ (key : GoString) (bytes : Bytes),
      (key, bytes) ∈ w.range (ownerPrefix owner)
        (ownerPrefix owner ++ encodeChar maxUnicodeRuneValue) ↔
      (key, bytes) ∈ w ∧ keyLt key (ownerPrefix owner) = false ∧
        keyLt key (ownerPrefix owner ++ encodeChar maxUnicodeRuneValue) = true := by
    intro key bytes
    unfold World.range
    rw [List.mem_filter, inScan_iff]
  obtain ⟨assets, hcollect, hiff⟩ := collectAssets_of_index_keys (Stub.new w ts fmt) owner ho
    (w.range (ownerPrefix owner) (ownerPrefix owner ++ encodeChar maxUnicodeRuneValue))
    (by
      intro key bytes hmem
      obtain ⟨hw, hin⟩ := (hscan key bytes).1 hmem
      cases bytes with
      | json a =>
        obtain ⟨hid, hg⟩ := h.assets key a hw
        obtain ⟨_, hvk, _, _, _⟩ := h.pairs _ _ hg
        exact absurd hin (scan_excludes_ids key owner hvk)
      | zero =>
        obtain ⟨o, i, hg, hk⟩ := h.markers key hw
        obtain ⟨hvo, hvi, _, ⟨a, hga, _⟩, _⟩ := h.pairs o i hg
        rw [hk] at hin
        have hoo := scan_owner_eq owner o i ho hvo hin.1 hin.2
        refine ⟨i, a, by rw [hk, hoo], hvi, hga, ?_⟩
        exact (h.assets i a (World.mem_of_get _ _ _ hga)).1)
  refine ⟨assets, ?_, ?_⟩
  · rw [QueryAssetsByOwner_valid _ _ ho]
    exact hcollect
  · intro x
    rw [hiff x]
    constructor
    · rintro ⟨bytes, hmem⟩
      obtain ⟨hw, _⟩ := (hscan _ _).1 hmem
      cases bytes with
      | json a =>
        obtain ⟨_, hg⟩ := h.assets _ a hw
        obtain ⟨_, hvk, _, _, _⟩ := h.pairs _ _ hg
        exact absurd rfl (ne_ownerKey_of_validAttribute _ owner x hvk)
      | zero =>
        obtain ⟨o, i, hg, hk⟩ := h.markers _ hw
        obtain ⟨hvo, _, _, _, _⟩ := h.pairs o i hg
        obtain ⟨h1, h2⟩ := ownerKey_inj _ _ _ _ ho hvo hk
        rw [h1, h2]
        exact hg
    · intro hg
      obtain ⟨_, hvi, _, _, hgm⟩ := h.pairs owner x hg
      exact ⟨Bytes.zero, (hscan _ _).2 ⟨World.mem_of_get _ _ _ hgm, scan_contains owner x hvi⟩⟩

end AssetCC

namespace AssetCC

open Fabric

/-- C7 as stated fails three times.  With non-empty id, name and owner, an integer
value and an absent id, CreateAsset is rejected when the owner contains U+0000
and when the owner is `"al\xff"`, which is not valid UTF-8: `CreateCompositeKey`
accepts neither as attribute, and nothing is stored.  And for the name `"W\xffd"`,
which is not valid UTF-8, CreateAsset succeeds but ReadAsset returns the name
with the byte `\xff` replaced by U+FFFD, not the name that was given. -/
theorem CreateAsset_rejects_separator :
    utf8 "A1" ≠ [] ∧ utf8 "Widget" ≠ [] ∧ nulOwner ≠ [] ∧ invalidOwner ≠ [] ∧
    invalidName ≠ [] ∧ Atoi (utf8 "100") = Except.ok 100 ∧
    AssetExists (Stub.new [] epoch epochFormat) (utf8 "A1") = Except.ok false ∧
    failureKind
      (CreateAsset (Stub.new [] epoch epochFormat) (utf8 "A1") (utf8 "Widget") nulOwner
        (utf8 "100")) = some ErrKind.StoreError ∧
    failureKind (ReadAsset (Stub.new
      (commit []
        (CreateAsset (Stub.new [] epoch epochFormat) (utf8 "A1") (utf8 "Widget") nulOwner
          (utf8 "100")))
      epoch epochFormat) (utf8 "A1")) = some ErrKind.NotFound ∧
    failureKind
      (CreateAsset (Stub.new [] epoch epochFormat) (utf8 "A1") (utf8 "Widget") invalidOwner
        (utf8 "100")) = some ErrKind.StoreError ∧
    failureKind
      (CreateAsset (Stub.new [] epoch epochFormat) (utf8 "A1") invalidName (utf8 "alice")
        (utf8 "100")) = none ∧
    ReadAsset (Stub.new
      (commit []
        (CreateAsset (Stub.new [] epoch epochFormat) (utf8 "A1") invalidName (utf8 "alice")
          (utf8 "100")))
      epoch epochFormat) (utf8 "A1") =
      Except.ok
        { AssetID := utf8 "A1", Name := [0x57, 0xEF, 0xBF, 0xBD, 0x64], Owner := utf8 "alice",
          Value := 100 } ∧
    ([0x57, 0xEF, 0xBF, 0xBD, 0x64] : GoString) ≠ invalidName := by
  decide

/-- C7, amended: for id, name and owner non-empty and valid UTF-8, id and owner
containing neither U+0000 nor U+10FFFF (the strings `CreateCompositeKey` accepts
as attributes), a value that `Atoi` parses as `v`, and an id that is not
present, CreateAsset succeeds, after which ReadAsset returns exactly
`{AssetID: id, Name: name, Owner: owner, Value: v}` and AssetExists is true. -/
theorem CreateAsset_then_ReadAsset (w : World Bytes) (ts : Timestamp)
    (fmt : Timestamp → String) (assetID name owner value : GoString) (v : Int)
    (hid : assetID ≠ []) (hname : name ≠ []) (howner : owner ≠ [])
    (hvalue : Atoi value = Except.ok v)
    (habsent : AssetExists (Stub.new w ts fmt) assetID = Except.ok false)
    (hutf8 : utf8Valid assetID = true ∧ utf8Valid name = true ∧ utf8Valid owner = true)
    (hrunes : ∀ c ∈ (decodeLossy assetID).data ++ (decodeLossy owner).data,
      c ≠ minUnicodeRuneValue ∧ c ≠ maxUnicodeRuneValue) :
    CreateCompositeKey (utf8 "owner~assetID") [owner, assetID] =
      Except.ok (ownerKey owner assetID) ∧
    failureKind (CreateAsset (Stub.new w ts fmt) assetID name owner value) = none ∧
    ∀ (ts' : Timestamp) (fmt' : Timestamp → String),
      ReadAsset
          (Stub.new (commit w (CreateAsset (Stub.new w ts fmt) assetID name owner value))
            ts' fmt') assetID =
        Except.ok { AssetID := assetID, Name := name, Owner := owner, Value := v } ∧
      AssetExists
          (Stub.new (commit w (CreateAsset (Stub.new w ts fmt) assetID name owner value))
            ts' fmt') assetID = Except.ok true := by
  have hval : value ≠ [] := by
    intro h
    rw [h, Atoi_empty] at hvalue
    exact Except.noConfusion hvalue
  have hget : w.get assetID = none := by
    rw [AssetExists_eq] at habsent
    cases hg : w.get assetID with
    | none => rfl
    | some bytes =>
      simp only [Stub.new, hg, Option.isSome_some, Except.ok.injEq] at habsent
      exact Bool.noConfusion habsent
  obtain ⟨hid8, hname8, hown8⟩ := hutf8
  have hattrs : validAttribute assetID = true ∧ validAttribute owner = true :=
    ⟨(validAttribute_iff assetID).2
        ⟨hid8, fun c hc => hrunes c (List.mem_append.2 (Or.inl hc))⟩,
     (validAttribute_iff owner).2
        ⟨hown8, fun c hc => hrunes c (List.mem_append.2 (Or.inr hc))⟩⟩
  have hrun : CreateAsset (Stub.new w ts fmt) assetID name owner value =
      Except.ok { Stub.new w ts fmt with
        writes :=
          [Write.put assetID (Bytes.json
            { assetID := decodeLossy assetID, name := decodeLossy name,
              owner := decodeLossy owner, value := v }),
           Write.put (ownerKey owner assetID) Bytes.zero]
        event := some (utf8 "AssetCreated", EventPayload.value (Bytes.json
            { assetID := decodeLossy assetID, name := decodeLossy name,
              owner := decodeLossy owner, value := v })) } := by
    rw [CreateAsset_eq, CreateCompositeKey_owner_valid _ _ hattrs.2 hattrs.1]
    simp [Stub.new, hid, hname, howner, hval, hvalue, hget]
  have hstored :
      (commit w (CreateAsset (Stub.new w ts fmt) assetID name owner value)).get assetID =
        some (Bytes.json
          { assetID := decodeLossy assetID, name := decodeLossy name,
            owner := decodeLossy owner, value := v }) := by
    rw [hrun]
    simp only [commit, applyWrites, List.foldl_cons, List.foldl_nil, applyWrite]
    rw [World.get_put_of_ne _ _ _ _ (ne_ownerKey_of_validAttribute _ _ _ hattrs.1)]
    exact World.get_put_self _ _ _
  refine ⟨CreateCompositeKey_owner_valid _ _ hattrs.2 hattrs.1, by rw [hrun]; rfl, ?_⟩
  intro ts' fmt'
  refine ⟨?_, ?_⟩
  · rw [ReadAsset_of_get _ _ _ hstored]
    simp only [AssetJSON.toStruct, utf8_decodeLossy _ hid8, utf8_decodeLossy _ hown8,
      utf8_decodeLossy _ hname8]
  · rw [AssetExists_eq]
    show Except.ok (Option.isSome
      ((commit w (CreateAsset (Stub.new w ts fmt) assetID name owner value)).get assetID)) = _
    rw [hstored]
    rfl

/-- Witness of C7: `Create("A1","Widget","alice","100")` on the empty ledger, then
`Read("A1")` returns `{A1, Widget, alice, 100}`. -/
theorem CreateAsset_then_ReadAsset_witness :
    Atoi (utf8 "100") = Except.ok 100 ∧
    AssetExists (Stub.new [] epoch epochFormat) (utf8 "A1") = Except.ok false ∧
    (utf8Valid (utf8 "A1") = true ∧ utf8Valid (utf8 "Widget") = true ∧
      utf8Valid (utf8 "alice") = true) ∧
    (∀ c ∈ (decodeLossy (utf8 "A1")).data ++ (decodeLossy (utf8 "alice")).data,
      c ≠ minUnicodeRuneValue ∧ c ≠ maxUnicodeRuneValue) ∧
    ReadAsset
        (Stub.new
          (commit []
            (CreateAsset (Stub.new [] epoch epochFormat) (utf8 "A1") (utf8 "Widget")
              (utf8 "alice") (utf8 "100")))
          epoch epochFormat) (utf8 "A1") =
      Except.ok
        { AssetID := utf8 "A1", Name := utf8 "Widget", Owner := utf8 "alice", Value := 100 } ∧
    AssetExists
        (Stub.new
          (commit []
            (CreateAsset (Stub.new [] epoch epochFormat) (utf8 "A1") (utf8 "Widget")
              (utf8 "alice") (utf8 "100")))
          epoch epochFormat) (utf8 "A1") = Except.ok true :=
  ⟨by decide, by decide, by decide, by decide,
   (CreateAsset_then_ReadAsset [] epoch epochFormat (utf8 "A1") (utf8 "Widget") (utf8 "alice")
      (utf8 "100") 100 (by decide) (by decide) (by decide) (by decide) (by decide) (by decide)
      (by decide)).2.2 epoch epochFormat⟩

/-- C8 as stated fails three times: the query of an owner containing U+0000 and
the query of the owner `"al\xff"`, which is not valid UTF-8, are rejected on the
empty ledger; and after `A1` was created for `alice`, handed to `bob` by
UpdateAsset and deleted, the query of `alice` fails on the index entry that the
deletion left behind. -/
theorem QueryAssetsByOwner_can_fail :
    failureKind (QueryAssetsByOwner (Stub.new [] epoch epochFormat) nulOwner) =
      some ErrKind.StoreError ∧
    failureKind (QueryAssetsByOwner (Stub.new [] epoch epochFormat) invalidOwner) =
      some ErrKind.StoreError ∧
    failureKind
      (QueryAssetsByOwner (Stub.new reownedDeletedLedger epoch epochFormat) (utf8 "alice")) =
      some ErrKind.NotFound := by
  decide

/-- C8, amended: after any sequence of CreateAsset, UpdateAsset and DeleteAsset
calls on the empty ledger in which every UpdateAsset call fails or keeps the
stored owner, and for every owner that is valid UTF-8 and contains neither
U+0000 nor U+10FFFF (the strings `CreateCompositeKey` accepts as attribute),
QueryAssetsByOwner succeeds and the ids it returns are exactly the ids created
with that owner and not deleted. -/
theorem QueryAssetsByOwner_created_not_deleted (fmt : Timestamp → String)
    (txs : List (Timestamp × Call)) (ts : Timestamp) (owner : GoString)
    (hkeep : ownerPreserving fmt [] txs = true) (hutf8 : utf8Valid owner = true)
    (hrunes : ∀ c ∈ (decodeLossy owner).data,
      c ≠ minUnicodeRuneValue ∧ c ≠ maxUnicodeRuneValue) :
    validateCompositeKeyAttribute owner = Except.ok () ∧
    ∃ assets : List Asset,
      QueryAssetsByOwner (Stub.new (run fmt [] txs) ts fmt) owner = Except.ok assets ∧
      ∀ assetID : GoString,
        assetID ∈ assets.map (fun a => a.AssetID) ↔
          (owner, assetID) ∈ createdNotDeleted fmt txs := by
  obtain ⟨hcons, hrun⟩ := Consistent_foldl fmt txs [] [] Consistent_empty hkeep
  rw [hrun] at hcons
  have howner : validAttribute owner = true := (validAttribute_iff owner).2 ⟨hutf8, hrunes⟩
  exact ⟨validate_of_validAttribute _ howner,
    QueryAssetsByOwner_of_Consistent _ _ ts fmt owner hcons howner⟩

/-- Witness of C8 on `sampleCalls`: the query of `alice` succeeds. -/
theorem QueryAssetsByOwner_created_not_deleted_witness :
    ownerPreserving epochFormat [] sampleCalls = true ∧
    utf8Valid (utf8 "alice") = true ∧
    (∀ c ∈ (decodeLossy (utf8 "alice")).data,
      c ≠ minUnicodeRuneValue ∧ c ≠ maxUnicodeRuneValue) ∧
    createdNotDeleted epochFormat sampleCalls =
      [(utf8 "bob", utf8 "A2"), (utf8 "alice", utf8 "A1")] ∧
    ∃ assets : List Asset,
      QueryAssetsByOwner (Stub.new (run epochFormat [] sampleCalls) epoch epochFormat)
          (utf8 "alice") = Except.ok assets ∧
      ∀ assetID : GoString,
        assetID ∈ assets.map (fun a => a.AssetID) ↔
          ((utf8 "alice", assetID) : GoString × GoString) ∈
            createdNotDeleted epochFormat sampleCalls :=
  ⟨by decide, by decide, by decide, by decide,
   (QueryAssetsByOwner_created_not_deleted epochFormat sampleCalls epoch (utf8 "alice")
     (by decide) (by decide) (by decide)).2⟩

/-- C9 fails on the code: after `Create("A1","Widget","alice","100")` and
`Update("A1","Widget","bob","100")` the stored asset has owner `bob`, the index
has no entry `(bob, A1)` and still has the entry `(alice, A1)`. -/
theorem UpdateAsset_leaves_stale_index :
    failureKind (UpdateAsset
      (Stub.new
        (run epochFormat []
          [(epoch, Call.CreateAsset (utf8 "A1") (utf8 "Widget") (utf8 "alice") (utf8 "100"))])
        epoch epochFormat) (utf8 "A1") (utf8 "Widget") (utf8 "bob") (utf8 "100")) = none ∧
    ReadAsset (Stub.new reownedLedger epoch epochFormat) (utf8 "A1") =
      Except.ok
        { AssetID := utf8 "A1", Name := utf8 "Widget", Owner := utf8 "bob", Value := 100 } ∧
    reownedLedger.get (ownerKey (utf8 "bob") (utf8 "A1")) = none ∧
    reownedLedger.get (ownerKey (utf8 "alice") (utf8 "A1")) = some Bytes.zero ∧
    SplitCompositeKey (ownerKey (utf8 "alice") (utf8 "A1")) =
      Except.ok (utf8 "owner~assetID", [utf8 "alice", utf8 "A1"]) ∧
    reownedLedger =
      [(ownerKey (utf8 "alice") (utf8 "A1"), Bytes.zero),
       (utf8 "A1",
        Bytes.json { assetID := "A1", name := "Widget", owner := "bob", value := 100 })] := by
  decide

/-- C10 fails on the code: on the ledger where `A1`, created for `alice`, was
handed to `bob` by UpdateAsset, `DeleteAsset("A1")` succeeds and removes the
asset, but the index entry `(alice, A1)` under which `A1` is listed remains, and
the query of `alice` then fails on it. -/
theorem DeleteAsset_leaves_dangling_index :
    failureKind (DeleteAsset (Stub.new reownedLedger epoch epochFormat) (utf8 "A1")) = none ∧
    commit reownedLedger (DeleteAsset (Stub.new reownedLedger epoch epochFormat) (utf8 "A1")) =
      reownedDeletedLedger ∧
    failureKind (ReadAsset (Stub.new reownedDeletedLedger epoch epochFormat) (utf8 "A1")) =
      some ErrKind.NotFound ∧
    AssetExists (Stub.new reownedDeletedLedger epoch epochFormat) (utf8 "A1") =
      Except.ok false ∧
    reownedDeletedLedger = [(ownerKey (utf8 "alice") (utf8 "A1"), Bytes.zero)] ∧
    QueryAssetsByOwner (Stub.new reownedDeletedLedger epoch epochFormat) (utf8 "alice") =
      Except.error ⟨ErrKind.NotFound, utf8 "asset A1 does not exist"⟩ := by
  decide

/-- C11: when asset `assetID`, a non-empty id, already exists and name, owner and
value are valid, CreateAsset fails with AlreadyExists and the whole ledger, the
existing record and every index entry included, is left as it was. -/
theorem CreateAsset_duplicate_rejected (w : World Bytes) (ts : Timestamp)
    (fmt : Timestamp → String) (assetID name owner value : GoString) (v : Int)
    (hexists : AssetExists (Stub.new w ts fmt) assetID = Except.ok true)
    (hid : assetID ≠ []) (hname : name ≠ []) (howner : owner ≠ [])
    (hvalue : Atoi value = Except.ok v) :
    failureKind (CreateAsset (Stub.new w ts fmt) assetID name owner value) =
      some ErrKind.AlreadyExists ∧
    commit w (CreateAsset (Stub.new w ts fmt) assetID name owner value) = w := by
  have hval : value ≠ [] := by
    intro h
    rw [h, Atoi_empty] at hvalue
    exact Except.noConfusion hvalue
  rw [AssetExists_eq] at hexists
  cases hg : w.get assetID with
  | none =>
    simp only [Stub.new, hg, Option.isSome_none, Except.ok.injEq] at hexists
    exact Bool.noConfusion hexists
  | some bytes =>
    rw [CreateAsset_eq]
    simp [Stub.new, hid, hname, howner, hval, hvalue, hg, failureKind, commit]

/-- Witness of C11: creating `A1` again, for another owner, on the ledger that
holds `A1`. -/
theorem CreateAsset_duplicate_rejected_witness :
    AssetExists (Stub.new createdLedger epoch epochFormat) (utf8 "A1") = Except.ok true ∧
    Atoi (utf8 "5") = Except.ok 5 ∧
    (failureKind
        (CreateAsset (Stub.new createdLedger epoch epochFormat) (utf8 "A1") (utf8 "Other")
          (utf8 "bob") (utf8 "5")) =
        some ErrKind.AlreadyExists ∧
      commit createdLedger
        (CreateAsset (Stub.new createdLedger epoch epochFormat) (utf8 "A1") (utf8 "Other")
          (utf8 "bob") (utf8 "5")) =
        createdLedger) :=
  ⟨by decide, by decide,
   CreateAsset_duplicate_rejected createdLedger epoch epochFormat (utf8 "A1") (utf8 "Other")
     (utf8 "bob") (utf8 "5") 5 (by decide) (by decide) (by decide) (by decide) (by decide)⟩

/-- C12: CreateAsset fails with InvalidInput exactly when one of id, name, owner
is empty or the value does not parse as an integer, whether or not the id is
present; and on a valid input it fails with AlreadyExists exactly when the id is
already present. -/
theorem CreateAsset_failure_kinds (w : World Bytes) (ts : Timestamp)
    (fmt : Timestamp → String) (assetID name owner value : GoString) :
    (failureKind (CreateAsset (Stub.new w ts fmt) assetID name owner value) =
        some ErrKind.InvalidInput ↔
      (assetID = [] ∨ name = [] ∨ owner = [] ∨ ∀ v : Int, Atoi value ≠ Except.ok v)) ∧
    ((assetID ≠ [] ∧ name ≠ [] ∧ owner ≠ [] ∧ ∃ v : Int, Atoi value = Except.ok v) →
      (failureKind (CreateAsset (Stub.new w ts fmt) assetID name owner value) =
          some ErrKind.AlreadyExists ↔
        AssetExists (Stub.new w ts fmt) assetID = Except.ok true)) := by
  rw [CreateAsset_eq, AssetExists_eq]
  by_cases h1 : assetID = [] ∨ name = [] ∨ owner = [] ∨ value = []
  · have hinv : assetID = [] ∨ name = [] ∨ owner = [] ∨ ∀ v : Int, Atoi value ≠ Except.ok v := by
      rcases h1 with h | h | h | h
      · exact Or.inl h
      · exact Or.inr (Or.inl h)
      · exact Or.inr (Or.inr (Or.inl h))
      · refine Or.inr (Or.inr (Or.inr ?_))
        intro v hv
        rw [h, Atoi_empty] at hv
        exact Except.noConfusion hv
    refine ⟨by simp [h1, failureKind, hinv], ?_⟩
    rintro ⟨ha, hb, hc, v, hv⟩
    rcases hinv with h | h | h | h
    · exact absurd h ha
    · exact absurd h hb
    · exact absurd h hc
    · exact absurd hv (h v)
  · have h1' := h1
    simp only [not_or] at h1'
    obtain ⟨ha, hb, hc, _⟩ := h1'
    cases hv : Atoi value with
    | error e =>
      refine ⟨by simp [h1, failureKind], ?_⟩
      rintro ⟨_, _, _, v, hv'⟩
      exact Except.noConfusion hv'
    | ok valueInt =>
      have hno : ¬ (assetID = [] ∨ name = [] ∨ owner = [] ∨
          ∀ v : Int, Except.ok valueInt ≠ (Except.ok v : Except Error Int)) := by
        rintro (h | h | h | h)
        · exact ha h
        · exact hb h
        · exact hc h
        · exact h valueInt rfl
      cases hg : w.get assetID with
      | some bytes =>
        simp only [h1, if_false, Stub.new, hg, failureKind, hno, Option.isSome_some]
        simp
      | none =>
        cases hk : CreateCompositeKey (utf8 "owner~assetID") [owner, assetID] with
        | ok key =>
          simp only [h1, if_false, Stub.new, hg, hk, failureKind, hno, Option.isSome_none]
          simp
        | error e =>
          obtain ⟨hkind, _⟩ := CreateCompositeKey_owner_error _ _ _ hk
          simp only [h1, if_false, Stub.new, hg, hk, failureKind, hno, Option.isSome_none,
            Error.wrap, hkind]
          simp

/-- Worked instance of C12: an invalid input is reported as InvalidInput even when
the id is present, a valid one as AlreadyExists. -/
theorem CreateAsset_failure_kinds_witness :
    failureKind
      (CreateAsset (Stub.new createdLedger epoch epochFormat) (utf8 "A1") (utf8 "Other")
        (utf8 "bob") (utf8 "x5")) = some ErrKind.InvalidInput ∧
    failureKind
      (CreateAsset (Stub.new createdLedger epoch epochFormat) (utf8 "A1") [] (utf8 "bob")
        (utf8 "5")) = some ErrKind.InvalidInput ∧
    failureKind
      (CreateAsset (Stub.new createdLedger epoch epochFormat) (utf8 "A1") (utf8 "Other")
        (utf8 "bob") (utf8 "5")) = some ErrKind.AlreadyExists :=
  ⟨(CreateAsset_failure_kinds createdLedger epoch epochFormat (utf8 "A1") (utf8 "Other")
      (utf8 "bob") (utf8 "x5")).1.2
      (Or.inr (Or.inr (Or.inr (fun v => by
        have h : Atoi (utf8 "x5") = Except.error ⟨ErrKind.InvalidInput, utf8 "invalid syntax"⟩ := by
          decide
        rw [h]
        exact fun hc => Except.noConfusion hc)))),
   (CreateAsset_failure_kinds createdLedger epoch epochFormat (utf8 "A1") [] (utf8 "bob")
      (utf8 "5")).1.2 (Or.inr (Or.inl rfl)),
   ((CreateAsset_failure_kinds createdLedger epoch epochFormat (utf8 "A1") (utf8 "Other")
      (utf8 "bob") (utf8 "5")).2
      ⟨by decide, by decide, by decide, 5, by decide⟩).2 (by decide)⟩

/-- C13 as stated fails: creating `A1` again on the ledger that holds `A1` returns
an error, yet the primary record and the index entry are present afterwards,
because they were present before; the ledger is unchanged. -/
theorem CreateAsset_error_record_present :
    failureKind
      (CreateAsset (Stub.new createdLedger epoch epochFormat) (utf8 "A1") (utf8 "Widget")
        (utf8 "alice") (utf8 "100")) = some ErrKind.AlreadyExists ∧
    ReadAsset
        (Stub.new
          (commit createdLedger
            (CreateAsset (Stub.new createdLedger epoch epochFormat) (utf8 "A1") (utf8 "Widget")
              (utf8 "alice") (utf8 "100")))
          epoch epochFormat) (utf8 "A1") =
      Except.ok
        { AssetID := utf8 "A1", Name := utf8 "Widget", Owner := utf8 "alice", Value := 100 } ∧
    (commit createdLedger
        (CreateAsset (Stub.new createdLedger epoch epochFormat) (utf8 "A1") (utf8 "Widget")
          (utf8 "alice") (utf8 "100"))).get
      (ownerKey (utf8 "alice") (utf8 "A1")) = some Bytes.zero := by
  decide

/-- C13, amended: CreateAsset is all-or-nothing.  When it returns an error the
ledger afterwards equals the ledger before the call, so no write of the call
takes effect; when it succeeds its write set is the primary record followed by
the index entry, and both are present afterwards.  In every case the ledger is
either unchanged or holds both. -/
theorem CreateAsset_all_or_nothing (w : World Bytes) (ts : Timestamp)
    (fmt : Timestamp → String) (assetID name owner value : GoString) :
    (∀ err : Error, CreateAsset (Stub.new w ts fmt) assetID name owner value = Except.error err →
      commit w (CreateAsset (Stub.new w ts fmt) assetID name owner value) = w) ∧
    (∀ stub : Stub Bytes,
      CreateAsset (Stub.new w ts fmt) assetID name owner value = Except.ok stub →
      ∃ v : Int, Atoi value = Except.ok v ∧
        stub.writes =
          [Write.put assetID (Bytes.json
            { assetID := decodeLossy assetID, name := decodeLossy name,
              owner := decodeLossy owner, value := v }),
           Write.put (ownerKey owner assetID) Bytes.zero] ∧
        (commit w (CreateAsset (Stub.new w ts fmt) assetID name owner value)).get assetID =
          some (Bytes.json
            { assetID := decodeLossy assetID, name := decodeLossy name,
              owner := decodeLossy owner, value := v }) ∧
        (commit w (CreateAsset (Stub.new w ts fmt) assetID name owner value)).get
          (ownerKey owner assetID) = some Bytes.zero) ∧
    (commit w (CreateAsset (Stub.new w ts fmt) assetID name owner value) = w ∨
      ((commit w (CreateAsset (Stub.new w ts fmt) assetID name owner value)).get assetID ≠ none ∧
       (commit w (CreateAsset (Stub.new w ts fmt) assetID name owner value)).get
          (ownerKey owner assetID) ≠ none)) := by
  have hok : ∀ stub : Stub Bytes,
      CreateAsset (Stub.new w ts fmt) assetID name owner value = Except.ok stub →
      ∃ v : Int, Atoi value = Except.ok v ∧
        stub.writes =
          [Write.put assetID (Bytes.json
            { assetID := decodeLossy assetID, name := decodeLossy name,
              owner := decodeLossy owner, value := v }),
           Write.put (ownerKey owner assetID) Bytes.zero] ∧
        (commit w (CreateAsset (Stub.new w ts fmt) assetID name owner value)).get assetID =
          some (Bytes.json
            { assetID := decodeLossy assetID, name := decodeLossy name,
              owner := decodeLossy owner, value := v }) ∧
        (commit w (CreateAsset (Stub.new w ts fmt) assetID name owner value)).get
          (ownerKey owner assetID) = some Bytes.zero := by
    intro stub hrun
    obtain ⟨v, _, _, _, hv, _, _, hi, hw⟩ := CreateAsset_ok _ _ _ _ _ _ hrun
    simp only [Stub.new, List.nil_append] at hw
    refine ⟨v, hv, hw, ?_, ?_⟩
    · rw [hrun]
      simp only [commit, hw, applyWrites, List.foldl_cons, List.foldl_nil, applyWrite]
      rw [World.get_put_of_ne _ _ _ _ (ne_ownerKey_of_validAttribute _ _ _ hi)]
      exact World.get_put_self _ _ _
    · rw [hrun]
      simp only [commit, hw, applyWrites, List.foldl_cons, List.foldl_nil, applyWrite]
      exact World.get_put_self _ _ _
  refine ⟨?_, hok, ?_⟩
  · intro err hrun
    rw [hrun]
    rfl
  · cases hrun : CreateAsset (Stub.new w ts fmt) assetID name owner value with
    | error err => exact Or.inl rfl
    | ok stub =>
      obtain ⟨v, _, _, h1, h2⟩ := hok stub hrun
      rw [hrun] at h1 h2
      exact Or.inr ⟨by rw [h1]; simp, by rw [h2]; simp⟩

/-- Worked instance of C13: a creation refused for its owner returns a store
error and leaves the empty ledger empty, and a successful one stores record and
index entry. -/
theorem CreateAsset_all_or_nothing_witness :
    failureKind
      (CreateAsset (Stub.new [] epoch epochFormat) (utf8 "A1") (utf8 "Widget") nulOwner
        (utf8 "100")) = some ErrKind.StoreError ∧
    commit []
      (CreateAsset (Stub.new [] epoch epochFormat) (utf8 "A1") (utf8 "Widget") nulOwner
        (utf8 "100")) = [] ∧
    (∀ err : Error,
      CreateAsset (Stub.new [] epoch epochFormat) (utf8 "A1") (utf8 "Widget") nulOwner
        (utf8 "100") = Except.error err →
      commit []
        (CreateAsset (Stub.new [] epoch epochFormat) (utf8 "A1") (utf8 "Widget") nulOwner
          (utf8 "100")) = []) ∧
    (commit []
        (CreateAsset (Stub.new [] epoch epochFormat) (utf8 "A1") (utf8 "Widget") (utf8 "alice")
          (utf8 "100")) = [] ∨
      ((commit []
          (CreateAsset (Stub.new [] epoch epochFormat) (utf8 "A1") (utf8 "Widget")
            (utf8 "alice") (utf8 "100"))).get (utf8 "A1") ≠ none ∧
       (commit []
          (CreateAsset (Stub.new [] epoch epochFormat) (utf8 "A1") (utf8 "Widget")
            (utf8 "alice") (utf8 "100"))).get (ownerKey (utf8 "alice") (utf8 "A1")) ≠ none)) :=
  ⟨by decide, by decide,
   (CreateAsset_all_or_nothing [] epoch epochFormat (utf8 "A1") (utf8 "Widget") nulOwner
      (utf8 "100")).1,
   (CreateAsset_all_or_nothing [] epoch epochFormat (utf8 "A1") (utf8 "Widget") (utf8 "alice")
      (utf8 "100")).2.2⟩

/-- C14 as stated fails: on the ledger that holds `A1`, UpdateAsset with the name
`"W\xffd"`, which is not valid UTF-8, succeeds, and ReadAsset then returns the
name with the byte `\xff` replaced by U+FFFD, not the name that was given. -/
theorem UpdateAsset_coerces_invalid_name :
    invalidName ≠ [] ∧ utf8Valid invalidName = false ∧
    AssetExists (Stub.new createdLedger epoch epochFormat) (utf8 "A1") = Except.ok true ∧
    Atoi (utf8 "100") = Except.ok 100 ∧
    failureKind
      (UpdateAsset (Stub.new createdLedger epoch epochFormat) (utf8 "A1") invalidName
        (utf8 "bob") (utf8 "100")) = none ∧
    ReadAsset
        (Stub.new
          (commit createdLedger
            (UpdateAsset (Stub.new createdLedger epoch epochFormat) (utf8 "A1") invalidName
              (utf8 "bob") (utf8 "100")))
          epoch epochFormat) (utf8 "A1") =
      Except.ok
        { AssetID := utf8 "A1", Name := [0x57, 0xEF, 0xBF, 0xBD, 0x64], Owner := utf8 "bob",
          Value := 100 } ∧
    ([0x57, 0xEF, 0xBF, 0xBD, 0x64] : GoString) ≠ invalidName := by
  decide

/-- C14, amended: UpdateAsset fails with NotFound when the id is absent, whatever
the value; with InvalidInput when the id is present and the value does not
parse; and otherwise, for a non-empty id, it succeeds, ReadAsset then returns
the record `{id, name, owner, parsed value}` as `json.Marshal` stores it, every
byte of the three strings outside a valid UTF-8 encoding replaced by U+FFFD,
which is exactly `{id, name, owner, parsed value}` when id, name and owner are
valid UTF-8; every other key keeps its value, and the keys present, index
entries included, are the same as before: no entry is added for the new owner
and none is removed. -/
theorem UpdateAsset_contract (w : World Bytes) (ts : Timestamp)
    (fmt : Timestamp → String) (assetID name owner value : GoString) :
    (AssetExists (Stub.new w ts fmt) assetID = Except.ok false →
      failureKind (UpdateAsset (Stub.new w ts fmt) assetID name owner value) =
        some ErrKind.NotFound ∧
      commit w (UpdateAsset (Stub.new w ts fmt) assetID name owner value) = w) ∧
    (AssetExists (Stub.new w ts fmt) assetID = Except.ok true →
      (∀ v : Int, Atoi value ≠ Except.ok v) →
      failureKind (UpdateAsset (Stub.new w ts fmt) assetID name owner value) =
        some ErrKind.InvalidInput ∧
      commit w (UpdateAsset (Stub.new w ts fmt) assetID name owner value) = w) ∧
    (∀ v : Int, assetID ≠ [] →
      AssetExists (Stub.new w ts fmt) assetID = Except.ok true →
      Atoi value = Except.ok v →
      failureKind (UpdateAsset (Stub.new w ts fmt) assetID name owner value) = none ∧
      (∀ (ts' : Timestamp) (fmt' : Timestamp → String),
        ReadAsset
            (Stub.new (commit w (UpdateAsset (Stub.new w ts fmt) assetID name owner value))
              ts' fmt') assetID =
          Except.ok
            { AssetID := utf8 (decodeLossy assetID), Name := utf8 (decodeLossy name),
              Owner := utf8 (decodeLossy owner), Value := v }) ∧
      (utf8Valid assetID = true → utf8Valid name = true → utf8Valid owner = true →
        ∀ (ts' : Timestamp) (fmt' : Timestamp → String),
          ReadAsset
              (Stub.new (commit w (UpdateAsset (Stub.new w ts fmt) assetID name owner value))
                ts' fmt') assetID =
            Except.ok { AssetID := assetID, Name := name, Owner := owner, Value := v }) ∧
      (∀ key : GoString, key ≠ assetID →
        (commit w (UpdateAsset (Stub.new w ts fmt) assetID name owner value)).get key =
          w.get key) ∧
      (∀ key : GoString,
        ((commit w (UpdateAsset (Stub.new w ts fmt) assetID name owner value)).get key).isSome =
          (w.get key).isSome) ∧
      (∀ o i : GoString,
        ((commit w (UpdateAsset (Stub.new w ts fmt) assetID name owner value)).get
            (ownerKey o i)).isSome = (w.get (ownerKey o i)).isSome)) := by
  have hex : ∀ b : Bool, AssetExists (Stub.new w ts fmt) assetID = Except.ok b →
      (w.get assetID).isSome = b := by
    intro b h
    rw [AssetExists_eq] at h
    simpa [Stub.new] using h
  refine ⟨?_, ?_, ?_⟩
  · intro habs
    have hg : w.get assetID = none := by
      have := hex false habs
      cases hq : w.get assetID with
      | none => rfl
      | some bytes => simp [hq] at this
    rw [UpdateAsset_eq]
    simp [Stub.new, hg, failureKind, commit]
  · intro hpres hval
    have hsome := hex true hpres
    cases hg : w.get assetID with
    | none => simp [hg] at hsome
    | some bytes =>
      cases hv : Atoi value with
      | ok v => exact absurd hv (hval v)
      | error e =>
        rw [UpdateAsset_eq]
        simp [Stub.new, hg, hv, failureKind, commit]
  · intro v hid hpres hv
    have hsome := hex true hpres
    cases hg : w.get assetID with
    | none => simp [hg] at hsome
    | some bytes =>
      have hrun : UpdateAsset (Stub.new w ts fmt) assetID name owner value =
          Except.ok { Stub.new w ts fmt with
            writes := [Write.put assetID (Bytes.json
              { assetID := decodeLossy assetID, name := decodeLossy name,
                owner := decodeLossy owner, value := v })]
            event := some (utf8 "AssetUpdated", EventPayload.value (Bytes.json
              { assetID := decodeLossy assetID, name := decodeLossy name,
                owner := decodeLossy owner, value := v })) } := by
        rw [UpdateAsset_eq]
        simp [Stub.new, hg, hv, hid]
      have hcommit : commit w (UpdateAsset (Stub.new w ts fmt) assetID name owner value) =
          w.put assetID (Bytes.json
            { assetID := decodeLossy assetID, name := decodeLossy name,
              owner := decodeLossy owner, value := v }) := by
        rw [hrun]
        rfl
      have hkeys : ∀ key : GoString,
          ((w.put assetID (Bytes.json
            { assetID := decodeLossy assetID, name := decodeLossy name,
              owner := decodeLossy owner, value := v })).get key).isSome =
          (w.get key).isSome := by
        intro key
        by_cases hk : key = assetID
        · rw [hk, World.get_put_self, hg]
          rfl
        · rw [World.get_put_of_ne _ _ _ _ hk]
      have hread : ∀ (ts' : Timestamp) (fmt' : Timestamp → String),
          ReadAsset
              (Stub.new (w.put assetID (Bytes.json
                { assetID := decodeLossy assetID, name := decodeLossy name,
                  owner := decodeLossy owner, value := v })) ts' fmt') assetID =
            Except.ok
              { AssetID := utf8 (decodeLossy assetID), Name := utf8 (decodeLossy name),
                Owner := utf8 (decodeLossy owner), Value := v } := by
        intro ts' fmt'
        exact ReadAsset_of_get (Stub.new _ ts' fmt') assetID _ (World.get_put_self _ _ _)
      rw [hcommit]
      refine ⟨by rw [hrun]; rfl, hread, ?_, ?_, hkeys, fun o i => hkeys _⟩
      · intro h1 h2 h3 ts' fmt'
        rw [hread ts' fmt', utf8_decodeLossy _ h1, utf8_decodeLossy _ h2, utf8_decodeLossy _ h3]
      · intro key hk
        exact World.get_put_of_ne _ _ _ _ hk

/-- Worked instance of C14: `Update("A1","Widget","bob","100")` on the ledger that
holds `A1` of `alice` rewrites the record with owner `bob`; the index entry
`(alice, A1)` stays and no entry `(bob, A1)` appears. -/
theorem UpdateAsset_contract_witness :
    ReadAsset
        (Stub.new
          (commit createdLedger
            (UpdateAsset (Stub.new createdLedger epoch epochFormat) (utf8 "A1") (utf8 "Widget")
              (utf8 "bob") (utf8 "100")))
          epoch epochFormat) (utf8 "A1") =
      Except.ok
        { AssetID := utf8 "A1", Name := utf8 "Widget", Owner := utf8 "bob", Value := 100 } ∧
    ((commit createdLedger
        (UpdateAsset (Stub.new createdLedger epoch epochFormat) (utf8 "A1") (utf8 "Widget")
          (utf8 "bob") (utf8 "100"))).get
      (ownerKey (utf8 "alice") (utf8 "A1"))).isSome = true ∧
    ((commit createdLedger
        (UpdateAsset (Stub.new createdLedger epoch epochFormat) (utf8 "A1") (utf8 "Widget")
          (utf8 "bob") (utf8 "100"))).get
      (ownerKey (utf8 "bob") (utf8 "A1"))).isSome = false := by
  have h := (UpdateAsset_contract createdLedger epoch epochFormat (utf8 "A1") (utf8 "Widget")
    (utf8 "bob") (utf8 "100")).2.2 100 (by decide) (by decide) (by decide)
  refine ⟨h.2.2.1 (by decide) (by decide) (by decide) epoch epochFormat, ?_, ?_⟩
  · rw [h.2.2.2.2.2 (utf8 "alice") (utf8 "A1")]
    decide
  · rw [h.2.2.2.2.2 (utf8 "bob") (utf8 "A1")]
    decide

end AssetCC

/-! ## Listing, history and frame properties of the supply-chain contract -/

namespace SupplyChain

open Fabric

theorem decodeProducts_total (l : World Bytes) :
    ∃ products : List Product, decodeProducts l = Except.ok products := by
  induction l with
  | nil => exact ⟨[], rfl⟩
  | cons e rest ih =>
    obtain ⟨key, bytes⟩ := e
    obtain ⟨products, hrest⟩ := ih
    cases bytes with
    | json doc =>
      exact ⟨doc.toStruct :: products, by simp [decodeProducts, jsonUnmarshal, hrest]⟩

theorem GetAllProducts_total (stub : Stub Bytes) :
    ∃ products : List Product, GetAllProducts stub = Except.ok products := by
  have hscan : GetStateByRange stub [] [] =
      Except.ok (stub.world.range emptyKeySubstitute []) := by
    have h1 : validateSimpleKeys [emptyKeySubstitute, []] = Except.ok () := by decide
    simp only [GetStateByRange, if_true, h1]
  obtain ⟨products, hdecode⟩ := decodeProducts_total (stub.world.range emptyKeySubstitute [])
  exact ⟨products, by simp only [GetAllProducts, hscan, hdecode]⟩

/-- C15: GetProductsByStatus fails with InvalidInput on a status that is not one
of the four valid statuses; on a valid status it returns the list of
GetAllProducts filtered by `CurrentStatus = status`, in the order of that
list. -/
theorem GetProductsByStatus_filters (stub : Stub Bytes) (status : GoString) :
    (validStatuses status = false →
      failureKind (GetProductsByStatus stub status) = some ErrKind.InvalidInput) ∧
    (validStatuses status = true →
      ∃ allProducts : List Product,
        GetAllProducts stub = Except.ok allProducts ∧
        GetProductsByStatus stub status =
          Except.ok (allProducts.filter
            (fun product => decide (product.CurrentStatus = status)))) := by
  refine ⟨?_, ?_⟩
  · intro h
    simp [GetProductsByStatus, h, failureKind]
  · intro h
    obtain ⟨allProducts, hall⟩ := GetAllProducts_total stub
    exact ⟨allProducts, hall, by simp [GetProductsByStatus, h, hall]⟩

/-- Worked instance of C15 on the shipped ledger: the list of shipped products is
that of all products, the list of delivered products is empty, and an unknown
status is refused. -/
theorem GetProductsByStatus_filters_witness :
    GetProductsByStatus (Stub.new shippedLedger epoch epochFormat) (utf8 "Shipped") =
      Except.ok [shippedProduct] ∧
    GetProductsByStatus (Stub.new shippedLedger epoch epochFormat) (utf8 "Delivered") =
      Except.ok [] ∧
    failureKind (GetProductsByStatus (Stub.new shippedLedger epoch epochFormat) (utf8 "Lost")) =
      some ErrKind.InvalidInput := by
  have hall : GetAllProducts (Stub.new shippedLedger epoch epochFormat) =
      Except.ok [shippedProduct] := by decide
  obtain ⟨all1, h1, h2⟩ :=
    (GetProductsByStatus_filters (Stub.new shippedLedger epoch epochFormat) (utf8 "Shipped")).2
      (by decide)
  obtain ⟨all2, h3, h4⟩ :=
    (GetProductsByStatus_filters (Stub.new shippedLedger epoch epochFormat) (utf8 "Delivered")).2
      (by decide)
  rw [hall] at h1 h3
  cases h1
  cases h3
  exact ⟨by rw [h2]; decide, by rw [h4]; decide,
    (GetProductsByStatus_filters (Stub.new shippedLedger epoch epochFormat) (utf8 "Lost")).1
      (by decide)⟩

/-- A read operation leaves the world state as it was: the stub it leaves behind
has no write. -/
theorem commit_read (w : World Bytes) (ts : Timestamp) (fmt : Timestamp → String)
    (op : Operation) (hread : op.isRead = true) :
    commit w (transact (Stub.new w ts fmt) op) = w := by
  cases op with
  | RegisterProduct pid => exact Bool.noConfusion hread
  | UpdateStatus pid newStatus => exact Bool.noConfusion hread
  | GetProduct pid => simp only [transact]; split <;> rfl
  | GetProductHistory pid => simp only [transact]; split <;> rfl
  | GetAllProducts => simp only [transact]; split <;> rfl
  | GetProductsByStatus status => simp only [transact]; split <;> rfl

theorem commit_RegisterProduct (w : World Bytes) (ts : Timestamp)
    (fmt : Timestamp → String) (productID : GoString) :
    commit w (RegisterProduct (Stub.new w ts fmt) productID) = w ∨
    (w.get productID = none ∧
      commit w (RegisterProduct (Stub.new w ts fmt) productID) =
        w.put productID (Bytes.json
          { productID := decodeLossy productID
            currentStatus := "Manufactured"
            statusHistory := [{ status := "Manufactured", timestamp := fmt ts }] })) := by
  rw [RegisterProduct_eq]
  by_cases h1 : productID = []
  · exact Or.inl (by simp [h1, commit])
  · cases hg : w.get productID with
    | some bytes => exact Or.inl (by simp [h1, hg, Stub.new, commit])
    | none =>
      refine Or.inr ⟨rfl, ?_⟩
      simp [h1, hg, Stub.new, commit, applyWrites, applyWrite]

theorem commit_UpdateStatus (w : World Bytes) (ts : Timestamp)
    (fmt : Timestamp → String) (productID newStatus : GoString) :
    (failureKind (UpdateStatus (Stub.new w ts fmt) productID newStatus) ≠ none ∧
      commit w (UpdateStatus (Stub.new w ts fmt) productID newStatus) = w) ∨
    (∃ doc : ProductJSON,
      w.get productID = some (Bytes.json doc) ∧
      isValidTransition (utf8 doc.currentStatus) newStatus = true ∧
      failureKind (UpdateStatus (Stub.new w ts fmt) productID newStatus) = none ∧
      commit w (UpdateStatus (Stub.new w ts fmt) productID newStatus) =
        w.put productID (Bytes.json
          { doc with
            currentStatus := decodeLossy newStatus
            statusHistory :=
              doc.statusHistory ++
                [{ status := decodeLossy newStatus, timestamp := fmt ts }] })) := by
  rw [UpdateStatus_eq]
  by_cases h1 : productID = []
  · exact Or.inl (by simp [h1, commit, failureKind])
  · by_cases h2 : validStatuses newStatus = false
    · exact Or.inl (by simp [h1, h2, commit, failureKind])
    · cases hg : w.get productID with
      | none => exact Or.inl (by simp [h1, h2, hg, Stub.new, commit, failureKind])
      | some bytes =>
        cases bytes with
        | json p =>
          by_cases h3 : utf8 p.currentStatus = newStatus
          · exact Or.inl (by simp [h1, h2, hg, h3, Stub.new, commit, failureKind])
          · by_cases h4 : isValidTransition (utf8 p.currentStatus) newStatus = false
            · exact Or.inl (by simp [h1, h2, hg, h3, h4, Stub.new, commit, failureKind])
            · refine Or.inr ⟨p, rfl, by simpa using h4, ?_, ?_⟩
              · simp [h1, h2, hg, h3, h4, Stub.new, failureKind]
              · simp [h1, h2, hg, h3, h4, Stub.new, commit, applyWrites, applyWrite]

/-- C16: the history is append-only and records are never removed.  For every
ledger state, every operation of the state-machine store with any arguments, and
every product present before the call, the product is present after the call
and its history before the call is a prefix of its history after the call. -/
theorem history_append_only (w : World Bytes) (ts : Timestamp) (fmt : Timestamp → String)
    (op : Operation) (productID : GoString) (doc : ProductJSON)
    (hpresent : w.get productID = some (Bytes.json doc)) :
    ∃ doc' : ProductJSON,
      (commit w (transact (Stub.new w ts fmt) op)).get productID =
        some (Bytes.json doc') ∧
      doc.statusHistory <+: doc'.statusHistory := by
  cases op with
  | RegisterProduct pid =>
    simp only [transact]
    rcases commit_RegisterProduct w ts fmt pid with h | ⟨habsent, h⟩
    · exact ⟨doc, by rw [h]; exact hpresent, List.prefix_refl _⟩
    · have hne : productID ≠ pid := by
        intro heq
        rw [heq, habsent] at hpresent
        exact Option.noConfusion hpresent
      exact ⟨doc, by rw [h, World.get_put_of_ne _ _ _ _ hne]; exact hpresent,
        List.prefix_refl _⟩
  | UpdateStatus pid newStatus =>
    simp only [transact]
    rcases commit_UpdateStatus w ts fmt pid newStatus with ⟨_, h⟩ | ⟨p, hg, _, _, h⟩
    · exact ⟨doc, by rw [h]; exact hpresent, List.prefix_refl _⟩
    · by_cases hne : productID = pid
      · rw [hne, hg] at hpresent
        simp only [Option.some.injEq, Bytes.json.injEq] at hpresent
        rw [h, hne, World.get_put_self, ← hpresent]
        exact ⟨_, rfl, List.prefix_append _ _⟩
      · exact ⟨doc, by rw [h, World.get_put_of_ne _ _ _ _ hne]; exact hpresent,
          List.prefix_refl _⟩
  | GetProduct pid =>
    exact ⟨doc, by rw [commit_read w ts fmt (Operation.GetProduct pid) rfl]; exact hpresent,
      List.prefix_refl _⟩
  | GetProductHistory pid =>
    exact ⟨doc,
      by rw [commit_read w ts fmt (Operation.GetProductHistory pid) rfl]; exact hpresent,
      List.prefix_refl _⟩
  | GetAllProducts =>
    exact ⟨doc, by rw [commit_read w ts fmt (Operation.GetAllProducts) rfl]; exact hpresent,
      List.prefix_refl _⟩
  | GetProductsByStatus status =>
    exact ⟨doc,
      by rw [commit_read w ts fmt (Operation.GetProductsByStatus status) rfl]; exact hpresent,
      List.prefix_refl _⟩

/-- Witness of C16: a transition of `P1` on the shipped ledger keeps the two
entries of its history as a prefix of the new history. -/
theorem history_append_only_witness :
    shippedLedger.get (utf8 "P1") = some (Bytes.json shippedRecord) ∧
    ∃ doc' : ProductJSON,
      (commit shippedLedger
        (transact (Stub.new shippedLedger epoch epochFormat)
          (Operation.UpdateStatus (utf8 "P1") (utf8 "In-Transit")))).get (utf8 "P1") =
        some (Bytes.json doc') ∧
      shippedRecord.statusHistory <+: doc'.statusHistory :=
  ⟨by decide,
   history_append_only shippedLedger epoch epochFormat
     (Operation.UpdateStatus (utf8 "P1") (utf8 "In-Transit")) (utf8 "P1") shippedRecord
     (by decide)⟩

theorem ChainInvariant_register (productID timestamp : String) :
    ChainInvariant
      { productID := productID
        currentStatus := "Manufactured"
        statusHistory := [{ status := "Manufactured", timestamp := timestamp }] } :=
  ⟨Or.inl rfl, rfl⟩

/-- The text of the two statuses of a transition the code accepts. -/
theorem isValidTransition_text (a : String) (b : GoString)
    (h : isValidTransition (utf8 a) b = true) :
    (a = "Manufactured" ∧ decodeLossy b = "Shipped") ∨
    (a = "Shipped" ∧ decodeLossy b = "In-Transit") ∨
    (a = "In-Transit" ∧ decodeLossy b = "Delivered") := by
  rcases isValidTransition_cases _ _ h with ⟨h1, h2⟩ | ⟨h1, h2⟩ | ⟨h1, h2⟩
  · exact Or.inl ⟨utf8_inj _ _ h1, by rw [h2, decodeLossy_utf8]⟩
  · exact Or.inr (Or.inl ⟨utf8_inj _ _ h1, by rw [h2, decodeLossy_utf8]⟩)
  · exact Or.inr (Or.inr ⟨utf8_inj _ _ h1, by rw [h2, decodeLossy_utf8]⟩)

theorem ChainInvariant_append (doc : ProductJSON) (newStatus : GoString) (timestamp : String)
    (hinv : ChainInvariant doc)
    (hedge : isValidTransition (utf8 doc.currentStatus) newStatus = true) :
    ChainInvariant
      { doc with
        currentStatus := decodeLossy newStatus
        statusHistory :=
          doc.statusHistory ++ [{ status := decodeLossy newStatus, timestamp := timestamp }] } := by
  obtain ⟨hcases, hlast⟩ := hinv
  have hnew : ProductJSON.statuses
      { doc with
        currentStatus := decodeLossy newStatus
        statusHistory :=
          doc.statusHistory ++ [{ status := decodeLossy newStatus, timestamp := timestamp }] } =
      doc.statuses ++ [decodeLossy newStatus] := by
    simp [ProductJSON.statuses]
  refine ⟨?_, by rw [hnew]; simp⟩
  rw [hnew]
  have hedge' := isValidTransition_text _ _ hedge
  rcases hcases with h | h | h | h <;> rw [h] at hlast ⊢ <;>
    simp only [List.getLast?, List.getLast, Option.some.injEq] at hlast <;>
    rw [← hlast] at hedge' <;>
    rcases hedge' with ⟨h1, h2⟩ | ⟨h1, h2⟩ | ⟨h1, h2⟩ <;>
    first
      | exact absurd h1 (by decide)
      | (rw [h2]; simp)

theorem WorldChainInvariant_step (fmt : Timestamp → String) (w : World Bytes)
    (tx : Timestamp × Call) (hw : WorldChainInvariant w) :
    WorldChainInvariant (step fmt w tx) := by
  obtain ⟨ts, call⟩ := tx
  cases call with
  | RegisterProduct productID =>
    simp only [step, invoke]
    rcases commit_RegisterProduct w ts fmt productID with h | ⟨_, h⟩
    · rw [h]
      exact hw
    · rw [h]
      intro key doc hmem
      rcases World.mem_put _ _ _ _ hmem with h1 | h1
      · simp only [Prod.mk.injEq, Bytes.json.injEq] at h1
        rw [h1.2]
        exact ChainInvariant_register _ _
      · exact hw key doc h1
  | UpdateStatus productID newStatus =>
    simp only [step, invoke]
    rcases commit_UpdateStatus w ts fmt productID newStatus with ⟨_, h⟩ | ⟨p, hg, hedge, _, h⟩
    · rw [h]
      exact hw
    · rw [h]
      intro key doc hmem
      rcases World.mem_put _ _ _ _ hmem with h1 | h1
      · simp only [Prod.mk.injEq, Bytes.json.injEq] at h1
        rw [h1.2]
        exact ChainInvariant_append p newStatus _ (hw productID p (World.mem_of_get _ _ _ hg))
          hedge
      · exact hw key doc h1

theorem WorldChainInvariant_run (fmt : Timestamp → String) (txs : List (Timestamp × Call))
    (w : World Bytes) (hw : WorldChainInvariant w) : WorldChainInvariant (run fmt w txs) := by
  induction txs generalizing w with
  | nil => simpa [run] using hw
  | cons tx rest ih =>
    simp only [run, List.foldl_cons]
    exact ih _ (WorldChainInvariant_step fmt w tx hw)

theorem ChainInvariant_facts (doc : ProductJSON) (h : ChainInvariant doc) :
    doc.statuses ≠ [] ∧ doc.statuses <+: statusChain ∧
    doc.statusHistory.length ≤ 4 ∧ doc.statuses.Nodup ∧
    doc.statuses.getLast? = some doc.currentStatus := by
  obtain ⟨hcases, hlast⟩ := h
  have hlen : doc.statusHistory.length = doc.statuses.length := by
    simp [ProductJSON.statuses]
  rw [hlen]
  refine ⟨?_, ?_, ?_, ?_, hlast⟩
  · rcases hcases with h | h | h | h <;> rw [h] <;> simp
  · rcases hcases with h | h | h | h <;> rw [h] <;> decide
  · rcases hcases with h | h | h | h <;> rw [h] <;> simp
  · rcases hcases with h | h | h | h <;> rw [h] <;> decide

theorem historyLength_le (w : World Bytes) (productID : GoString) (hw : WorldChainInvariant w) :
    historyLength w productID ≤ 4 := by
  unfold historyLength
  cases hg : w.get productID with
  | none => simp
  | some bytes =>
    cases bytes with
    | json p =>
      exact (ChainInvariant_facts p (hw productID p (World.mem_of_get _ _ _ hg))).2.2.1

theorem historyLength_step (fmt : Timestamp → String) (w : World Bytes)
    (tx : Timestamp × Call) (productID : GoString) :
    historyLength (step fmt w tx) productID =
      historyLength w productID +
        (if isTransitionOf (Stub.new w tx.1 fmt) productID tx.2 then 1 else 0) := by
  obtain ⟨ts, call⟩ := tx
  cases call with
  | RegisterProduct pid =>
    simp only [step, invoke, isTransitionOf, Bool.false_eq_true, if_false, Nat.add_zero]
    rcases commit_RegisterProduct w ts fmt pid with h | ⟨habsent, h⟩
    · rw [h]
    · rw [h]
      unfold historyLength
      by_cases hne : productID = pid
      · rw [hne, World.get_put_self, habsent]
        rfl
      · rw [World.get_put_of_ne _ _ _ _ hne]
  | UpdateStatus pid newStatus =>
    simp only [step, invoke, isTransitionOf]
    rcases commit_UpdateStatus w ts fmt pid newStatus with ⟨hfail, h⟩ | ⟨p, hg, _, hok, h⟩
    · have hnone : (failureKind (UpdateStatus (Stub.new w ts fmt) pid newStatus)).isNone =
          false := by
        cases hk : failureKind (UpdateStatus (Stub.new w ts fmt) pid newStatus) with
        | none => exact absurd hk hfail
        | some k => rfl
      simp only [h, hnone, Bool.and_false, Bool.false_eq_true, if_false, Nat.add_zero]
    · simp only [h, hok, Option.isNone_none, Bool.and_true, decide_eq_true_eq]
      unfold historyLength
      by_cases hne : productID = pid
      · rw [hne, World.get_put_self, hg]
        simp
      · have hne' : ¬ pid = productID := fun hc => hne hc.symm
        rw [World.get_put_of_ne _ _ _ _ hne]
        simp [hne']

theorem transitionsOf_bound (fmt : Timestamp → String) (productID : GoString)
    (txs : List (Timestamp × Call)) (w : World Bytes) (hw : WorldChainInvariant w) :
    transitionsOf fmt productID w txs + historyLength w productID ≤ 4 := by
  induction txs generalizing w with
  | nil => simpa [transitionsOf] using historyLength_le w productID hw
  | cons tx rest ih =>
    have h := ih (step fmt w tx) (WorldChainInvariant_step fmt w tx hw)
    rw [historyLength_step] at h
    simp only [transitionsOf]
    omega

theorem UpdateStatus_delivered_fails (w : World Bytes) (ts : Timestamp)
    (fmt : Timestamp → String) (productID newStatus : GoString) (product : Product)
    (hget : GetProduct (Stub.new w ts fmt) productID = Except.ok product)
    (hdelivered : product.CurrentStatus = utf8 "Delivered") :
    failureKind (UpdateStatus (Stub.new w ts fmt) productID newStatus) ≠ none ∧
    commit w (UpdateStatus (Stub.new w ts fmt) productID newStatus) = w := by
  rcases commit_UpdateStatus w ts fmt productID newStatus with h | ⟨p, hg, hedge, _, _⟩
  · exact h
  · obtain ⟨_, doc, hg', hdoc⟩ := (GetProduct_eq_ok_iff _ _ _).1 hget
    simp only [Stub.new] at hg'
    rw [hg] at hg'
    simp only [Option.some.injEq, Bytes.json.injEq] at hg'
    rw [← hdoc, ← hg'] at hdelivered
    have hcur : utf8 p.currentStatus = utf8 "Delivered" := hdelivered
    rw [hcur] at hedge
    rcases isValidTransition_cases _ _ hedge with ⟨h1, _⟩ | ⟨h1, _⟩ | ⟨h1, _⟩ <;>
      exact absurd h1 (by decide)

/-- C19: after any sequence of RegisterProduct and UpdateStatus calls on the empty
ledger, the statuses of the history of every stored product are a non-empty
prefix of `Manufactured, Shipped, In-Transit, Delivered` ending in the current
status: at most four entries, no status twice; at most three transitions succeed
for one product; and on a product whose current status is Delivered every
UpdateStatus call fails and leaves the ledger unchanged. -/
theorem reachable_history_chain (fmt : Timestamp → String) (txs : List (Timestamp × Call)) :
    (∀ (key : GoString) (doc : ProductJSON), (key, Bytes.json doc) ∈ run fmt [] txs →
      doc.statuses ≠ [] ∧ doc.statuses <+: statusChain ∧
      doc.statusHistory.length ≤ 4 ∧ doc.statuses.Nodup ∧
      doc.statuses.getLast? = some doc.currentStatus) ∧
    (∀ productID : GoString, transitionsOf fmt productID [] txs ≤ 3) ∧
    (∀ (ts' : Timestamp) (fmt' : Timestamp → String) (productID newStatus : GoString)
        (product : Product),
      GetProduct (Stub.new (run fmt [] txs) ts' fmt') productID = Except.ok product →
      product.CurrentStatus = utf8 "Delivered" →
      failureKind (UpdateStatus (Stub.new (run fmt [] txs) ts' fmt') productID newStatus) ≠
        none ∧
      commit (run fmt [] txs)
        (UpdateStatus (Stub.new (run fmt [] txs) ts' fmt') productID newStatus) =
        run fmt [] txs) := by
  have hempty : WorldChainInvariant ([] : World Bytes) :=
    fun _ _ h => absurd h (List.not_mem_nil _)
  refine ⟨?_, ?_, ?_⟩
  · intro key doc hmem
    exact ChainInvariant_facts doc (WorldChainInvariant_run fmt txs [] hempty key doc hmem)
  · intro productID
    have h := transitionsOf_bound fmt productID txs [] hempty
    have h1 : historyLength ([] : World Bytes) productID = 1 := rfl
    omega
  · intro ts' fmt' productID newStatus product hget hdel
    exact UpdateStatus_delivered_fails _ ts' fmt' productID newStatus product hget hdel

/-- Worked instance of C19: of the five UpdateStatus calls of `deliveredCalls`
three succeed, and a further call on the delivered product fails. -/
theorem reachable_history_chain_witness :
    transitionsOf epochFormat (utf8 "P1") [] deliveredCalls = 3 ∧
    transitionsOf epochFormat (utf8 "P1") [] deliveredCalls ≤ 3 ∧
    failureKind
      (UpdateStatus (Stub.new (run epochFormat [] deliveredCalls) epoch epochFormat)
        (utf8 "P1") (utf8 "Shipped")) = some ErrKind.InvalidTransition :=
  ⟨by decide, (reachable_history_chain epochFormat deliveredCalls).2.1 (utf8 "P1"), by decide⟩

theorem writers_frame (w : World Bytes) (ts : Timestamp) (fmt : Timestamp → String)
    (productID other : GoString) (hne : productID ≠ other) :
    (commit w (RegisterProduct (Stub.new w ts fmt) productID)).get other = w.get other ∧
    ∀ newStatus : GoString,
      (commit w (UpdateStatus (Stub.new w ts fmt) productID newStatus)).get other =
        w.get other := by
  refine ⟨?_, ?_⟩
  · rcases commit_RegisterProduct w ts fmt productID with h | ⟨_, h⟩
    · rw [h]
    · rw [h, World.get_put_of_ne _ _ _ _ (Ne.symm hne)]
  · intro newStatus
    rcases commit_UpdateStatus w ts fmt productID newStatus with ⟨_, h⟩ | ⟨p, _, _, _, h⟩
    · rw [h]
    · rw [h, World.get_put_of_ne _ _ _ _ (Ne.symm hne)]

end SupplyChain

/-! ## Error kinds and messages -/

namespace SupplyChain

open Fabric

end SupplyChain

namespace AssetCC

open Fabric

end AssetCC

namespace Fabric

end Fabric

/-! ## Index consistency of the asset contract -/

namespace AssetCC

open Fabric

theorem IndexConsistent_empty : IndexConsistent ([] : World Bytes) :=
  ⟨fun _ _ h => by simp [World.get] at h, fun _ h => by simp [World.get] at h⟩

theorem IndexConsistent_create (w : World Bytes) (assetID owner : GoString) (doc : AssetJSON)
    (hdi : utf8 doc.assetID = assetID) (hdo : utf8 doc.owner = owner)
    (h : IndexConsistent w) (habsent : w.get assetID = none)
    (ho : validAttribute owner = true) (hi : validAttribute assetID = true)
    (hne : assetID ≠ []) :
    IndexConsistent
      ((w.put assetID (Bytes.json doc)).put (ownerKey owner assetID) Bytes.zero) := by
  have hidck : assetID ≠ ownerKey owner assetID := ne_ownerKey_of_validAttribute _ _ _ hi
  have hck : ((w.put assetID (Bytes.json doc)).put (ownerKey owner assetID) Bytes.zero).get
      (ownerKey owner assetID) = some Bytes.zero := World.get_put_self _ _ _
  have hid : ((w.put assetID (Bytes.json doc)).put (ownerKey owner assetID) Bytes.zero).get
      assetID = some (Bytes.json doc) := by
    rw [World.get_put_of_ne _ _ _ _ hidck]
    exact World.get_put_self _ _ _
  have hother : ∀ key : GoString, key ≠ ownerKey owner assetID → key ≠ assetID →
      ((w.put assetID (Bytes.json doc)).put (ownerKey owner assetID) Bytes.zero).get key =
        w.get key := by
    intro key h1 h2
    rw [World.get_put_of_ne _ _ _ _ h1, World.get_put_of_ne _ _ _ _ h2]
  refine ⟨?_, ?_⟩
  · intro key x hx
    by_cases h1 : key = ownerKey owner assetID
    · rw [h1, hck] at hx
      simp at hx
    · by_cases h2 : key = assetID
      · rw [h2, hid] at hx
        simp only [Option.some.injEq, Bytes.json.injEq] at hx
        rw [h2, ← hx, hdo]
        exact ⟨hdi, hne, hi, ho, hck⟩
      · rw [hother key h1 h2] at hx
        obtain ⟨ha, hb, hc, hd, he⟩ := h.assets key x hx
        refine ⟨ha, hb, hc, hd, ?_⟩
        by_cases h3 : ownerKey (utf8 x.owner) key = ownerKey owner assetID
        · rw [h3]
          exact hck
        · rw [hother _ h3 (Ne.symm (ne_ownerKey_of_validAttribute _ _ _ hi))]
          exact he
  · intro key hz
    by_cases h1 : key = ownerKey owner assetID
    · exact ⟨owner, assetID, doc, h1, hid, hdo⟩
    · by_cases h2 : key = assetID
      · rw [h2, hid] at hz
        simp at hz
      · rw [hother key h1 h2] at hz
        obtain ⟨o, i, x, hk, hgx, hxo⟩ := h.markers key hz
        obtain ⟨_, _, hvi, _, _⟩ := h.assets i x hgx
        have hi_id : i ≠ assetID := by
          intro heq
          rw [heq, habsent] at hgx
          exact Option.noConfusion hgx
        exact ⟨o, i, x, hk,
          by rw [hother i (ne_ownerKey_of_validAttribute _ _ _ hvi) hi_id]; exact hgx, hxo⟩

theorem IndexConsistent_update (w : World Bytes) (assetID : GoString) (stored doc : AssetJSON)
    (hdi : utf8 doc.assetID = assetID) (h : IndexConsistent w)
    (hget : w.get assetID = some (Bytes.json stored))
    (howner : utf8 doc.owner = utf8 stored.owner) :
    IndexConsistent (w.put assetID (Bytes.json doc)) := by
  obtain ⟨_, hsne, hsi, hso, hsm⟩ := h.assets _ _ hget
  refine ⟨?_, ?_⟩
  · intro key x hx
    by_cases h2 : key = assetID
    · rw [h2, World.get_put_self] at hx
      simp only [Option.some.injEq, Bytes.json.injEq] at hx
      rw [h2, ← hx]
      refine ⟨hdi, hsne, hsi, by rw [howner]; exact hso, ?_⟩
      rw [World.get_put_of_ne _ _ _ _ (Ne.symm (ne_ownerKey_of_validAttribute _ _ _ hsi)),
        howner]
      exact hsm
    · rw [World.get_put_of_ne _ _ _ _ h2] at hx
      obtain ⟨ha, hb, hc, hd, he⟩ := h.assets key x hx
      refine ⟨ha, hb, hc, hd, ?_⟩
      rw [World.get_put_of_ne _ _ _ _ (Ne.symm (ne_ownerKey_of_validAttribute _ _ _ hsi))]
      exact he
  · intro key hz
    by_cases h2 : key = assetID
    · rw [h2, World.get_put_self] at hz
      simp at hz
    · rw [World.get_put_of_ne _ _ _ _ h2] at hz
      obtain ⟨o, i, x, hk, hgx, hxo⟩ := h.markers key hz
      by_cases hi_id : i = assetID
      · refine ⟨o, i, doc, hk, by rw [hi_id]; exact World.get_put_self _ _ _, ?_⟩
        rw [hi_id, hget] at hgx
        simp only [Option.some.injEq, Bytes.json.injEq] at hgx
        rw [howner, hgx, hxo]
      · exact ⟨o, i, x, hk, by rw [World.get_put_of_ne _ _ _ _ hi_id]; exact hgx, hxo⟩

theorem IndexConsistent_delete (w : World Bytes) (stored : AssetJSON) (assetID : GoString)
    (h : IndexConsistent w) (hget : w.get assetID = some (Bytes.json stored)) :
    IndexConsistent ((w.del assetID).del (ownerKey (utf8 stored.owner) assetID)) := by
  obtain ⟨_, _, hsi, hso, _⟩ := h.assets _ _ hget
  have hnone : ∀ key : GoString, key = ownerKey (utf8 stored.owner) assetID ∨ key = assetID →
      ((w.del assetID).del (ownerKey (utf8 stored.owner) assetID)).get key = none := by
    intro key hk
    by_cases h1 : key = ownerKey (utf8 stored.owner) assetID
    · rw [h1]
      exact World.get_del_self _ _
    · rcases hk with hk | hk
      · exact absurd hk h1
      · rw [World.get_del_of_ne _ _ _ h1, hk]
        exact World.get_del_self _ _
  have hother : ∀ key : GoString, key ≠ ownerKey (utf8 stored.owner) assetID →
      key ≠ assetID →
      ((w.del assetID).del (ownerKey (utf8 stored.owner) assetID)).get key = w.get key := by
    intro key h1 h2
    rw [World.get_del_of_ne _ _ _ h1, World.get_del_of_ne _ _ _ h2]
  refine ⟨?_, ?_⟩
  · intro key x hx
    by_cases h1 : key = ownerKey (utf8 stored.owner) assetID ∨ key = assetID
    · rw [hnone key h1] at hx
      exact Option.noConfusion hx
    · simp only [not_or] at h1
      rw [hother key h1.1 h1.2] at hx
      obtain ⟨ha, hb, hc, hd, he⟩ := h.assets key x hx
      refine ⟨ha, hb, hc, hd, ?_⟩
      have hck : ownerKey (utf8 x.owner) key ≠ ownerKey (utf8 stored.owner) assetID :=
        fun heq => h1.2 (ownerKey_inj _ _ _ _ hd hso heq).2
      rw [hother _ hck (Ne.symm (ne_ownerKey_of_validAttribute _ _ _ hsi))]
      exact he
  · intro key hz
    by_cases h1 : key = ownerKey (utf8 stored.owner) assetID ∨ key = assetID
    · rw [hnone key h1] at hz
      exact Option.noConfusion hz
    · simp only [not_or] at h1
      rw [hother key h1.1 h1.2] at hz
      obtain ⟨o, i, x, hk, hgx, hxo⟩ := h.markers key hz
      obtain ⟨_, _, hvi, _, _⟩ := h.assets i x hgx
      have hi_id : i ≠ assetID := by
        intro heq
        rw [heq, hget] at hgx
        simp only [Option.some.injEq, Bytes.json.injEq] at hgx
        apply h1.1
        rw [hk, heq, ← hxo, hgx]
      exact ⟨o, i, x, hk,
        by rw [hother i (ne_ownerKey_of_validAttribute _ _ _ hvi) hi_id]; exact hgx, hxo⟩

theorem IndexConsistent_step (fmt : Timestamp → String) (w : World Bytes)
    (tx : Timestamp × Call) (h : IndexConsistent w)
    (hkeep : keepsOwner (Stub.new w tx.1 fmt) tx.2 = true) :
    IndexConsistent (step fmt w tx) := by
  obtain ⟨ts, call⟩ := tx
  cases call with
  | CreateAsset assetID name owner value =>
    simp only [step, invoke]
    cases hr : CreateAsset (Stub.new w ts fmt) assetID name owner value with
    | error e => exact h
    | ok stub' =>
      obtain ⟨v, hid, _, _, _, hg, ho, hi, hw⟩ := CreateAsset_ok _ _ _ _ _ _ hr
      simp only [commit, hw, Stub.new, applyWrites, List.nil_append, List.foldl_cons,
        List.foldl_nil, applyWrite]
      exact IndexConsistent_create w assetID owner _
        (utf8_decodeLossy _ (utf8Valid_of_validAttribute _ hi))
        (utf8_decodeLossy _ (utf8Valid_of_validAttribute _ ho)) h hg ho hi hid
  | UpdateAsset assetID name owner value =>
    simp only [step, invoke]
    cases hr : UpdateAsset (Stub.new w ts fmt) assetID name owner value with
    | error e => exact h
    | ok stub' =>
      obtain ⟨v, hid, _, _, hw⟩ := UpdateAsset_ok _ _ _ _ _ _ hr
      simp only [keepsOwner, hr] at hkeep
      cases hread : ReadAsset (Stub.new w ts fmt) assetID with
      | error e => simp [hread] at hkeep
      | ok existingAsset =>
        simp only [hread, decide_eq_true_eq] at hkeep
        obtain ⟨stored, hget, hstruct⟩ := (ReadAsset_eq_ok_iff _ _ _).1 hread
        have hso : utf8 stored.owner = owner := by
          rw [← hkeep, ← hstruct]
          rfl
        obtain ⟨hsid, _, _, _, _⟩ := h.assets _ _ hget
        simp only [commit, hw, Stub.new, applyWrites, List.nil_append, List.foldl_cons,
          List.foldl_nil, applyWrite]
        refine IndexConsistent_update w assetID stored _ ?_ h hget ?_
        · show utf8 (decodeLossy assetID) = assetID
          rw [← hsid, utf8_decodeLossy_utf8]
        · show utf8 (decodeLossy owner) = utf8 stored.owner
          rw [← hso, utf8_decodeLossy_utf8]
  | DeleteAsset assetID =>
    simp only [step, invoke]
    cases hr : DeleteAsset (Stub.new w ts fmt) assetID with
    | error e => exact h
    | ok stub' =>
      obtain ⟨a, hget, _, _, hw⟩ := DeleteAsset_ok _ _ _ hr
      simp only [commit, hw, Stub.new, applyWrites, List.nil_append, List.foldl_cons,
        List.foldl_nil, applyWrite]
      exact IndexConsistent_delete w a assetID h hget

theorem IndexConsistent_run (fmt : Timestamp → String) (txs : List (Timestamp × Call))
    (w : World Bytes) (h : IndexConsistent w) (hkeep : ownerPreserving fmt w txs = true) :
    IndexConsistent (run fmt w txs) := by
  induction txs generalizing w with
  | nil => exact h
  | cons tx rest ih =>
    simp only [ownerPreserving, Bool.and_eq_true] at hkeep
    simp only [run, List.foldl_cons]
    exact ih _ (IndexConsistent_step fmt w tx h hkeep.1) hkeep.2

theorem collectAssets_mem (stub : Stub Bytes) (l : World Bytes) (assets : List Asset)
    (h : collectAssets stub l = Except.ok assets) (a : Asset) (ha : a ∈ assets) :
    ∃ (key : GoString) (bytes : Bytes) (objectType : GoString) (keyParts : List GoString)
        (assetID : GoString),
      (key, bytes) ∈ l ∧ SplitCompositeKey key = Except.ok (objectType, keyParts) ∧
      keyParts.get? 1 = some assetID ∧ ReadAsset stub assetID = Except.ok a := by
  induction l generalizing assets with
  | nil =>
    simp only [collectAssets, Except.ok.injEq] at h
    rw [← h] at ha
    exact absurd ha (List.not_mem_nil _)
  | cons e rest ih =>
    obtain ⟨key, bytes⟩ := e
    unfold collectAssets at h
    cases hs : SplitCompositeKey key with
    | error err =>
      simp only [hs] at h
      exact Except.noConfusion h
    | ok parts =>
      obtain ⟨objectType, keyParts⟩ := parts
      cases hp : keyParts.get? 1 with
      | none =>
        simp only [hs, hp] at h
        exact Except.noConfusion h
      | some assetID =>
        cases hr : ReadAsset stub assetID with
        | error err =>
          simp only [hs, hp, hr] at h
          exact Except.noConfusion h
        | ok asset =>
          cases hc : collectAssets stub rest with
          | error err =>
            simp only [hs, hp, hr, hc] at h
            exact Except.noConfusion h
          | ok others =>
            simp only [hs, hp, hr, hc, Except.ok.injEq] at h
            rw [← h] at ha
            rcases List.mem_cons.1 ha with h1 | h1
            · exact ⟨key, bytes, objectType, keyParts, assetID, List.mem_cons_self _ _, hs, hp,
                by rw [h1]; exact hr⟩
            · obtain ⟨k, b, ot, kp, i, hm, h2, h3, h4⟩ := ih others hc h1
              exact ⟨k, b, ot, kp, i, List.mem_cons_of_mem _ hm, h2, h3, h4⟩

/-- In an index-consistent state every index entry of any pair has a backing
asset of that owner, and every stored asset has the index entry of its own
`(Owner, AssetID)` and no entry under another owner. -/
theorem IndexConsistent_entries (w : World Bytes) (h : IndexConsistent w) :
    (∀ (assetID : GoString) (doc : AssetJSON), w.get assetID = some (Bytes.json doc) →
      doc.toStruct.AssetID = assetID ∧
      w.get (ownerKey doc.toStruct.Owner doc.toStruct.AssetID) ≠ none ∧
      ∀ owner : GoString, w.get (ownerKey owner doc.toStruct.AssetID) ≠ none →
        owner = doc.toStruct.Owner) ∧
    (∀ owner assetID : GoString, w.get (ownerKey owner assetID) ≠ none →
      ∃ doc : AssetJSON, w.get assetID = some (Bytes.json doc) ∧
        doc.toStruct.Owner = owner) := by
  have hback : ∀ owner assetID : GoString, w.get (ownerKey owner assetID) ≠ none →
      ∃ doc : AssetJSON, w.get assetID = some (Bytes.json doc) ∧ utf8 doc.owner = owner := by
    intro owner assetID hne
    cases hg : w.get (ownerKey owner assetID) with
    | none => exact absurd hg hne
    | some bytes =>
      cases bytes with
      | json x =>
        obtain ⟨_, _, hv, _, _⟩ := h.assets _ x hg
        exact absurd rfl (ne_ownerKey_of_validAttribute _ owner assetID hv)
      | zero =>
        obtain ⟨o, i, x, hk, hgx, hxo⟩ := h.markers _ hg
        obtain ⟨_, _, hvi, hvo, _⟩ := h.assets i x hgx
        rw [hxo] at hvo
        obtain ⟨h1, h2⟩ := ownerKey_inj_right _ _ _ _ hvo hvi hk
        exact ⟨x, by rw [h2]; exact hgx, by rw [h1]; exact hxo⟩
  refine ⟨?_, hback⟩
  intro assetID doc hg
  obtain ⟨hid, _, _, _, hm⟩ := h.assets assetID doc hg
  have hai : doc.toStruct.AssetID = utf8 doc.assetID := rfl
  have hao : doc.toStruct.Owner = utf8 doc.owner := rfl
  refine ⟨by rw [hai, hid], by rw [hai, hao, hid, hm]; simp, ?_⟩
  intro owner hne
  rw [hai, hid] at hne
  obtain ⟨x, hgx, hxo⟩ := hback owner assetID hne
  rw [hg] at hgx
  simp only [Option.some.injEq, Bytes.json.injEq] at hgx
  rw [← hxo, hao, hgx]

theorem QueryAssetsByOwner_owner (w : World Bytes) (ts : Timestamp)
    (fmt : Timestamp → String) (owner : GoString) (assets : List Asset)
    (h : IndexConsistent w)
    (hq : QueryAssetsByOwner (Stub.new w ts fmt) owner = Except.ok assets) :
    ∀ a ∈ assets, a.Owner = owner := by
  intro a ha
  by_cases ho : validAttribute owner = true
  · rw [QueryAssetsByOwner_valid _ _ ho] at hq
    obtain ⟨key, bytes, ot, kp, i, hmem, hsplit, hpart, hread⟩ :=
      collectAssets_mem _ _ _ hq a ha
    simp only [Stub.new, World.range] at hmem
    rw [List.mem_filter, inScan_iff] at hmem
    obtain ⟨hw, hin⟩ := hmem
    obtain ⟨b, hb⟩ := World.get_isSome_of_mem w key bytes hw
    cases b with
    | json x =>
      obtain ⟨_, _, hv, _, _⟩ := h.assets key x hb
      exact absurd hin (scan_excludes_ids key owner hv)
    | zero =>
      obtain ⟨o, j, x, hk, hgx, hxo⟩ := h.markers key hb
      obtain ⟨_, _, hvj, hvo, _⟩ := h.assets j x hgx
      rw [hxo] at hvo
      rw [hk] at hin hsplit
      have hoo := scan_owner_eq owner o j ho hvo hin.1 hin.2
      rw [SplitCompositeKey_ownerKey o j hvo hvj] at hsplit
      simp only [Except.ok.injEq, Prod.mk.injEq] at hsplit
      rw [← hsplit.2] at hpart
      simp only [List.get?, Option.some.injEq] at hpart
      rw [← hpart] at hread
      obtain ⟨doc, hga, hstruct⟩ := (ReadAsset_eq_ok_iff _ _ _).1 hread
      simp only [Stub.new] at hga
      rw [hgx] at hga
      simp only [Option.some.injEq, Bytes.json.injEq] at hga
      rw [← hstruct, ← hga, ← hoo, ← hxo]
      rfl
  · have hne : ∃ e, validateCompositeKeyAttribute owner = Except.error e := by
      cases hv : validateCompositeKeyAttribute owner with
      | error e => exact ⟨e, rfl⟩
      | ok u => exact absurd (validAttribute_of_ok _ _ hv) ho
    obtain ⟨e, he⟩ := hne
    simp [QueryAssetsByOwner, GetStateByPartialCompositeKey, CreateCompositeKey_ownerPrefix,
      he] at hq

/-- C18: index consistency holds in the empty ledger; it is preserved by every
CreateAsset call, every DeleteAsset call and every UpdateAsset call that fails
or whose owner argument is the stored owner of the asset; hence it holds after
every sequence of calls without an owner-changing update.  In an
index-consistent state every stored asset has the index entry of its
`(Owner, AssetID)` and no entry under another owner, every index entry has a
backing asset, and every asset returned by QueryAssetsByOwner(o) has owner
`o`. -/
theorem index_consistency_preserved :
    IndexConsistent ([] : World Bytes) ∧
    (∀ (fmt : Timestamp → String) (w : World Bytes) (tx : Timestamp × Call),
      IndexConsistent w → keepsOwner (Stub.new w tx.1 fmt) tx.2 = true →
      IndexConsistent (step fmt w tx)) ∧
    (∀ (fmt : Timestamp → String) (txs : List (Timestamp × Call)),
      ownerPreserving fmt [] txs = true → IndexConsistent (run fmt [] txs)) ∧
    (∀ w : World Bytes, IndexConsistent w →
      (∀ (assetID : GoString) (doc : AssetJSON), w.get assetID = some (Bytes.json doc) →
        doc.toStruct.AssetID = assetID ∧
        w.get (ownerKey doc.toStruct.Owner doc.toStruct.AssetID) ≠ none ∧
        ∀ owner : GoString, w.get (ownerKey owner doc.toStruct.AssetID) ≠ none →
          owner = doc.toStruct.Owner) ∧
      (∀ owner assetID : GoString, w.get (ownerKey owner assetID) ≠ none →
        ∃ doc : AssetJSON, w.get assetID = some (Bytes.json doc) ∧
          doc.toStruct.Owner = owner)) ∧
    (∀ (w : World Bytes) (ts : Timestamp) (fmt : Timestamp → String) (owner : GoString)
        (assets : List Asset),
      IndexConsistent w →
      QueryAssetsByOwner (Stub.new w ts fmt) owner = Except.ok assets →
      ∀ a ∈ assets, a.Owner = owner) :=
  ⟨IndexConsistent_empty,
   fun fmt w tx h hk => IndexConsistent_step fmt w tx h hk,
   fun fmt txs hk => IndexConsistent_run fmt txs [] IndexConsistent_empty hk,
   IndexConsistent_entries,
   fun w ts fmt owner assets h hq => QueryAssetsByOwner_owner w ts fmt owner assets h hq⟩

/-- Worked instance of C18 on `sampleCalls`: the state reached is index-consistent
and the query of `alice` returns her asset `A1`, in its updated form. -/
theorem index_consistency_preserved_witness :
    ownerPreserving epochFormat [] sampleCalls = true ∧
    IndexConsistent (run epochFormat [] sampleCalls) ∧
    QueryAssetsByOwner (Stub.new (run epochFormat [] sampleCalls) epoch epochFormat)
        (utf8 "alice") =
      Except.ok [{ AssetID := utf8 "A1", Name := utf8 "Widget2", Owner := utf8 "alice",
                   Value := 150 }] :=
  ⟨by decide, index_consistency_preserved.2.2.1 epochFormat sampleCalls (by decide),
   by decide⟩

end AssetCC

/-! ## Frame properties -/

namespace AssetCC

open Fabric

theorem ne_ownerKey_of_simpleKey (key owner assetID : GoString) (h : simpleKey key = true) :
    key ≠ ownerKey owner assetID := by
  intro heq
  simp only [simpleKey, decide_eq_true_eq] at h
  apply h
  rw [heq, ownerKey_eq]
  rfl

/-- A read operation leaves the world state as it was: the stub it leaves behind
has no write. -/
theorem commit_read_asset (w : World Bytes) (ts : Timestamp) (fmt : Timestamp → String)
    (op : Operation) (hread : op.isRead = true) :
    commit w (transact (Stub.new w ts fmt) op) = w := by
  cases op with
  | CreateAsset assetID name owner value => exact Bool.noConfusion hread
  | UpdateAsset assetID name owner value => exact Bool.noConfusion hread
  | DeleteAsset assetID => exact Bool.noConfusion hread
  | ReadAsset assetID => simp only [transact]; split <;> rfl
  | AssetExists assetID => simp only [transact]; split <;> rfl
  | QueryAssetsByOwner owner => simp only [transact]; split <;> rfl

theorem CreateAsset_frame (w : World Bytes) (ts : Timestamp) (fmt : Timestamp → String)
    (assetID name owner value other : GoString) (hne : assetID ≠ other)
    (hother : simpleKey other = true) :
    (commit w (CreateAsset (Stub.new w ts fmt) assetID name owner value)).get other =
      w.get other ∧
    ∀ o : GoString,
      (commit w (CreateAsset (Stub.new w ts fmt) assetID name owner value)).get
        (ownerKey o other) = w.get (ownerKey o other) := by
  cases hr : CreateAsset (Stub.new w ts fmt) assetID name owner value with
  | error e => exact ⟨rfl, fun _ => rfl⟩
  | ok stub' =>
    obtain ⟨v, _, _, _, _, _, ho, hi, hw⟩ := CreateAsset_ok _ _ _ _ _ _ hr
    simp only [commit, hw, Stub.new, applyWrites, List.nil_append, List.foldl_cons,
      List.foldl_nil, applyWrite]
    refine ⟨?_, ?_⟩
    · rw [World.get_put_of_ne _ _ _ _ (ne_ownerKey_of_simpleKey _ _ _ hother),
        World.get_put_of_ne _ _ _ _ (Ne.symm hne)]
    · intro o
      have h1 : ownerKey o other ≠ ownerKey owner assetID :=
        fun heq => hne (ownerKey_inj_right _ _ _ _ ho hi heq).2.symm
      rw [World.get_put_of_ne _ _ _ _ h1,
        World.get_put_of_ne _ _ _ _ (Ne.symm (ne_ownerKey_of_validAttribute _ _ _ hi))]

theorem UpdateAsset_frame (w : World Bytes) (ts : Timestamp) (fmt : Timestamp → String)
    (assetID name owner value other : GoString) (hne : assetID ≠ other)
    (hid : simpleKey assetID = true) :
    (commit w (UpdateAsset (Stub.new w ts fmt) assetID name owner value)).get other =
      w.get other ∧
    ∀ o : GoString,
      (commit w (UpdateAsset (Stub.new w ts fmt) assetID name owner value)).get
        (ownerKey o other) = w.get (ownerKey o other) := by
  cases hr : UpdateAsset (Stub.new w ts fmt) assetID name owner value with
  | error e => exact ⟨rfl, fun _ => rfl⟩
  | ok stub' =>
    obtain ⟨v, _, _, _, hw⟩ := UpdateAsset_ok _ _ _ _ _ _ hr
    simp only [commit, hw, Stub.new, applyWrites, List.nil_append, List.foldl_cons,
      List.foldl_nil, applyWrite]
    exact ⟨World.get_put_of_ne _ _ _ _ (Ne.symm hne),
      fun o => World.get_put_of_ne _ _ _ _ (Ne.symm (ne_ownerKey_of_simpleKey _ _ _ hid))⟩

theorem DeleteAsset_frame (w : World Bytes) (ts : Timestamp) (fmt : Timestamp → String)
    (assetID other : GoString) (hne : assetID ≠ other) (hother : simpleKey other = true) :
    (commit w (DeleteAsset (Stub.new w ts fmt) assetID)).get other = w.get other ∧
    ∀ o : GoString,
      (commit w (DeleteAsset (Stub.new w ts fmt) assetID)).get (ownerKey o other) =
        w.get (ownerKey o other) := by
  cases hr : DeleteAsset (Stub.new w ts fmt) assetID with
  | error e => exact ⟨rfl, fun _ => rfl⟩
  | ok stub' =>
    obtain ⟨a, _, ho, hi, hw⟩ := DeleteAsset_ok _ _ _ hr
    simp only [commit, hw, Stub.new, applyWrites, List.nil_append, List.foldl_cons,
      List.foldl_nil, applyWrite]
    refine ⟨?_, ?_⟩
    · rw [World.get_del_of_ne _ _ _ (ne_ownerKey_of_simpleKey _ _ _ hother),
        World.get_del_of_ne _ _ _ (Ne.symm hne)]
    · intro o
      have h1 : ownerKey o other ≠ ownerKey (utf8 a.owner) assetID :=
        fun heq => hne (ownerKey_inj_right _ _ _ _ ho hi heq).2.symm
      rw [World.get_del_of_ne _ _ _ h1,
        World.get_del_of_ne _ _ _ (Ne.symm (ne_ownerKey_of_validAttribute _ _ _ hi))]

end AssetCC

namespace Fabric

/-- C20 as stated fails on ids that are index keys.  With `id = "A1"` and `id'`
the index key of `(alice, A1)`, `CreateAsset("A1", ..., "alice", ...)` stores a
value under `id'`, so that `AssetExists(id')` turns from false to true; and with
`id` that index key and `id' = "A1"`, `UpdateAsset(id, ...)` replaces the value of
the index entry `(alice, A1)`. -/
theorem index_key_as_id_breaks_frame :
    utf8 "A1" ≠ AssetCC.ownerKey (utf8 "alice") (utf8 "A1") ∧
    AssetCC.AssetExists (Stub.new [] epoch epochFormat)
      (AssetCC.ownerKey (utf8 "alice") (utf8 "A1")) = Except.ok false ∧
    AssetCC.AssetExists
      (Stub.new
        (commit []
          (AssetCC.CreateAsset (Stub.new [] epoch epochFormat) (utf8 "A1") (utf8 "Widget")
            (utf8 "alice") (utf8 "100")))
        epoch epochFormat) (AssetCC.ownerKey (utf8 "alice") (utf8 "A1")) = Except.ok true ∧
    AssetCC.createdLedger.get (AssetCC.ownerKey (utf8 "alice") (utf8 "A1")) =
      some AssetCC.Bytes.zero ∧
    (commit AssetCC.createdLedger
      (AssetCC.UpdateAsset (Stub.new AssetCC.createdLedger epoch epochFormat)
        (AssetCC.ownerKey (utf8 "alice") (utf8 "A1")) (utf8 "Widget") (utf8 "bob")
        (utf8 "1"))).get (AssetCC.ownerKey (utf8 "alice") (utf8 "A1")) =
      some (AssetCC.Bytes.json
        { assetID := decodeLossy (AssetCC.ownerKey (utf8 "alice") (utf8 "A1")),
          name := "Widget", owner := "bob", value := 1 }) := by
  decide

/-- C20, amended: operations touch only the keys of the identifier they are given,
for identifiers that are simple keys (not starting with U+0000).  For
`id ≠ id'`, RegisterProduct(id) and UpdateStatus(id, s) leave the stored record of
`id'` unchanged; for simple keys `id ≠ id'`, CreateAsset(id, ...), UpdateAsset(id, ...)
and DeleteAsset(id) leave the primary record of `id'` and every index entry
`(o, id')` unchanged; and the read operations of both contracts leave the whole
ledger unchanged. -/
theorem operations_frame :
    (∀ (w : World SupplyChain.Bytes) (ts : Timestamp) (fmt : Timestamp → String)
        (productID other : GoString),
      productID ≠ other →
      (commit w (SupplyChain.RegisterProduct (Stub.new w ts fmt) productID)).get other =
        w.get other ∧
      ∀ newStatus : GoString,
        (commit w (SupplyChain.UpdateStatus (Stub.new w ts fmt) productID newStatus)).get other =
          w.get other) ∧
    (∀ (w : World AssetCC.Bytes) (ts : Timestamp) (fmt : Timestamp → String)
        (assetID name owner value other : GoString),
      assetID ≠ other → simpleKey assetID = true → simpleKey other = true →
      ((commit w (AssetCC.CreateAsset (Stub.new w ts fmt) assetID name owner value)).get other =
          w.get other ∧
        ∀ o : GoString,
          (commit w (AssetCC.CreateAsset (Stub.new w ts fmt) assetID name owner value)).get
            (AssetCC.ownerKey o other) = w.get (AssetCC.ownerKey o other)) ∧
      ((commit w (AssetCC.UpdateAsset (Stub.new w ts fmt) assetID name owner value)).get other =
          w.get other ∧
        ∀ o : GoString,
          (commit w (AssetCC.UpdateAsset (Stub.new w ts fmt) assetID name owner value)).get
            (AssetCC.ownerKey o other) = w.get (AssetCC.ownerKey o other)) ∧
      ((commit w (AssetCC.DeleteAsset (Stub.new w ts fmt) assetID)).get other = w.get other ∧
        ∀ o : GoString,
          (commit w (AssetCC.DeleteAsset (Stub.new w ts fmt) assetID)).get
            (AssetCC.ownerKey o other) = w.get (AssetCC.ownerKey o other))) ∧
    (∀ (w : World AssetCC.Bytes) (ts : Timestamp) (fmt : Timestamp → String)
        (op : AssetCC.Operation),
      op.isRead = true → commit w (AssetCC.transact (Stub.new w ts fmt) op) = w) ∧
    (∀ (w : World SupplyChain.Bytes) (ts : Timestamp) (fmt : Timestamp → String)
        (op : SupplyChain.Operation),
      op.isRead = true → commit w (SupplyChain.transact (Stub.new w ts fmt) op) = w) :=
  ⟨fun w ts fmt productID other hne => SupplyChain.writers_frame w ts fmt productID other hne,
   fun w ts fmt assetID name owner value other hne hid hother =>
     ⟨AssetCC.CreateAsset_frame w ts fmt assetID name owner value other hne hother,
      AssetCC.UpdateAsset_frame w ts fmt assetID name owner value other hne hid,
      AssetCC.DeleteAsset_frame w ts fmt assetID other hne hother⟩,
   fun w ts fmt op h => AssetCC.commit_read_asset w ts fmt op h,
   fun w ts fmt op h => SupplyChain.commit_read w ts fmt op h⟩

/-- Worked instance of C20: on the sample ledger, deleting `A2` leaves the record
of `A1` and its index entry as they were. -/
theorem operations_frame_witness :
    ((commit (AssetCC.run epochFormat [] AssetCC.sampleCalls)
        (AssetCC.DeleteAsset (Stub.new (AssetCC.run epochFormat [] AssetCC.sampleCalls)
          epoch epochFormat) (utf8 "A2"))).get (utf8 "A1") =
      (AssetCC.run epochFormat [] AssetCC.sampleCalls).get (utf8 "A1") ∧
     ∀ o : GoString,
      (commit (AssetCC.run epochFormat [] AssetCC.sampleCalls)
        (AssetCC.DeleteAsset (Stub.new (AssetCC.run epochFormat [] AssetCC.sampleCalls)
          epoch epochFormat) (utf8 "A2"))).get (AssetCC.ownerKey o (utf8 "A1")) =
      (AssetCC.run epochFormat [] AssetCC.sampleCalls).get (AssetCC.ownerKey o (utf8 "A1"))) ∧
    failureKind
      (AssetCC.DeleteAsset (Stub.new (AssetCC.run epochFormat [] AssetCC.sampleCalls)
        epoch epochFormat) (utf8 "A2")) = none :=
  ⟨(operations_frame.2.1 (AssetCC.run epochFormat [] AssetCC.sampleCalls) epoch epochFormat
      (utf8 "A2") [] [] [] (utf8 "A1") (by decide) (by decide) (by decide)).2.2,
   by decide⟩

end Fabric
